import Mathlib

/-!
Verification development for doppioh (src/console/doppioh.ts), the stub and
header generator of the doppio repository.  The TypeScript source is embedded
shallowly: pure string manipulations become Lean functions on `String` and
`List Char`, the mutable template/cache state becomes an explicit state record
threaded through the operations, JavaScript exceptions become explicit error
values that are propagated (and, where the source catches them, swallowed)
by the embedded control flow, and the unbounded recursion of `findClass` and
of the generate-queue drain loop is made total with an explicit fuel
parameter (a run that would not terminate is mapped to a `fuel` error).
-/

namespace Doppioh

/-- Error values standing for the JavaScript exceptions thrown by doppioh:
`resolution d` stands for the `Unable to find class`/`Unable to read class
file for d` errors of `loadClass`/`findClass`, `ambiguous` for the
`Ambiguous.` error of `tstype2jvmtype`, `nonReference` for the crash that
would follow from a non-reference class object reaching code that expects a
`ReferenceClassData`, and `fuel` for exhaustion of the explicit fuel that
replaces the source's unbounded recursion. -/
inductive DErr where
  | resolution (desc : String)
  | ambiguous
  | nonReference
  | fuel
deriving DecidableEq, Repr

/-- Embedding of the JavaScript `s.replace(/a/g, bs)` for a single-character
pattern `a`: every occurrence of `a` is replaced by the string `bs`. -/
def jsReplaceAll (a : Char) (bs : List Char) : List Char → List Char
  | [] => []
  | c :: r => (if c = a then bs else [c]) ++ jsReplaceAll a bs r

/-- Embedding of the JavaScript `s.replace(/\/\//g, '_')`: scanning left to
right, each non-overlapping occurrence of `//` is replaced by `_`. -/
def collapseSlashes : List Char → List Char
  | [] => []
  | '/' :: '/' :: rest => '_' :: collapseSlashes rest
  | c :: rest => c :: collapseSlashes rest

/-- Embedding of the JavaScript `s.slice(a, b)` for `0 ≤ a ≤ b` (clamped). -/
def jsSlice (l : List Char) (a b : Nat) : List Char :=
  (l.drop a).take (b - a)

/-- Separator join, as the JavaScript `Array.prototype.join`. -/
def joinSep (sep : String) : List String → String
  | [] => ""
  | [x] => x
  | x :: r => x ++ sep ++ joinSep sep r

/-- Modelled from the spec: `util.descriptor2typestr` (the utility library is
not part of src/); section 3 of the spec fixes the descriptor format
`L<name>;` for reference types, and the internal type name is `<name>`, so
the conversion strips the leading `L` and the trailing `;`. -/
def descriptor2typestrL (l : List Char) : List Char :=
  (l.drop 1).dropLast

/-- Modelled from the spec: `util.descriptor2typestr` on `String`. -/
def descriptor2typestr (d : String) : String :=
  String.mk (descriptor2typestrL d.data)

/-- Modelled from the spec: `util.is_primitive_type` (the utility library is
not part of src/); section 3 of the spec fixes single-character descriptors
for primitives and void. -/
def is_primitive_type (d : String) : Bool :=
  d = "B" ∨ d = "C" ∨ d = "D" ∨ d = "F" ∨ d = "I" ∨ d = "J" ∨ d = "S" ∨
    d = "Z" ∨ d = "V"

/-- Modelled from the spec: `util.int_classname` (the utility library is not
part of src/); it converts an externally written class name to its internal
reference descriptor `L<name>;` with `.` package separators rewritten to
`/`. -/
def int_classname (name : String) : String :=
  "L" ++ String.mk (jsReplaceAll '.' ['/'] name.data) ++ ";"

/-- The escaping applied by `jvmtype2tstype` to a reference-type internal
name (doppioh.ts line 376): first `replace(/_/g, '__')`, then
`replace(/\//g, '_')`. -/
def escapeNameL (l : List Char) : List Char :=
  jsReplaceAll '/' ['_'] (jsReplaceAll '_' ['_', '_'] l)

/-- Embedding of `TSTemplate.jvmtype2tstype` (doppioh.ts lines 369-385), the
pure name computation.  The source function additionally calls
`generateClassDefinition` on every reference descriptor it converts; that
side effect is embedded separately as `tstypeRefs` and is applied by the
stateful pipeline wherever the source evaluates `jvmtype2tstype`. -/
def jvmtype2tstypeL (pre : Bool) : List Char → List Char
  | '[' :: rest =>
      (if pre then "JVMTypes.".data else []) ++ "JVMArray<".data ++
        jvmtype2tstypeL pre rest ++ ">".data
  | 'L' :: rest =>
      (if pre then "JVMTypes.".data else []) ++
        escapeNameL (descriptor2typestrL ('L' :: rest))
  | 'J' :: _ => "Long".data
  | 'V' :: _ => "void".data
  | _ => "number".data

/-- Embedding of `TSTemplate.jvmtype2tstype` on `String`; `pre` is the
source's `prefix` argument (default `true`). -/
def jvmtype2tstype (pre : Bool) (desc : String) : String :=
  String.mk (jvmtype2tstypeL pre desc.data)

/-- The reference descriptors on which the source's `jvmtype2tstype` calls
`generateClassDefinition` while converting `desc`: the descriptor itself for
a reference type, recursively the component for an array, nothing for
primitives. -/
def tstypeRefs : List Char → List String
  | '[' :: rest => tstypeRefs rest
  | 'L' :: rest => [String.mk ('L' :: rest)]
  | _ => []

/-- Embedding of `TSTemplate.tstype2jvmtype` (doppioh.ts lines 390-401) on
`List Char`.  `indexOf('JVMArray') === 0` is the 8-character prefix test;
the recursive call receives `tsType.slice(9, tsType.length - 1)`; the name
branch is `` `L${tsType.replace(/_/g, '/').replace(/\/\//g, '_')};` ``.
The source recursion terminates because each unwrapping strips at least ten
characters; here that is expressed with a fuel argument that every actual
call supplies in excess (`length + 1`), so the fuel branch is unreachable. -/
def tstype2jvmtypeF : Nat → List Char → Except DErr (List Char)
  | 0, _ => .error .fuel
  | fuel + 1, t =>
    if t.take 8 = "JVMArray".data then
      match tstype2jvmtypeF fuel (jsSlice t 9 (t.length - 1)) with
      | .error e => .error e
      | .ok inner => .ok ('[' :: inner)
    else if t = "number".data then .error .ambiguous
    else if t = "void".data then .ok "V".data
    else .ok ('L' :: collapseSlashes (jsReplaceAll '_' ['/'] t) ++ [';'])

/-- Embedding of `TSTemplate.tstype2jvmtype` on `String`. -/
def tstype2jvmtype (t : String) : Except DErr String :=
  (tstype2jvmtypeF (t.length + 1) t.data).map String.mk

/-- The no-underscore-after-slash condition under which the doubling/
substitution escaping of reference-type names is invertible: scanning the
name, a `/` is never immediately followed by `/` or `_`. -/
def goodChain : List Char → Bool
  | '/' :: b :: rest => (!(b = '/') && !(b = '_')) && goodChain (b :: rest)
  | _ :: rest => goodChain rest
  | [] => true

instance {e a : Type} [DecidableEq e] [DecidableEq a] :
    DecidableEq (Except e a) := fun x y =>
  match x, y with
  | .ok u, .ok v =>
      if h : u = v then .isTrue (by rw [h])
      else .isFalse (by intro hc; injection hc; contradiction)
  | .error u, .error v =>
      if h : u = v then .isTrue (by rw [h])
      else .isFalse (by intro hc; injection hc; contradiction)
  | .ok _, .error _ => .isFalse (by intro hc; injection hc)
  | .error _, .ok _ => .isFalse (by intro hc; injection hc)

/-! ### Class metadata and the resolver `findClass` -/

/-- A parsed method, with the fields doppioh reads: `signature`,
`fullSignature`, the access flags consulted through `accessFlags`, the
parameter and return descriptors, and the interface flag of the class the
method is defined on (`m.cls.accessFlags.isInterface()`), which matters for
default methods replayed onto other classes. -/
structure Method where
  signature : String := ""
  fullSignature : String := ""
  isStatic : Bool := false
  isNative : Bool := false
  parameterTypes : List String := []
  returnType : String := "V"
  clsIsInterface : Bool := false
deriving DecidableEq, Repr

/-- A parsed field, with the fields doppioh reads: `name`, `rawDescriptor`,
the static flag, and the internal name and interface flag of the owning
class (`f.cls`). -/
structure Field where
  name : String := ""
  rawDescriptor : String := "I"
  isStatic : Bool := false
  clsDesc : String := ""
  clsIsInterface : Bool := false
deriving DecidableEq, Repr

/-- Parsed reference-class metadata, as produced by the class-file parser
(an external collaborator; the accessors used by doppioh are
`getSuperClassReference().name`, `getInterfaceClassReferences()[i].name`,
`accessFlags.isInterface()`, `getFields`, `getMethods`,
`getMirandaAndDefaultMethods`, `getUninheritedDefaultMethods`,
`getInjectedFields/Methods/StaticMethods`).  Reference names are
descriptors, `Ljava/lang/Object;` style. -/
structure RawClass where
  superRef : Option String := none
  interfaceRefs : List String := []
  isInterface : Bool := false
  fields : List Field := []
  methods : List Method := []
  injectedFields : List (String × String) := []
  injectedMethods : List (String × String) := []
  injectedStaticMethods : List (String × String) := []
  mirandaAndDefaultMethods : List Method := []
  uninheritedDefaultMethods : List Method := []
deriving DecidableEq, Repr

/-- The three kinds of class objects `findClass` can build:
`ReferenceClassData`, `ArrayClassData` (which stores the component
descriptor, `descriptor.slice(1)`), and `PrimitiveClassData`.  The
`setResolved` call stores the resolved superclass/interface objects on the
reference class; no emission path reads them, so they are not modelled. -/
inductive ClassData where
  | ref (desc : String) (info : RawClass)
  | arr (componentDesc : String)
  | prim (desc : String)
deriving DecidableEq, Repr

/-- The classpath contents visible to `loadClass`: internal type name
(`java/lang/Object` style) ↦ parsed class.  The classpath scanning and
class-file parsing are external collaborators; this is their combined
observable behaviour for this run. -/
structure Env where
  classes : List (String × RawClass)
deriving DecidableEq, Repr

/-- Association-list lookup, the JavaScript `object[key]` read. -/
def alookup {α : Type} : List (String × α) → String → Option α
  | [], _ => none
  | (k, v) :: r, key => if key = k then some v else alookup r key

/-- Embedding of `loadClass` (doppioh.ts lines 157-171): the classpath scan
returning the parsed bytes for a type name, or failing.  The three-valued
presence probe and the byte-to-metadata parse are collapsed into the
environment lookup. -/
def loadClass (env : Env) (typeName : String) : Option RawClass :=
  alookup env.classes typeName

/-- The resolution cache `cache` of doppioh.ts line 105. -/
abbrev Cache := List (String × ClassData)

/-- The key set of the resolution cache. -/
def cacheKeys (cache : Cache) : List String := cache.map Prod.fst

/-- Result of one `findClass` invocation: a trace of every invocation it
performed, each recorded as `(descriptor, cache keys at entry)`; the cache
after the call (mutations made before a thrown error persist, as with the
source's shared mutable `cache` object); and the returned class or the
error thrown. -/
structure FCRes where
  trace : List (String × List String)
  cache : Cache
  result : Except DErr ClassData
deriving Repr

/-- One step of the interface-resolution loop
`interfaceClassRefs.map(iface => findClass(iface.name))` of doppioh.ts line
192: resolve the next interface with the shared cache, stopping at the
first error (a thrown exception aborts the `map`), which the enclosing
`catch` rewraps as a resolution error for `desc`. -/
def ifaceStep (fc : Cache → String → FCRes) (desc : String)
    (acc : List (String × List String) × Cache × Option DErr) (i : String) :
    List (String × List String) × Cache × Option DErr :=
  match acc.2.2 with
  | some _ => acc
  | none =>
    let ri := fc acc.2.1 i
    match ri.result with
    | .error _ => (acc.1 ++ ri.trace, ri.cache, some (DErr.resolution desc))
    | .ok _ => (acc.1 ++ ri.trace, ri.cache, none)

/-- The superclass-reference resolution of doppioh.ts lines 184-190:
resolve `superClassRef.name` when present, with the enclosing `catch`
rewrapping a thrown error as a resolution error for `desc`. -/
def resolveSup (fc : Cache → String → FCRes) (desc : String)
    (info : RawClass) (cache : Cache) :
    List (String × List String) × Cache × Option DErr :=
  match info.superRef with
  | some s =>
    match (fc cache s).result with
    | .error _ =>
        ((fc cache s).trace, (fc cache s).cache, some (DErr.resolution desc))
    | .ok _ => ((fc cache s).trace, (fc cache s).cache, none)
  | none => ([], cache, none)

/-- The superclass-then-interfaces resolution of doppioh.ts lines 184-194:
the superclass reference first (lines 188-190), then each interface
reference in order (lines 191-193); a thrown error aborts the rest. -/
def resolveSupIfaces (fc : Cache → String → FCRes) (desc : String)
    (info : RawClass) (cache : Cache) :
    List (String × List String) × Cache × Option DErr :=
  match (resolveSup fc desc info cache).2.2 with
  | some e =>
      ((resolveSup fc desc info cache).1,
        (resolveSup fc desc info cache).2.1, some e)
  | none =>
      info.interfaceRefs.foldl (ifaceStep fc desc)
        ((resolveSup fc desc info cache).1,
          (resolveSup fc desc info cache).2.1, (none : Option DErr))

/-- The body of `findClass` (doppioh.ts lines 174-207), parameterized by
the resolver `fc` used for the recursive calls: return the cached class on
a hit; otherwise dispatch on the first descriptor character; for a
reference type, load and parse the bytes, resolve the superclass reference
and then each interface reference recursively, and only then insert the
class into the cache (line 203 runs after the recursion of lines 188-193).
The `catch` of line 205 rewraps any error as a resolution error carrying
`desc`; cache mutations made by completed recursive calls persist. -/
def findClassBody (env : Env) (fc : Cache → String → FCRes)
    (cache : Cache) (desc : String) : FCRes :=
  match alookup cache desc with
  | some cd => ⟨[], cache, .ok cd⟩
  | none =>
    match desc.data with
    | 'L' :: _ =>
      match loadClass env (descriptor2typestr desc) with
      | none => ⟨[], cache, .error (.resolution desc)⟩
      | some info =>
        match (resolveSupIfaces fc desc info cache).2.2 with
        | some e =>
            ⟨(resolveSupIfaces fc desc info cache).1,
              (resolveSupIfaces fc desc info cache).2.1, .error e⟩
        | none =>
            ⟨(resolveSupIfaces fc desc info cache).1,
              (desc, ClassData.ref desc info) ::
                (resolveSupIfaces fc desc info cache).2.1,
              .ok (ClassData.ref desc info)⟩
    | '[' :: rest =>
        ⟨[], (desc, ClassData.arr (String.mk rest)) :: cache,
          .ok (ClassData.arr (String.mk rest))⟩
    | _ => ⟨[], (desc, ClassData.prim desc) :: cache,
          .ok (ClassData.prim desc)⟩

/-- Embedding of `findClass` (doppioh.ts lines 173-208).  The source
recursion is unbounded (a malformed cyclic hierarchy recurses forever); the
explicit fuel makes it total, mapping divergence to a `fuel` error.  Every
invocation prepends a trace entry recording the descriptor and the cache
keys at entry. -/
def findClass (env : Env) : Nat → Cache → String → FCRes
  | 0, cache, desc => ⟨[(desc, cacheKeys cache)], cache, .error .fuel⟩
  | fuel + 1, cache, desc =>
    let body := findClassBody env (findClass env fuel) cache desc
    ⟨(desc, cacheKeys cache) :: body.trace, body.cache, body.result⟩

/-- The cached-after-success property: if a resolution returned a class,
the returned cache maps the descriptor to it. -/
def cachedAfter (r : FCRes) (desc : String) : Prop :=
  match r.result with
  | .ok cd => alookup r.cache desc = some cd
  | .error _ => True

/-- Concrete two-class environment for claim C1: class `A` (descriptor
`LA;`) has superclass reference `LB;`, and class `B` has none. -/
def envC1 : Env := ⟨[("A", { superRef := some "LB;" }), ("B", {})]⟩

/-! ### The TypeScript template pipeline -/

/-- Stub-template invocation events: `processClassData` calls
`template.classStart` / `template.method` / `template.classEnd`; the events
record those calls independently of the output dialect.  They are
specification instrumentation and influence no behaviour. -/
inductive StubEvent where
  | cstart (className : String)
  | cmethod (signature : String)
  | cend (className : String)
deriving DecidableEq, Repr

/-- The mutable state of a doppioh run with the TypeScript template: the
resolution cache (line 105), the `headerSet`/`generateQueue`/`classesSeen`
fields of `TSTemplate` (lines 248-253), the bytes written so far to the
header stream and to the stub stream, and the `headerCount` counter.
`pushLog`, `emitLog` and `stubEvents` are specification instrumentation
(the queue pushes, the declarations emitted by `_processHeader`, and the
stub-template calls); they influence no behaviour. -/
structure TState where
  cache : Cache := []
  headerSet : List String := []
  generateQueue : List ClassData := []
  classesSeen : List String := []
  headerText : String := ""
  stubText : String := ""
  headerCount : Nat := 0
  pushLog : List String := []
  emitLog : List String := []
  stubEvents : List StubEvent := []
deriving DecidableEq, Repr

/-- The mark-and-push step of `generateClassDefinition` (doppioh.ts lines
416-417): mark the descriptor seen, then resolve it and push the class onto
the generate queue; when `findClass` throws, the mark and the cache
mutations persist but nothing is pushed. -/
def gcdPush (env : Env) (fuel : Nat) (dl : List Char) (s : TState) :
    TState × Option DErr :=
  match (findClass env fuel s.cache (String.mk dl)).result with
  | .ok cd =>
      ({ s with
          headerSet := s.headerSet ++ [String.mk dl],
          cache := (findClass env fuel s.cache (String.mk dl)).cache,
          generateQueue := s.generateQueue ++ [cd],
          pushLog := s.pushLog ++ [String.mk dl] }, none)
  | .error e =>
      ({ s with
          headerSet := s.headerSet ++ [String.mk dl],
          cache := (findClass env fuel s.cache (String.mk dl)).cache },
        some e)

/-- Embedding of `TSTemplate.generateClassDefinition` (doppioh.ts lines
406-419) on the descriptor's character list (so that the array-component
recursion `desc.slice(1)` is structural): return if the descriptor is
already in the seen set or is primitive; recurse on the component of an
array; otherwise mark the descriptor seen **before** calling `findClass`
and push the resolved class onto the generate queue.  When `findClass`
throws, the descriptor stays marked and nothing is pushed (the mark made
on line 416 is not rolled back). -/
def gcdGo (env : Env) (fuel : Nat) : List Char → TState → TState × Option DErr
  | '[' :: rest, s =>
      if s.headerSet.contains (String.mk ('[' :: rest)) ||
          is_primitive_type (String.mk ('[' :: rest)) then (s, none)
      else gcdGo env fuel rest s
  | dl, s =>
      if s.headerSet.contains (String.mk dl) ||
          is_primitive_type (String.mk dl) then (s, none)
      else gcdPush env fuel dl s

/-- Embedding of `TSTemplate.generateClassDefinition` on `String`. -/
def generateClassDefinition (env : Env) (fuel : Nat) (desc : String)
    (s : TState) : TState × Option DErr :=
  gcdGo env fuel desc.data s

/-- Sequential `generateClassDefinition` over a list of descriptors,
stopping at the first thrown error (which keeps the state mutated so
far). -/
def genDefList (env : Env) (fuel : Nat) : List String → TState →
    TState × Option DErr
  | [], s => (s, none)
  | d :: ds, s =>
    match generateClassDefinition env fuel d s with
    | (s1, some e) => (s1, some e)
    | (s1, none) => genDefList env fuel ds s1

/-- Error-propagating sequencing of two stateful steps. -/
def andThen (r : TState × Option DErr) (f : TState → TState × Option DErr) :
    TState × Option DErr :=
  match r with
  | (s, some e) => (s, some e)
  | (s, none) => f s

/-- Append text to the header stream. -/
def emitText (txt : String) (s : TState) : TState × Option DErr :=
  ({ s with headerText := s.headerText ++ txt }, none)

/-! Pure texts of the member-emission helpers of `TSTemplate`
(doppioh.ts lines 470-547). -/

/-- Text of `_outputInjectedField` (doppioh.ts lines 531-533). -/
def outputInjectedField (nt : String × String) : String :=
  "    public " ++ nt.1 ++ ": " ++ nt.2 ++ ";\n"

/-- Text of `_outputInjectedMethod` (doppioh.ts lines 538-540). -/
def outputInjectedMethod (nt : String × String) : String :=
  "    public " ++ nt.1 ++ nt.2 ++ ";\n"

/-- Text of `_outputInjectedStaticMethod` (doppioh.ts lines 545-547). -/
def outputInjectedStaticMethod (nt : String × String) : String :=
  "    public static " ++ nt.1 ++ nt.2 ++ ";\n"

/-- Text of `_outputField` (doppioh.ts lines 513-526): nothing for a field
of an interface class; otherwise a `public` (or `public static`) member
named `<typestr of owner>/<field name>` with the field type's output
name. -/
def outputField (f : Field) : String :=
  if f.clsIsInterface then ""
  else if f.isStatic then
    "    public static \"" ++ descriptor2typestr f.clsDesc ++ "/" ++
      f.name ++ "\": " ++ jvmtype2tstype false f.rawDescriptor ++ ";\n"
  else
    "    public \"" ++ descriptor2typestr f.clsDesc ++ "/" ++ f.name ++
      "\": " ++ jvmtype2tstype false f.rawDescriptor ++ ";\n"

/-- The callback signature `cbSig` of `_outputMethod` (doppioh.ts line
478). -/
def methodCbSig (m : Method) : String :=
  "e?: java_lang_Throwable" ++
    (if m.returnType = "V" then ""
     else ", rv?: " ++ jvmtype2tstype false m.returnType)

/-- The argument-tuple text `args` of `_outputMethod` (doppioh.ts lines
481-487); the 64-bit types `J` and `D` occupy a second slot rendered as
`any`. -/
def methodArgsStr (m : Method) : String :=
  if m.parameterTypes.length > 0 then
    "args: [" ++
      joinSep ", " (m.parameterTypes.map (fun t =>
        jvmtype2tstype false t ++
          (if t = "J" ∨ t = "D" then ", any" else ""))) ++ "]"
  else "args: \x7b\x7d[]"

/-- The method signature `methodSig` of `_outputMethod` (doppioh.ts line
489). -/
def methodSigStr (m : Method) : String :=
  "(thread: JVMThread, " ++ methodArgsStr m ++ ", cb?: (" ++ methodCbSig m ++
    ") => void): void"

/-- Text of `_outputMethod` (doppioh.ts lines 475-508): interface methods
emit one virtual signature (static interface methods are skipped); class
methods emit the short signature (unless `nonVirtualOnly`) and the
fully-qualified signature. -/
def outputMethod (m : Method) (nonVirtualOnly : Bool) : String :=
  if m.clsIsInterface then
    if m.isStatic then ""
    else "    \"" ++ m.signature ++ "\"" ++ methodSigStr m ++ ";\n"
  else
    (if nonVirtualOnly then ""
     else "    public" ++ (if m.isStatic then " static" else "") ++ " \"" ++
       m.signature ++ "\"" ++ methodSigStr m ++ ";\n") ++
    "    public" ++ (if m.isStatic then " static" else "") ++ " \"" ++
      m.fullSignature ++ "\"" ++ methodSigStr m ++ ";\n"

/-- The reference descriptors whose headers `_outputMethod` requests while
rendering one method: the return type (via `cbSig`, evaluated unless the
return type is `V`) and then each parameter type (via `args`, evaluated
when the parameter list is nonempty). -/
def methodHeaderRefs (m : Method) : List String :=
  (if m.returnType = "V" then [] else tstypeRefs m.returnType.data) ++
    (m.parameterTypes.map (fun t => tstypeRefs t.data)).flatten

/-- The superclass part of the declaration line of `_processHeader`
(doppioh.ts lines 444-446): request the superclass's header and write
` extends <name>`. -/
def phDeclSuper (env : Env) (fuel : Nat) (info : RawClass) (s : TState) :
    TState × Option DErr :=
  match info.superRef with
  | some sup =>
      andThen (genDefList env fuel (tstypeRefs sup.data) s)
        (emitText (" extends " ++ jvmtype2tstype false sup))
  | none => (s, none)

/-- The interface-list part of the declaration line of `_processHeader`
(doppioh.ts lines 448-458): when the class has interfaces, write `, ` for
an interface (after the guaranteed superclass) or ` implements ` for a
class, then the joined interface names. -/
def phDeclIfaces (env : Env) (fuel : Nat) (info : RawClass) (s : TState) :
    TState × Option DErr :=
  if info.interfaceRefs.length > 0 then
    andThen (emitText (if info.isInterface then ", " else " implements ") s)
      (fun s1 =>
        andThen (genDefList env fuel
            ((info.interfaceRefs.map (fun i => tstypeRefs i.data)).flatten) s1)
          (emitText (joinSep ", "
            (info.interfaceRefs.map (jvmtype2tstype false)))))
  else (s, none)

/-- One field of `_processHeader`: request the field type's header and
write the field line (both skipped for interface-owned fields, doppioh.ts
lines 515-519). -/
def phField (env : Env) (fuel : Nat) (f : Field) (s : TState) :
    TState × Option DErr :=
  if f.clsIsInterface then (s, none)
  else andThen (genDefList env fuel (tstypeRefs f.rawDescriptor.data) s)
    (emitText (outputField f))

/-- One method of `_processHeader`: request the headers of the types in
the signature and write the method line(s). -/
def phMethod (env : Env) (fuel : Nat) (m : Method) (s : TState) :
    TState × Option DErr :=
  andThen (genDefList env fuel (methodHeaderRefs m) s)
    (emitText (outputMethod m false))

/-- Error-propagating fold of a stateful step over a list. -/
def phList {α : Type} (step : α → TState → TState × Option DErr) :
    List α → TState → TState × Option DErr
  | [], s => (s, none)
  | x :: xs, s => andThen (step x s) (phList step xs)

/-- Embedding of `TSTemplate._processHeader` (doppioh.ts lines 421-468):
emit one declaration for a reference class — the interface/class keyword
and escaped name, the ` extends` clause when a superclass reference is
present (note: interface classes have `java/lang/Object` as superclass, so
interfaces do get it as an explicit base), the interface list, then the
members in fixed order: injected fields, injected methods, injected static
methods, declared fields, declared plus miranda/default methods, and
uninherited default methods.  Every type mapping requests a header for the
mapped reference types.  Only reference classes reach the queue, so other
class kinds map to an error. -/
def processHeaderS (env : Env) (fuel : Nat) (cd : ClassData) (s : TState) :
    TState × Option DErr :=
  match cd with
  | .ref desc info =>
    andThen (genDefList env fuel (tstypeRefs desc.data)
        { s with headerCount := s.headerCount + 1 })
      (fun s1 =>
      andThen (emitText ((if info.isInterface then "  export interface "
          else "  export class ") ++ jvmtype2tstype false desc) s1)
      (fun s2 =>
      andThen (phDeclSuper env fuel info s2)
      (fun s3 =>
      andThen (phDeclIfaces env fuel info s3)
      (fun s4 =>
      andThen (emitText " \x7b\n" s4)
      (fun s5 =>
      andThen (emitText (String.join
          ((info.injectedFields.map outputInjectedField) ++
           (info.injectedMethods.map outputInjectedMethod) ++
           (info.injectedStaticMethods.map outputInjectedStaticMethod))) s5)
      (fun s6 =>
      andThen (phList (phField env fuel) info.fields s6)
      (fun s7 =>
      andThen (phList (phMethod env fuel)
          (info.methods ++ info.mirandaAndDefaultMethods) s7)
      (fun s8 =>
      andThen (phList (phMethod env fuel) info.uninheritedDefaultMethods s8)
      (fun s9 =>
      ({ s9 with
          headerText := s9.headerText ++ "  \x7d\n",
          emitLog := s9.emitLog ++ [desc] }, none))))))))))
  | _ => (s, some .nonReference)

/-- Embedding of `TSTemplate.classStart` (doppioh.ts lines 340-344): write
the stub class opening, record the class in `classesSeen`, and request a
header for the descriptor rebuilt from the underscored class name. -/
def classStart (env : Env) (fuel : Nat) (className : String) (s : TState) :
    TState × Option DErr :=
  generateClassDefinition env fuel
    ("L" ++ String.mk (jsReplaceAll '_' ['/'] className.data) ++ ";")
    { s with
        stubText := s.stubText ++ "\nclass " ++ className ++ " \x7b\n",
        classesSeen := s.classesSeen ++ [className],
        stubEvents := s.stubEvents ++ [StubEvent.cstart className] }

/-- The indexed `arg<i>: <type>` parameter list of the stub method text
(doppioh.ts line 361). -/
def argPairs (ts : List String) (i : Nat) : List String :=
  match ts with
  | [] => []
  | t :: r => ("arg" ++ toString i ++ ": " ++ jvmtype2tstype true t) ::
      argPairs r (i + 1)

/-- The text written by `TSTemplate.method` (doppioh.ts lines 348-364):
a static stub that throws `UnsatisfiedLinkError` and returns a placeholder
of the type-appropriate default (`0` for the numeric output type, nothing
for `void`, `null` otherwise). -/
def tsMethodText (classDesc methodName : String) (isStatic : Bool)
    (argTypes : List String) (rType : String) : String :=
  "\n  public static '" ++ methodName ++ "'(thread: JVMThread" ++
    (if isStatic then "" else ", javaThis: " ++ jvmtype2tstype true classDesc) ++
    (if argTypes.length = 0 then ""
     else ", " ++ joinSep ", " (argPairs argTypes 0)) ++
    "): " ++ jvmtype2tstype true rType ++
    " \x7b\n    thread.throwNewException('Ljava/lang/UnsatisfiedLinkError;', 'Native method not implemented.');" ++
    (if (if jvmtype2tstype true rType = "number" then "0"
         else if jvmtype2tstype true rType ≠ "void" then "null" else "") ≠ ""
     then "\n    return " ++
       (if jvmtype2tstype true rType = "number" then "0"
        else if jvmtype2tstype true rType ≠ "void" then "null" else "")
     else "") ++ "\n  \x7d\n"

/-- Embedding of `TSTemplate.method` (doppioh.ts lines 348-364): the
header requests, in source evaluation order — the return type (line 349),
every argument type and the return type again (the explicit `forEach` of
lines 356-358, on the full descriptors), the receiver type when
non-static, each argument type and the return type (the template literal
of lines 360-363) — then the stub text is written. -/
def tsMethod (env : Env) (fuel : Nat) (classDesc methodName : String)
    (isStatic : Bool) (argTypes : List String) (rType : String)
    (s : TState) : TState × Option DErr :=
  andThen (genDefList env fuel (tstypeRefs rType.data) s)
    (fun s1 =>
    andThen (genDefList env fuel (argTypes ++ [rType]) s1)
    (fun s2 =>
    andThen (if isStatic then (s2, none)
             else genDefList env fuel (tstypeRefs classDesc.data) s2)
    (fun s3 =>
    andThen (genDefList env fuel
        ((argTypes.map (fun t => tstypeRefs t.data)).flatten) s3)
    (fun s4 =>
    andThen (genDefList env fuel (tstypeRefs rType.data) s4)
    (fun s5 =>
    ({ s5 with
        stubText := s5.stubText ++
          tsMethodText classDesc methodName isStatic argTypes rType,
        stubEvents := s5.stubEvents ++ [StubEvent.cmethod methodName] },
      none))))))

/-- The method loop of `processClassData` (doppioh.ts lines 216-225): for
each native method, call `classStart` before the first one, then emit the
method stub; non-native methods are skipped. -/
def pcdLoop (env : Env) (fuel : Nat) (desc fixedName : String) :
    List Method → Bool → TState → TState × Bool × Option DErr
  | [], found, s => (s, found, none)
  | m :: ms, found, s =>
    if m.isNative then
      match (if found then (s, none) else classStart env fuel fixedName s) with
      | (s1, some e) => (s1, true, some e)
      | (s1, none) =>
        match tsMethod env fuel desc m.signature m.isStatic m.parameterTypes
            m.returnType s1 with
        | (s2, some e) => (s2, true, some e)
        | (s2, none) => pcdLoop env fuel desc fixedName ms true s2
    else pcdLoop env fuel desc fixedName ms found s

/-- The underscored class name of `processClassData` (doppioh.ts lines
211-214): `getInternalName().replace(/\//g, '_')` shaved of its first and
last character (`L` and `;`). -/
def fixedNameOf (desc : String) : String :=
  String.mk (descriptor2typestrL (jsReplaceAll '/' ['_'] desc.data))

/-- Embedding of `processClassData` (doppioh.ts lines 210-230): compute the
underscored class name, run the method loop, and close the class block if a
native method was found.  Only reference classes are produced for the
requested descriptors. -/
def processClassData (env : Env) (fuel : Nat) (cd : ClassData) (s : TState) :
    TState × Option DErr :=
  match cd with
  | .ref desc info =>
    match pcdLoop env fuel desc (fixedNameOf desc) info.methods false s with
    | (s1, _, some e) => (s1, some e)
    | (s1, found, none) =>
        if found then
          ({ s1 with
              stubText := s1.stubText ++ "\n\x7d\n",
              stubEvents := s1.stubEvents ++
                [StubEvent.cend (fixedNameOf desc)] },
            none)
        else (s1, none)
  | _ => (s, some .nonReference)

/-- The fixed preamble written by `headersStart` (doppioh.ts lines
294-306); `dpath` is the precomputed relative module path. -/
def headersStartText (dpath : String) : String :=
  "// TypeScript declaration file for JVM types. Automatically generated by doppioh.\n// http://github.com/plasma-umass/doppio\n" ++
    "import DoppioJVM = require('" ++ dpath ++ "');\n" ++
    "import JVMThread = DoppioJVM.VM.Threading.JVMThread;\n" ++
    "import Long = DoppioJVM.VM.Long;\n" ++
    "import ClassData = DoppioJVM.VM.ClassFile.ClassData;\n" ++
    "import ArrayClassData = DoppioJVM.VM.ClassFile.ArrayClassData;\n" ++
    "import ReferenceClassData = DoppioJVM.VM.ClassFile.ReferenceClassData;\n" ++
    "import Monitor = DoppioJVM.VM.Monitor;\n" ++
    "import ClassLoader = DoppioJVM.VM.ClassFile.ClassLoader;\n" ++
    "import Interfaces = DoppioJVM.VM.Interfaces;\n\n" ++
    "declare module JVMTypes \x7b\n"

/-- The generic array wrapper declaration written by
`generateArrayDefinition` (doppioh.ts lines 558-572). -/
def arrayDefText : String :=
  "  export class JVMArray<T> extends java_lang_Object \x7b\n    /**\n     * NOTE: Our arrays are either JS arrays, or TypedArrays for primitive\n     * types.\n     */\n    public array: T[];\n    public getClass(): ArrayClassData<T>;\n    /**\n     * Create a new JVM array of this type that starts at start, and ends at\n     * end. End defaults to the end of the array.\n     */\n    public slice(start: number, end?: number): JVMArray<T>;\n  \x7d\n"

/-- The alias/union definitions written by `generateMiscDefinitions`
(doppioh.ts lines 574-578). -/
def miscDefText : String :=
  "  // Basic, valid JVM types.\n  export type BasicType = number | java_lang_Object | Long;\n  export type JVMFunction = (thread: JVMThread, args: BasicType[], cb: (e?: JVMTypes.java_lang_Object, rv?: BasicType) => void) => void;\n"

/-- The stub-file preamble written by `TSTemplate.fileStart` (doppioh.ts
lines 310-317). -/
def fileStartText (dpath : String) : String :=
  "import JVMTypes = require(\"./JVMTypes\");\n" ++
    "import DoppioJVM = require('" ++ dpath ++ "');\n" ++
    "import JVMThread = DoppioJVM.VM.Threading.JVMThread;\n" ++
    "import Long = DoppioJVM.VM.Long;\n" ++
    "declare var registerNatives: (natives: any) => void;\n"

/-- The export-map entries of `TSTemplate.fileEnd` (doppioh.ts lines
318-328). -/
def fileEndEntries : List String → Nat → String
  | [], _ => ""
  | k :: r, i =>
      (if i > 0 then "," else "") ++ "\n  '" ++
        String.mk (jsReplaceAll '_' ['/'] k.data) ++ "': " ++ k ++
        fileEndEntries r (i + 1)

/-- Embedding of `TSTemplate.fileEnd` (doppioh.ts lines 318-328). -/
def fileEnd (s : TState) : TState :=
  { s with stubText := s.stubText ++
      "\n// Export line. This is what DoppioJVM sees.\nregisterNatives(\x7b" ++
      fileEndEntries s.classesSeen 0 ++ "\n\x7d);\n" }

/-- The name extracted at one marker match (doppioh.ts lines 262 and 271):
`slice(nameStart, indexOf(" ", nameStart))`, the characters up to the next
space — or, when no space follows (`indexOf` returns `-1`), up to the last
character (`slice(nameStart, -1)`). -/
def nameUpToSpace (suffix : List Char) : List Char :=
  if suffix.contains ' ' then suffix.takeWhile (fun c => !(c == ' '))
  else suffix.dropLast

/-- The scraping loops of the `TSTemplate` constructor (doppioh.ts lines
261-274).  The source repeatedly calls `indexOf(marker, searchIdx)` with
`searchIdx` restarting one past each match, which visits every match
position from left to right; that is embedded as one left-to-right scan
that, at every position where the marker is a prefix, extracts the name
following it. -/
def scrapeL (marker : List Char) : List Char → List String
  | [] => []
  | c :: rest =>
      if (c :: rest).take marker.length == marker then
        String.mk (nameUpToSpace ((c :: rest).drop marker.length)) ::
          scrapeL marker rest
      else scrapeL marker rest

/-- The declared names a marker scan extracts from a prior header. -/
def scrapeNames (hay : String) (marker : String) : List String :=
  scrapeL marker.data hay.data

/-- One replayed entry of the constructor (doppioh.ts lines 262-266 and
271-272): skip names beginning with `JVMArray` in the class pass, decode
the name and request its header; a decode or resolution error is thrown
(and caught by the enclosing `try`). -/
def replayClassEntry (env : Env) (fuel : Nat) (skipArr : Bool)
    (clsName : String) (s : TState) : TState × Option DErr :=
  if skipArr && (clsName.data.take 8 == "JVMArray".data) then (s, none)
  else
    match tstype2jvmtype clsName with
    | .error e => (s, some e)
    | .ok d => generateClassDefinition env fuel d s

/-- Sequential replay of scraped entries, stopping at the first thrown
error (state mutated so far persists). -/
def replayEntries (env : Env) (fuel : Nat) (skipArr : Bool) :
    List String → TState → TState × Option DErr
  | [], s => (s, none)
  | n :: r, s =>
    match replayClassEntry env fuel skipArr n s with
    | (s1, some e) => (s1, some e)
    | (s1, none) => replayEntries env fuel skipArr r s1

/-- The run configuration: the precomputed relative doppiojvm module path,
the optional `force_headers` option string, and the requested class
descriptors (the expansion of the positional argument by `getClasses`,
which always yields `L<name>;` descriptors). -/
structure Config where
  dpath : String := "doppiojvm"
  forceHeaders : Option String := none
  requested : List String := []
deriving Repr

/-- Embedding of the `TSTemplate` constructor (doppioh.ts lines 255-292):
replay a prior header if one exists — the `try` swallows any error, but
keeps the state mutated before it, and a failure in the class pass also
skips the interface pass — then write the header preamble, the array
wrapper and misc definitions, request the root throwable header, and
request every force-included class.  Only the replay is inside the `try`;
an error from the throwable or force-header requests propagates. -/
def tsTemplateInit (env : Env) (fuel : Nat) (cfg : Config)
    (prior : Option String) : TState × Option DErr :=
  match
    (match prior with
     | none => ({} : TState)
     | some txt =>
       match replayEntries env fuel true (scrapeNames txt "export class ")
           ({} : TState) with
       | (sA, some _) => sA
       | (sA, none) =>
           (replayEntries env fuel false
             (scrapeNames txt "export interface ") sA).1) with
  | s1 =>
    match generateClassDefinition env fuel "Ljava/lang/Throwable;"
        { s1 with headerText := s1.headerText ++ headersStartText cfg.dpath ++
            arrayDefText ++ miscDefText } with
    | (s3, some e) => (s3, some e)
    | (s3, none) =>
      match cfg.forceHeaders with
      | some str =>
          genDefList env fuel ((str.splitOn ":").map int_classname) s3
      | none => (s3, none)

/-- The per-class loop of `main` (doppioh.ts lines 660-664): resolve each
requested descriptor and hand it to `processClassData`; a thrown error
aborts the run. -/
def processAll (env : Env) (fuel : Nat) : List String → TState →
    TState × Option DErr
  | [], s => (s, none)
  | d :: ds, s =>
    match (findClass env fuel s.cache d).result with
    | .error e => ({ s with cache := (findClass env fuel s.cache d).cache },
        some e)
    | .ok cd =>
      match processClassData env fuel cd
          { s with cache := (findClass env fuel s.cache d).cache } with
      | (s1, some e) => (s1, some e)
      | (s1, none) => processAll env fuel ds s1

/-- Embedding of `TSTemplate._processGenerateQueue` (doppioh.ts lines
549-553): repeatedly pop the last queued class and emit its header until
the queue is empty.  The step counter replaces the unbounded `while`;
exhausting it with a nonempty queue is a fuel error. -/
def drainQueue (env : Env) (fuel : Nat) : Nat → TState →
    TState × Option DErr
  | 0, s => if s.generateQueue.isEmpty then (s, none) else (s, some .fuel)
  | n + 1, s =>
    match s.generateQueue.getLast? with
    | none => (s, none)
    | some cd =>
      match processHeaderS env fuel cd
          { s with generateQueue := s.generateQueue.dropLast } with
      | (s1, some e) => (s1, some e)
      | (s1, none) => drainQueue env fuel n s1

/-- Embedding of one full doppioh run with the TypeScript template
(doppioh.ts lines 643-670 with `-ts` set): construct the template
(replaying `prior`, the previously generated header artifact, when
present), write the stub preamble, process every requested class, write
the stub export map, then drain the generate queue into the header and
write the closing export.  Any thrown error aborts the run. -/
def runDoppioh (env : Env) (cfg : Config) (prior : Option String)
    (fuel : Nat) : Except DErr TState :=
  match tsTemplateInit env fuel cfg prior with
  | (_, some e) => .error e
  | (s1, none) =>
    match processAll env fuel cfg.requested
        { s1 with stubText := s1.stubText ++ fileStartText cfg.dpath } with
    | (_, some e) => .error e
    | (s3, none) =>
      match drainQueue env fuel fuel (fileEnd s3) with
      | (_, some e) => .error e
      | (s5, none) =>
          .ok { s5 with headerText := s5.headerText ++
            "\x7d\nexport = JVMTypes;\n" }

/-- Iteration-friendly character-list comparison, used to settle long
string equalities by evaluation without deep `DecidableEq` nesting. -/
def beqL : List Char → List Char → Bool
  | [], [] => true
  | a :: x, b :: y => if a = b then beqL x y else false
  | _, _ => false

/-- The state of a completed run (`{}` for an aborted run; the claims that
use this always establish success separately). -/
def runStateOf (r : Except DErr TState) : TState :=
  match r with
  | .ok s => s
  | .error _ => {}

/-- Whether a run completed without an error. -/
def isOkE (r : Except DErr TState) : Bool :=
  match r with
  | .ok _ => true
  | .error _ => false

/-- Environment for claims C5 and C6: `java/lang/Throwable` extending
`java/lang/Object`, and a requested class `foo/A` that has **no** methods
at all (hence no native methods). -/
def envC5 : Env :=
  ⟨[("java/lang/Throwable", { superRef := some "Ljava/lang/Object;" }),
    ("java/lang/Object", {}),
    ("foo/A", { superRef := some "Ljava/lang/Object;" })]⟩

/-- Configuration for claims C5 and C6: the single requested class
`Lfoo/A;`, no force-included headers. -/
def cfgC5 : Config := { requested := ["Lfoo/A;"] }

/-- First run for claim C6 (no prior header). -/
def run1C6 : Except DErr TState := runDoppioh envC5 cfgC5 none 12

/-- The header artifact produced by the first C6 run, as a flat literal
(proved equal to the run's output in the counterexample below); the second
run replays it. -/
def header1C6 : String :=
    "// TypeScript declaration file for JVM types. Automatically gene" ++
    "rated by doppioh.\n// http://github.com/plasma-umass/doppio\nimp" ++
    "ort DoppioJVM = require('doppiojvm');\nimport JVMThread = Doppio" ++
    "JVM.VM.Threading.JVMThread;\nimport Long = DoppioJVM.VM.Long;\ni" ++
    "mport ClassData = DoppioJVM.VM.ClassFile.ClassData;\nimport Arra" ++
    "yClassData = DoppioJVM.VM.ClassFile.ArrayClassData;\nimport Refe" ++
    "renceClassData = DoppioJVM.VM.ClassFile.ReferenceClassData;\nimp" ++
    "ort Monitor = DoppioJVM.VM.Monitor;\nimport ClassLoader = Doppio" ++
    "JVM.VM.ClassFile.ClassLoader;\nimport Interfaces = DoppioJVM.VM." ++
    "Interfaces;\n\ndeclare module JVMTypes \x7b\n  export class JVMA" ++
    "rray<T> extends java_lang_Object \x7b\n    /**\n     * NOTE: Our" ++
    " arrays are either JS arrays, or TypedArrays for primitive\n    " ++
    " * types.\n     */\n    public array: T[];\n    public getClass(" ++
    "): ArrayClassData<T>;\n    /**\n     * Create a new JVM array of" ++
    " this type that starts at start, and ends at\n     * end. End de" ++
    "faults to the end of the array.\n     */\n    public slice(start" ++
    ": number, end?: number): JVMArray<T>;\n  \x7d\n  // Basic, valid" ++
    " JVM types.\n  export type BasicType = number | java_lang_Object" ++
    " | Long;\n  export type JVMFunction = (thread: JVMThread, args: " ++
    "BasicType[], cb: (e?: JVMTypes.java_lang_Object, rv?: BasicType)" ++
    " => void) => void;\n  export class java_lang_Throwable extends j" ++
    "ava_lang_Object \x7b\n  \x7d\n  export class java_lang_Object \x7b" ++
    "\n  \x7d\n\x7d\nexport = JVMTypes;\n"

/-- Second run for claim C6: identical inputs, replaying the first run's
header artifact. -/
def run2C6 : Except DErr TState :=
  runDoppioh envC5 cfgC5 (some header1C6) 12

/-- Environment for claim C9: class `aaa` exists on the classpath, `ccc`
does not. -/
def envC9 : Env :=
  ⟨[("aaa", {}),
    ("java/lang/Throwable", { superRef := some "Ljava/lang/Object;" }),
    ("java/lang/Object", {})]⟩

/-- Configuration for claim C9 (no requested classes are needed to observe
the replay behaviour). -/
def cfgC9 : Config := { requested := [] }

/-- A prior header artifact for claim C9 with two recognizable class
markers; replaying the second entry fails because `ccc` cannot be
resolved. -/
def priorC9 : String := "export class aaa x\nexport class ccc x\n"

/-- Environment for claim C4: the universal root `java/lang/Object` and an
interface `foo/Bar` (itself extending `java/lang/Object`, as every
interface's class file does). -/
def envC4 : Env :=
  ⟨[("java/lang/Object", {}),
    ("foo/Bar", { isInterface := true,
                  superRef := some "Ljava/lang/Object;" })]⟩

/-- The metadata of the interface `foo/I` for claim C4: its superclass
reference is `java/lang/Object` (as in every interface's class file) and it
extends the interface `foo/Bar`. -/
def infoC4 : RawClass :=
  { isInterface := true,
    superRef := some "Ljava/lang/Object;",
    interfaceRefs := ["Lfoo/Bar;"] }

/-- The interface class for claim C4. -/
def clsC4 : ClassData := .ref "Lfoo/I;" infoC4

/-! ### The stub block produced for one class -/

/-- The stub-template events produced by the method loop for a class with
the given methods: nothing without a native method; otherwise one
`classStart`, one `method` per native method in order (and the `classEnd`
is appended by `processClassData` afterwards). -/
def loopEvents (fn : String) (ms : List Method) (found : Bool) :
    List StubEvent :=
  if found then
    (ms.filter (fun m => m.isNative)).map
      (fun m => StubEvent.cmethod m.signature)
  else if ms.any (fun m => m.isNative) then
    StubEvent.cstart fn ::
      (ms.filter (fun m => m.isNative)).map
        (fun m => StubEvent.cmethod m.signature)
  else []

/-- The stub text produced by the method loop. -/
def loopText (desc fn : String) : List Method → Bool → String
  | [], _ => ""
  | m :: ms, found =>
      if m.isNative then
        (if found then "" else "\nclass " ++ fn ++ " \x7b\n") ++
          tsMethodText desc m.signature m.isStatic m.parameterTypes
            m.returnType ++ loopText desc fn ms true
      else loopText desc fn ms found

/-- Environment for the claim C8 witness: one class `foo/B`. -/
def envC8 : Env := ⟨[("foo/B", {})]⟩

/-- Class metadata for the claim C8 witness: one native method. -/
def infoC8 : RawClass :=
  { methods := [{ signature := "m()V", fullSignature := "foo/B/m()V",
                  isNative := true }] }

/-! ### Header-emission lemmas -/

/-- A step result leaves the stub-side state (stub text, classes seen,
stub events) of `s` unchanged. -/
def StubPres (r : TState × Option DErr) (s : TState) : Prop :=
  r.1.stubText = s.stubText ∧ r.1.classesSeen = s.classesSeen ∧
    r.1.stubEvents = s.stubEvents

/-- A step result appends something (possibly nothing) to the header
text. -/
def HeaderExt (r : TState × Option DErr) (s : TState) : Prop :=
  ∃ ext, r.1.headerText = s.headerText ++ ext

/-- Embedding of the output-directory check of `main` (doppioh.ts lines
635-637): when `fs.existsSync(outputDirectory)` is false the tool calls
`fs.mkdirSync(outputDirectory)` — creating exactly that one directory
level — and otherwise touches nothing.  Modelled from the spec: the file
system is the list of existing directory paths, `existsSync` is list
membership and a single-level `mkdirSync` appends the path. -/
def ensureOutputDirectory (dirs : List String) (dir : String) :
    List String :=
  if dirs.contains dir then dirs else dirs ++ [dir]

/-! ### Cache coherence: every cached value is the environment-determined
class of its key -/

/-- The environment-determined class value of a descriptor: what any
successful resolution of the descriptor yields, regardless of the cache
contents or the recursion depth at the call site. -/
def pureCD (env : Env) (desc : String) : Option ClassData :=
  match desc.data with
  | 'L' :: _ =>
      match loadClass env (descriptor2typestr desc) with
      | some info => some (ClassData.ref desc info)
      | none => none
  | '[' :: rest => some (ClassData.arr (String.mk rest))
  | _ => some (ClassData.prim desc)

/-- The descriptor a queued class was resolved from. -/
def descOfCD : ClassData → String
  | .ref d _ => d
  | .arr comp => String.mk ('[' :: comp.data)
  | .prim d => d

/-- A cache in which every entry maps its key descriptor to that
descriptor's environment-determined class value. -/
def CacheOK (env : Env) (c : Cache) : Prop :=
  ∀ p, p ∈ c → pureCD env p.1 = some p.2

/-! ### The worklist invariant and its preservation along the pipeline -/

/-- The worklist invariant of a run state: the cache is coherent, no
descriptor was ever pushed twice, every pushed descriptor was marked seen,
and the pushed descriptors are exactly the queued ones plus the pending
ones plus the emitted ones.  `pend` holds descriptors already popped from
the queue but not yet recorded in the emit log (the class the drain loop
is currently processing). -/
def GInv (env : Env) (pend : List String) (s : TState) : Prop :=
  CacheOK env s.cache ∧
  s.pushLog.Nodup ∧
  (∀ d, d ∈ s.pushLog → d ∈ s.headerSet) ∧
  ((s.generateQueue.map descOfCD ++ pend) ++ s.emitLog).Perm s.pushLog

/-- One pipeline step: the seen set only grows and the worklist invariant
is preserved (for any fixed pending list). -/
def OpOK (env : Env) (s t : TState) : Prop :=
  (∀ d, d ∈ s.headerSet → d ∈ t.headerSet) ∧
  (∀ pend, GInv env pend s → GInv env pend t)

/-- Environment for the C5 and C7 witnesses: a requested class `foo/Nifty`
with one native method, plus the throwable root and object. -/
def envW : Env :=
  ⟨[("java/lang/Throwable", { superRef := some "Ljava/lang/Object;" }),
    ("java/lang/Object", {}),
    ("foo/Nifty",
      { superRef := some "Ljava/lang/Object;",
        methods := [{ signature := "tick()V", isNative := true }] })]⟩

/-- Configuration for the C5 and C7 witnesses. -/
def cfgW : Config := { requested := ["Lfoo/Nifty;"] }

/-! ### The stub artifact as a pure function of the environment (claim
C6) -/

/-- The stub text a successful run appends for one resolved class. -/
def pcdTextOf : ClassData → String
  | .ref desc info =>
      loopText desc (fixedNameOf desc) info.methods false ++
        (if info.methods.any (fun m => m.isNative) then "\n\x7d\n" else "")
  | _ => ""

/-- The class names a successful run records for one resolved class. -/
def pcdSeenOf : ClassData → List String
  | .ref desc info =>
      if info.methods.any (fun m => m.isNative) then [fixedNameOf desc]
      else []
  | _ => []

/-- The stub text a successful run appends for a requested descriptor
list: determined by the environment alone. -/
def stubAll (env : Env) : List String → String
  | [] => ""
  | d :: ds =>
      (match pureCD env d with
       | some cd => pcdTextOf cd
       | none => "") ++ stubAll env ds

/-- The class names a successful run records for a requested descriptor
list. -/
def seenAll (env : Env) : List String → List String
  | [] => []
  | d :: ds =>
      (match pureCD env d with
       | some cd => pcdSeenOf cd
       | none => []) ++ seenAll env ds

/-! ### Basic lemmas about the string transformations -/

theorem jsReplaceAll_cons (a : Char) (bs : List Char) (c : Char)
    (r : List Char) :
    jsReplaceAll a bs (c :: r) =
      (if c = a then bs else [c]) ++ jsReplaceAll a bs r := rfl

theorem jsReplaceAll_cons_self (a : Char) (bs : List Char) (r : List Char) :
    jsReplaceAll a bs (a :: r) = bs ++ jsReplaceAll a bs r := by
  rw [jsReplaceAll_cons]
  simp

theorem jsReplaceAll_cons_ne (a : Char) (bs : List Char) (c : Char)
    (r : List Char) (h : c ≠ a) :
    jsReplaceAll a bs (c :: r) = c :: jsReplaceAll a bs r := by
  rw [jsReplaceAll_cons]
  simp [h]

theorem collapseSlashes_nil : collapseSlashes [] = [] := rfl

theorem collapseSlashes_slash_slash (r : List Char) :
    collapseSlashes ('/' :: '/' :: r) = '_' :: collapseSlashes r := rfl

theorem collapseSlashes_cons_ne (c : Char) (r : List Char) (h : c ≠ '/') :
    collapseSlashes (c :: r) = c :: collapseSlashes r := by
  rw [collapseSlashes.eq_def]
  split
  · simp_all
  · rename_i h1 h2
    injection h2 with e1 e2
    exact absurd e1 h
  · rename_i x c' rest' hx heq
    injection heq with e1 e2
    rw [e1, e2]

theorem collapseSlashes_slash_cons_ne (d : Char) (r : List Char)
    (h : d ≠ '/') :
    collapseSlashes ('/' :: d :: r) = '/' :: collapseSlashes (d :: r) := by
  rw [collapseSlashes.eq_def]
  split
  · simp_all
  · rename_i h1 h2
    injection h2 with e1 e2
    injection e2 with e3 e4
    exact absurd e3 h
  · rename_i x c' rest' hx heq
    injection heq with e1 e2
    rw [e1, e2]

/-- One encoded character: `_` becomes `__`, `/` becomes `_`, anything else
is unchanged.  `escapeNameL` is the concatenation of these. -/
theorem escapeNameL_cons (c : Char) (r : List Char) :
    escapeNameL (c :: r) =
      (if c = '_' then ['_', '_'] else if c = '/' then ['_'] else [c]) ++
        escapeNameL r := by
  unfold escapeNameL
  by_cases h1 : c = '_'
  · subst h1
    simp [jsReplaceAll]
  · by_cases h2 : c = '/'
    · subst h2
      simp [jsReplaceAll]
    · simp [jsReplaceAll, h1, h2]

theorem escapeNameL_nil : escapeNameL [] = [] := rfl

theorem escapeNameL_underscore (r : List Char) :
    escapeNameL ('_' :: r) = '_' :: '_' :: escapeNameL r := by
  rw [escapeNameL_cons]
  simp

theorem escapeNameL_slash (r : List Char) :
    escapeNameL ('/' :: r) = '_' :: escapeNameL r := by
  rw [escapeNameL_cons]
  simp

theorem escapeNameL_other (c : Char) (r : List Char) (h1 : c ≠ '_')
    (h2 : c ≠ '/') : escapeNameL (c :: r) = c :: escapeNameL r := by
  rw [escapeNameL_cons]
  simp [h1, h2]

theorem goodChain_slash_cons (b : Char) (r : List Char) :
    goodChain ('/' :: b :: r) =
      ((!(b = '/') && !(b = '_')) && goodChain (b :: r)) := rfl

theorem goodChain_tail (a : Char) (r : List Char)
    (h : goodChain (a :: r) = true) : goodChain r = true := by
  match r with
  | [] => rfl
  | b :: r' =>
      by_cases ha : a = '/'
      · subst ha
        rw [goodChain_slash_cons, Bool.and_eq_true] at h
        exact h.2
      · rw [goodChain.eq_def] at h
        revert h
        split
        · rename_i h1 h2
          injection h2 with e1 e2
          exact absurd e1 ha
        · rename_i hx heq
          intro h
          injection heq with e1 e2
          rw [← e2] at h
          exact h
        · intro h
          simp_all

theorem goodChain_slash_head (b : Char) (r : List Char)
    (h : goodChain ('/' :: b :: r) = true) : b ≠ '/' ∧ b ≠ '_' := by
  rw [goodChain_slash_cons, Bool.and_eq_true] at h
  have h1 := h.1
  simp at h1
  exact h1

/-- Decoding inverts encoding on names satisfying `goodChain`: applying
`replace(/_/g, '/')` then `replace(/\/\//g, '_')` to the escaped name
recovers the original name. -/
theorem decode_escape (name : List Char) (h : goodChain name = true) :
    collapseSlashes (jsReplaceAll '_' ['/'] (escapeNameL name)) = name := by
  induction name with
  | nil => simp [escapeNameL, jsReplaceAll, collapseSlashes]
  | cons c rest ih =>
      have hrest : goodChain rest = true := goodChain_tail c rest h
      by_cases h1 : c = '_'
      · subst h1
        rw [escapeNameL_underscore, jsReplaceAll_cons_self,
          List.singleton_append, jsReplaceAll_cons_self,
          List.singleton_append, collapseSlashes_slash_slash, ih hrest]
      · by_cases h2 : c = '/'
        · subst h2
          rw [escapeNameL_slash, jsReplaceAll_cons_self,
            List.singleton_append]
          match rest, hrest with
          | [], _ =>
              rw [escapeNameL_nil]
              simp [jsReplaceAll, collapseSlashes]
          | d :: r', hrest =>
              have hd := goodChain_slash_head d r' h
              have hne1 : d ≠ '_' := hd.2
              have hne2 : d ≠ '/' := hd.1
              have hstep : jsReplaceAll '_' ['/'] (escapeNameL (d :: r')) =
                  d :: jsReplaceAll '_' ['/'] (escapeNameL r') := by
                rw [escapeNameL_other d r' hne1 hne2,
                  jsReplaceAll_cons_ne _ _ _ _ hne1]
              rw [hstep, collapseSlashes_slash_cons_ne d _ hne2, ← hstep,
                ih hrest]
        · rw [escapeNameL_other c rest h1 h2,
            jsReplaceAll_cons_ne _ _ _ _ h1,
            collapseSlashes_cons_ne c _ h2, ih hrest]

/-- Prefix transfer: if the escaped name starts with a pattern containing no
underscore, so does the original name. -/
theorem escape_take_transfer (p : List Char) (hp : ∀ c ∈ p, c ≠ '_') :
    ∀ n : List Char, (escapeNameL n).take p.length = p →
      n.take p.length = p := by
  induction p with
  | nil => intro n _; simp
  | cons c p' ih =>
      intro n htake
      match n with
      | [] =>
          rw [escapeNameL_nil] at htake
          simp at htake
      | d :: n' =>
          have hc : c ≠ '_' := hp c (by simp)
          have hp' : ∀ x ∈ p', x ≠ '_' := fun x hx => hp x (by simp [hx])
          by_cases h1 : d = '_'
          · subst h1
            rw [escapeNameL_underscore, List.length_cons,
              List.take_succ_cons, List.cons.injEq] at htake
            exact absurd htake.1.symm hc
          · by_cases h2 : d = '/'
            · subst h2
              rw [escapeNameL_slash, List.length_cons,
                List.take_succ_cons, List.cons.injEq] at htake
              exact absurd htake.1.symm hc
            · rw [escapeNameL_other d n' h1 h2, List.length_cons,
                List.take_succ_cons, List.cons.injEq] at htake
              rw [List.length_cons, List.take_succ_cons, List.cons.injEq]
              exact ⟨htake.1, ih hp' n' htake.2⟩

/-- Equality transfer: if the escaped name equals a string containing no
underscore, the original name equals it as well. -/
theorem escape_eq_transfer (p : List Char) (hp : ∀ c ∈ p, c ≠ '_') :
    ∀ n : List Char, escapeNameL n = p → n = p := by
  induction p with
  | nil =>
      intro n h
      match n with
      | [] => rfl
      | d :: n' =>
          by_cases h1 : d = '_'
          · subst h1; rw [escapeNameL_underscore] at h; exact absurd h (by simp)
          · by_cases h2 : d = '/'
            · subst h2; rw [escapeNameL_slash] at h; exact absurd h (by simp)
            · rw [escapeNameL_other d n' h1 h2] at h; exact absurd h (by simp)
  | cons c p' ih =>
      intro n h
      match n with
      | [] => rw [escapeNameL_nil] at h; exact absurd h (by simp)
      | d :: n' =>
          have hc : c ≠ '_' := hp c (by simp)
          have hp' : ∀ x ∈ p', x ≠ '_' := fun x hx => hp x (by simp [hx])
          by_cases h1 : d = '_'
          · subst h1
            rw [escapeNameL_underscore, List.cons.injEq] at h
            exact absurd h.1.symm hc
          · by_cases h2 : d = '/'
            · subst h2
              rw [escapeNameL_slash, List.cons.injEq] at h
              exact absurd h.1.symm hc
            · rw [escapeNameL_other d n' h1 h2, List.cons.injEq] at h
              rw [List.cons.injEq]
              exact ⟨h.1, ih hp' n' h.2⟩

/-- On a reference descriptor `L<name>;`, `jvmtype2tstype` yields the
escaped internal name (optionally prefixed with the shared namespace). -/
theorem jvmtype2tstypeL_Ldesc (pre : Bool) (name : List Char) :
    jvmtype2tstypeL pre ('L' :: name ++ [';']) =
      (if pre then "JVMTypes.".data else []) ++ escapeNameL name := by
  have hts : descriptor2typestrL ('L' :: name ++ [';']) = name := by
    simp [descriptor2typestrL]
  calc jvmtype2tstypeL pre ('L' :: name ++ [';'])
      = (if pre then "JVMTypes.".data else []) ++
          escapeNameL (descriptor2typestrL ('L' :: name ++ [';'])) := rfl
    _ = (if pre then "JVMTypes.".data else []) ++ escapeNameL name := by
          rw [hts]

/-- Claim C2 (amended): decoding the encoded output-language name recovers
the reference-type descriptor exactly, `fromOutputType (toOutputType D) = D`,
for every descriptor `L<name>;` whose internal name never has `/` or `_`
immediately after a package separator `/` (`goodChain`), does not begin with
the characters `JVMArray`, and is not literally `number` or `void`; the
encoding doubles every literal underscore and then replaces every `/` with a
single underscore, and the decoding inverts both steps on such names. -/
theorem C2_roundtrip (name : List Char) (hgood : goodChain name = true)
    (hJ : name.take 8 ≠ "JVMArray".data) (hnum : name ≠ "number".data)
    (hvoid : name ≠ "void".data) :
    tstype2jvmtype (jvmtype2tstype false (String.mk ('L' :: name ++ [';']))) =
      .ok (String.mk ('L' :: name ++ [';'])) := by
  have hJ' : ¬ (escapeNameL name).take 8 = "JVMArray".data := by
    intro hc
    apply hJ
    have h8 : ("JVMArray".data).length = 8 := by decide
    have := escape_take_transfer "JVMArray".data (by decide) name
      (by rw [h8]; exact hc)
    rw [h8] at this
    exact this
  have hnum' : ¬ escapeNameL name = "number".data := fun hc =>
    hnum (escape_eq_transfer "number".data (by decide) name hc)
  have hvoid' : ¬ escapeNameL name = "void".data := fun hc =>
    hvoid (escape_eq_transfer "void".data (by decide) name hc)
  have henc : jvmtype2tstype false (String.mk ('L' :: name ++ [';'])) =
      String.mk (escapeNameL name) := by
    show String.mk (jvmtype2tstypeL false ('L' :: name ++ [';'])) = _
    rw [jvmtype2tstypeL_Ldesc]
    simp
  rw [henc]
  show (tstype2jvmtypeF ((escapeNameL name).length + 1)
    (escapeNameL name)).map String.mk = _
  rw [tstype2jvmtypeF]
  rw [if_neg hJ', if_neg hnum', if_neg hvoid']
  rw [decode_escape name hgood]
  rfl

/-- Claim C2 witness: the round-trip theorem applied to the descriptor
`Ljava/lang/Foo_Bar;`, whose simple name contains a literal underscore. -/
theorem C2_roundtrip_witness :
    goodChain "java/lang/Foo_Bar".data = true ∧
      tstype2jvmtype (jvmtype2tstype false
          (String.mk ('L' :: "java/lang/Foo_Bar".data ++ [';']))) =
        .ok (String.mk ('L' :: "java/lang/Foo_Bar".data ++ [';'])) :=
  ⟨by decide,
    C2_roundtrip "java/lang/Foo_Bar".data (by decide) (by decide) (by decide)
      (by decide)⟩

/-- Claim C2 counterexample: for the reference descriptor `La/_b;`, whose
simple name begins with an underscore right after the package separator,
decoding the encoded name yields `La_/b;`, not `La/_b;` — the claimed
round-trip for every reference-type descriptor fails at this input. -/
theorem C2_counterexample :
    tstype2jvmtype (jvmtype2tstype false "La/_b;") = .ok "La_/b;" ∧
      tstype2jvmtype (jvmtype2tstype false "La/_b;") ≠ .ok "La/_b;" := by
  decide

/-- Claim C3 counterexample: contrary to the claim, `tstype2jvmtype` does
not fail on the void type name nor on the wide-numeric type name: it decodes
`void` to the descriptor `V` and `Long` to the reference descriptor
`LLong;`. -/
theorem C3_counterexample :
    tstype2jvmtype "void" = .ok "V" ∧ tstype2jvmtype "Long" = .ok "LLong;" := by
  decide

/-- Every `findClass` invocation's trace begins with its own entry. -/
theorem findClass_trace_head (env : Env) (fuel : Nat) (cache : Cache)
    (desc : String) :
    ∃ t, (findClass env fuel cache desc).trace =
      (desc, cacheKeys cache) :: t := by
  cases fuel with
  | zero => exact ⟨[], rfl⟩
  | succ n => exact ⟨_, rfl⟩

/-- The interface-resolution fold only extends the trace accumulated so
far. -/
theorem ifaceFold_trace_ext (fc : Cache → String → FCRes) (desc : String) :
    ∀ (l : List String)
      (acc : List (String × List String) × Cache × Option DErr),
      ∃ ext, (List.foldl (ifaceStep fc desc) acc l).1 = acc.1 ++ ext := by
  intro l
  induction l with
  | nil => intro acc; exact ⟨[], by simp⟩
  | cons i rest ih =>
      intro acc
      obtain ⟨ext2, hext2⟩ := ih (ifaceStep fc desc acc i)
      have hstep : ∃ ext1, (ifaceStep fc desc acc i).1 = acc.1 ++ ext1 := by
        unfold ifaceStep
        split
        · exact ⟨[], by simp⟩
        · refine ⟨(fc acc.2.1 i).trace, ?_⟩
          rcases hres : (fc acc.2.1 i).result with e' | cd' <;> simp [hres]
      obtain ⟨ext1, hext1⟩ := hstep
      rw [List.foldl_cons] at *
      exact ⟨ext1 ++ ext2, by rw [hext2, hext1, List.append_assoc]⟩

/-- Whenever the body of `findClass` returns a class, that class is cached
under the requested descriptor in the returned cache. -/
theorem findClassBody_ok_cached (env : Env) (fc : Cache → String → FCRes)
    (cache : Cache) (desc : String) (cd : ClassData)
    (hok : (findClassBody env fc cache desc).result = .ok cd) :
    alookup (findClassBody env fc cache desc).cache desc = some cd := by
  rcases hb : findClassBody env fc cache desc with ⟨tr, c', res⟩
  rw [hb] at hok
  simp at hok
  show alookup c' desc = some cd
  unfold findClassBody at hb
  split at hb
  · rename_i cd0 hhit
    injection hb with h1 h2 h3
    rw [← h2, hhit]
    rw [← h3] at hok
    simp at hok
    rw [hok]
  · rename_i hmiss
    split at hb
    · split at hb
      · injection hb with h1 h2 h3
        rw [← h3] at hok
        simp at hok
      · split at hb
        · injection hb with h1 h2 h3
          rw [← h3] at hok
          simp at hok
        · injection hb with h1 h2 h3
          rw [← h3] at hok
          simp at hok
          rw [← h2, ← hok]
          simp [alookup]
    · injection hb with h1 h2 h3
      rw [← h3] at hok
      simp at hok
      rw [← h2, ← hok]
      simp [alookup]
    · injection hb with h1 h2 h3
      rw [← h3] at hok
      simp at hok
      rw [← h2, ← hok]
      simp [alookup]

/-- Whenever `findClass` returns a class, that class is cached under the
requested descriptor in the returned cache. -/
theorem findClass_ok_cached (env : Env) (fuel : Nat) (cache : Cache)
    (desc : String) (cd : ClassData)
    (hok : (findClass env fuel cache desc).result = .ok cd) :
    alookup (findClass env fuel cache desc).cache desc = some cd := by
  cases fuel with
  | zero => exact absurd hok (by simp [findClass])
  | succ n =>
      have h2 : (findClassBody env (findClass env n) cache desc).result =
          .ok cd := hok
      show alookup (findClassBody env (findClass env n) cache desc).cache
        desc = some cd
      exact findClassBody_ok_cached env (findClass env n) cache desc cd h2

/-- For an uncached reference descriptor with a superclass reference, the
body's trace is the superclass resolution's trace (performed on the
unchanged entry cache) followed by the interface resolutions. -/
theorem findClassBody_trace_super (env : Env) (fc : Cache → String → FCRes)
    (cache : Cache) (desc sup : String) (info : RawClass)
    (hmiss : alookup cache desc = none)
    (hL : ∃ r, desc.data = 'L' :: r)
    (hload : loadClass env (descriptor2typestr desc) = some info)
    (hsup : info.superRef = some sup) :
    ∃ ext, (findClassBody env fc cache desc).trace =
      (fc cache sup).trace ++ ext := by
  obtain ⟨r, hr⟩ := hL
  rcases hres : (fc cache sup).result with e | cd
  · refine ⟨[], ?_⟩
    unfold findClassBody resolveSupIfaces resolveSup
    simp only [hmiss, hr, hload, hsup, hres]
    simp
  · have hrs : resolveSup fc desc info cache =
        ((fc cache sup).trace, (fc cache sup).cache, none) := by
      unfold resolveSup
      simp only [hsup, hres]
    obtain ⟨ext, hext⟩ := ifaceFold_trace_ext fc desc info.interfaceRefs
      ((fc cache sup).trace, (fc cache sup).cache, none)
    have hrsi : ∃ ext2, (resolveSupIfaces fc desc info cache).1 =
        (fc cache sup).trace ++ ext2 := by
      unfold resolveSupIfaces
      rw [hrs]
      exact ⟨ext, hext⟩
    obtain ⟨ext2, hext2⟩ := hrsi
    unfold findClassBody
    simp only [hmiss, hr, hload]
    rcases hfl : (resolveSupIfaces fc desc info cache).2.2 with _ | e
    · simp only [hfl]
      exact ⟨ext2, hext2⟩
    · simp only [hfl]
      exact ⟨ext2, hext2⟩

/-- Claim C1 (amended): when `findClass` is called on an uncached
reference-type descriptor, the recursive resolution of its superclass
descriptor begins with the cache exactly as at entry — in particular the
cache does **not** yet contain the entry for the descriptor being resolved;
the entry is inserted only after the recursive resolution of the superclass
and interfaces completes (so a diamond reference reaching the same class
again finds it only because the first sibling subtree finished first, and a
malformed cyclic hierarchy re-enters resolution instead of finding a cached
entry). -/
theorem C1_cache_insert_after (env : Env) (fuel : Nat) (cache : Cache)
    (desc sup : String) (info : RawClass)
    (hmiss : alookup cache desc = none)
    (hL : desc.data.head? = some 'L')
    (hload : loadClass env (descriptor2typestr desc) = some info)
    (hsup : info.superRef = some sup) :
    ((findClass env (fuel + 1) cache desc).trace.take 2 =
      [(desc, cacheKeys cache), (sup, cacheKeys cache)]) ∧
    cachedAfter (findClass env (fuel + 1) cache desc) desc := by
  constructor
  · have hLr : ∃ r, desc.data = 'L' :: r := by
      cases hd : desc.data with
      | nil => rw [hd] at hL; simp at hL
      | cons c cs =>
          rw [hd] at hL
          simp at hL
          exact ⟨cs, by rw [hL]⟩
    obtain ⟨ext, hext⟩ := findClassBody_trace_super env (findClass env fuel)
      cache desc sup info hmiss hLr hload hsup
    obtain ⟨t, ht⟩ := findClass_trace_head env fuel cache sup
    show ((desc, cacheKeys cache) ::
      (findClassBody env (findClass env fuel) cache desc).trace).take 2 = _
    rw [hext, ht]
    simp
  · unfold cachedAfter
    rcases hres : (findClass env (fuel + 1) cache desc).result with e | cd
    · trivial
    · exact findClass_ok_cached env (fuel + 1) cache desc cd hres

/-- Claim C1 counterexample: resolving the uncached descriptor `LA;` against
`envC1` from the empty cache produces the invocation trace
`[(LA;, {}), (LB;, {})]`: the recursive resolution of the superclass `LB;`
begins while the cache still does **not** contain the entry for `LA;`
(the cache-key component of the `LB;` event is empty), refuting the claim
that the entry is inserted before the recursive resolution begins; the
entry appears only in the final cache. -/
theorem C1_counterexample :
    (findClass envC1 6 [] "LA;").trace = [("LA;", []), ("LB;", [])] ∧
    ((findClass envC1 6 [] "LA;").trace.filter
        (fun e => e.1 == "LB;")).all (fun e => e.2.contains "LA;") = false ∧
    cacheKeys (findClass envC1 6 [] "LA;").cache = ["LA;", "LB;"] := by
  decide

/-- Claim C1 witness: the amended theorem applied to `envC1`, `LA;` and the
empty cache. -/
theorem C1_cache_insert_after_witness :
    ((findClass envC1 6 [] "LA;").trace.take 2 =
      [("LA;", cacheKeys ([] : Cache)), ("LB;", cacheKeys ([] : Cache))]) ∧
    cachedAfter (findClass envC1 6 [] "LA;") "LA;" :=
  C1_cache_insert_after envC1 5 [] "LA;" "LB;" { superRef := some "LB;" }
    (by decide) (by decide) (by decide) (by decide)

theorem beqL_refl (x : List Char) : beqL x x = true := by
  induction x with
  | nil => rfl
  | cons a xs ih => simp [beqL, ih]

theorem beqL_eq (x y : List Char) (h : beqL x y = true) : x = y := by
  induction x generalizing y with
  | nil =>
      cases y with
      | nil => rfl
      | cons b ys => simp [beqL] at h
  | cons a xs ih =>
      cases y with
      | nil => simp [beqL] at h
      | cons b ys =>
          rw [beqL] at h
          by_cases hab : a = b
          · rw [if_pos hab] at h
            rw [hab, ih ys h]
          · rw [if_neg hab] at h
            exact absurd h (by simp)

theorem strEqOf (s t : String) (h : beqL s.data t.data = true) : s = t := by
  cases s
  cases t
  exact congrArg String.mk (beqL_eq _ _ h)

theorem strAppend_assoc (a b c : String) : a ++ b ++ c = a ++ (b ++ c) := by
  cases a
  cases b
  cases c
  show String.mk _ = String.mk _
  rw [List.append_assoc]

theorem strAppend_empty (a : String) : a ++ "" = a := by
  cases a
  show String.mk _ = String.mk _
  simp

theorem strNeOf (s t : String) (h : beqL s.data t.data = false) : s ≠ t := by
  intro he
  subst he
  rw [beqL_refl] at h
  exact absurd h (by simp)

set_option maxRecDepth 100000 in
set_option maxHeartbeats 2000000 in
/-- Claim C5 counterexample: the run on `envC5` completes, the requested
class `Lfoo/A;` was resolved (it is in the resolution cache), it has zero
native methods and produced no stub block — and, contrary to the claim, it
is **not** in the header's declared set: `processClassData` only seeds the
header graph from `classStart`, which is reached only when a native method
exists. -/
theorem C5_counterexample :
    isOkE (runDoppioh envC5 cfgC5 none 12) = true ∧
    (runStateOf (runDoppioh envC5 cfgC5 none 12)).headerSet.contains
      "Lfoo/A;" = false ∧
    (cacheKeys (runStateOf (runDoppioh envC5 cfgC5 none 12)).cache).contains
      "Lfoo/A;" = true ∧
    (runStateOf (runDoppioh envC5 cfgC5 none 12)).stubEvents = [] := by
  decide

set_option maxRecDepth 20000 in
set_option maxHeartbeats 16000000 in
/-- Claim C6 counterexample: both runs complete and produce byte-identical
stub artifacts and the same declared set, but the header artifacts are
**not** byte-identical: the first run emits `java_lang_Throwable` before
`java_lang_Object`, while the second run — replaying the first run's
header artifact `header1C6` — pushes those declarations onto the LIFO
generate queue in textual order and therefore emits them in the opposite
order. -/
theorem C6_counterexample :
    isOkE run1C6 = true ∧
    (runStateOf run1C6).headerText = header1C6 ∧
    isOkE run2C6 = true ∧
    (runStateOf run1C6).stubText = (runStateOf run2C6).stubText ∧
    (runStateOf run1C6).headerSet = (runStateOf run2C6).headerSet ∧
    (runStateOf run1C6).emitLog =
      ["Ljava/lang/Throwable;", "Ljava/lang/Object;"] ∧
    (runStateOf run2C6).emitLog =
      ["Ljava/lang/Object;", "Ljava/lang/Throwable;"] ∧
    (runStateOf run1C6).headerText ≠ (runStateOf run2C6).headerText :=
  ⟨by decide,
   strEqOf _ _ (by decide),
   by decide,
   strEqOf _ _ (by decide),
   by decide,
   by decide,
   by decide,
   strNeOf _ _ (by decide)⟩

set_option maxRecDepth 100000 in
set_option maxHeartbeats 2000000 in
/-- Claim C9 counterexample: replaying `priorC9` fails at its second entry
and the failure is swallowed (the run still completes), but the run does
**not** continue in the same state as if no prior header existed: the
entry replayed before the failure (`Laaa;`) stays in the declared set and
is emitted, and the failing entry (`Lccc;`) stays marked as seen even
though it was never enqueued; the fresh run has neither. -/
theorem C9_counterexample :
    isOkE (runDoppioh envC9 cfgC9 (some priorC9) 12) = true ∧
    (runStateOf (runDoppioh envC9 cfgC9 (some priorC9) 12)).headerSet =
      ["Laaa;", "Lccc;", "Ljava/lang/Throwable;", "Ljava/lang/Object;"] ∧
    (runStateOf (runDoppioh envC9 cfgC9 (some priorC9) 12)).emitLog.contains
      "Laaa;" = true ∧
    isOkE (runDoppioh envC9 cfgC9 none 12) = true ∧
    (runStateOf (runDoppioh envC9 cfgC9 none 12)).headerSet =
      ["Ljava/lang/Throwable;", "Ljava/lang/Object;"] ∧
    (runStateOf (runDoppioh envC9 cfgC9 (some priorC9) 12)).headerSet ≠
      (runStateOf (runDoppioh envC9 cfgC9 none 12)).headerSet := by
  decide

set_option maxRecDepth 100000 in
set_option maxHeartbeats 2000000 in
/-- Claim C4 counterexample: the header declaration emitted for the
interface `foo/I` lists `java_lang_Object` as its first explicit base,
before the extended interface `foo_Bar` — the extends list is **not**
exactly the extended interfaces, and the universal root reference type
**is** emitted as an explicit base of an interface declaration. -/
theorem C4_counterexample :
    (processHeaderS envC4 6 clsC4 { headerSet := ["Lfoo/I;"] }).2 = none ∧
    (processHeaderS envC4 6 clsC4 { headerSet := ["Lfoo/I;"] }).1.headerText =
      "  export interface foo_I extends java_lang_Object, foo_Bar \x7b\n  \x7d\n" ∧
    (processHeaderS envC4 6 clsC4 { headerSet := ["Lfoo/I;"] }).1.headerText ≠
      "  export interface foo_I extends foo_Bar \x7b\n  \x7d\n" := by
  decide

/-- Claim C3 (amended): `tstype2jvmtype` fails with the `Ambiguous.` error
exactly on the generic numeric type name `number` — in particular decoding
the output name of descriptor `[[I` (a two-level array wrapper parameterized
by the generic numeric type) fails rather than returning a guessed primitive
descriptor — while the void type name decodes to `V` and the wide-numeric
type name `Long` decodes to the reference descriptor `LLong;` rather than
failing. -/
theorem C3_ambiguous :
    tstype2jvmtype "number" = .error .ambiguous ∧
      tstype2jvmtype (jvmtype2tstype false "[[I") = .error .ambiguous ∧
      tstype2jvmtype "void" = .ok "V" ∧
      tstype2jvmtype "Long" = .ok "LLong;" := by
  decide

/-! ### Facet-preservation lemmas for the pipeline operations -/

/-- Unfolding of `gcdGo` on an array descriptor. -/
theorem gcdGo_eq_arr (env : Env) (fuel : Nat) (rest : List Char)
    (s : TState) :
    gcdGo env fuel ('[' :: rest) s =
      if s.headerSet.contains (String.mk ('[' :: rest)) ||
          is_primitive_type (String.mk ('[' :: rest)) then (s, none)
      else gcdGo env fuel rest s := rfl

/-- Unfolding of `gcdGo` on a non-array descriptor. -/
theorem gcdGo_eq_push (env : Env) (fuel : Nat) (dl : List Char) (s : TState)
    (h : dl.head? ≠ some '[') :
    gcdGo env fuel dl s =
      if s.headerSet.contains (String.mk dl) ||
          is_primitive_type (String.mk dl) then (s, none)
      else gcdPush env fuel dl s := by
  match dl with
  | [] => rfl
  | c :: rest =>
      rw [gcdGo.eq_def]
      split
      · rename_i rest' heq
        injection heq with e1 e2
        rw [e1] at h
        simp at h
      · rfl

/-- The mark-and-push step mutates only the cache, the seen set, the queue
and the push log. -/
theorem gcdPush_facets (env : Env) (fuel : Nat) (dl : List Char)
    (s : TState) :
    (gcdPush env fuel dl s).1.stubText = s.stubText ∧
    (gcdPush env fuel dl s).1.classesSeen = s.classesSeen ∧
    (gcdPush env fuel dl s).1.stubEvents = s.stubEvents ∧
    (gcdPush env fuel dl s).1.headerText = s.headerText ∧
    (gcdPush env fuel dl s).1.emitLog = s.emitLog := by
  unfold gcdPush
  rcases hres : (findClass env fuel s.cache (String.mk dl)).result
    with e | cd <;> simp [hres]

/-- `generateClassDefinition` mutates only the cache, the seen set, the
queue and the push log: the output texts, the classes seen, the stub
events and the emit log are untouched (in both outcomes). -/
theorem gcdGo_facets (env : Env) (fuel : Nat) :
    ∀ (dl : List Char) (s : TState),
      (gcdGo env fuel dl s).1.stubText = s.stubText ∧
      (gcdGo env fuel dl s).1.classesSeen = s.classesSeen ∧
      (gcdGo env fuel dl s).1.stubEvents = s.stubEvents ∧
      (gcdGo env fuel dl s).1.headerText = s.headerText ∧
      (gcdGo env fuel dl s).1.emitLog = s.emitLog := by
  intro dl
  induction dl with
  | nil =>
      intro s
      rw [gcdGo_eq_push env fuel [] s (by simp)]
      split
      · exact ⟨rfl, rfl, rfl, rfl, rfl⟩
      · exact gcdPush_facets env fuel [] s
  | cons c rest ih =>
      intro s
      by_cases hc : c = '['
      · subst hc
        rw [gcdGo_eq_arr]
        split
        · exact ⟨rfl, rfl, rfl, rfl, rfl⟩
        · exact ih s
      · rw [gcdGo_eq_push env fuel (c :: rest) s (by simp [hc])]
        split
        · exact ⟨rfl, rfl, rfl, rfl, rfl⟩
        · exact gcdPush_facets env fuel (c :: rest) s

/-- `genDefList` preserves the same facets as `generateClassDefinition`. -/
theorem genDefList_facets (env : Env) (fuel : Nat) :
    ∀ (ds : List String) (s : TState),
      (genDefList env fuel ds s).1.stubText = s.stubText ∧
      (genDefList env fuel ds s).1.classesSeen = s.classesSeen ∧
      (genDefList env fuel ds s).1.stubEvents = s.stubEvents ∧
      (genDefList env fuel ds s).1.headerText = s.headerText ∧
      (genDefList env fuel ds s).1.emitLog = s.emitLog := by
  intro ds
  induction ds with
  | nil => intro s; exact ⟨rfl, rfl, rfl, rfl, rfl⟩
  | cons d rest ih =>
      intro s
      rcases hg : generateClassDefinition env fuel d s with ⟨s1, e⟩
      have h1 := gcdGo_facets env fuel d.data s
      rw [show gcdGo env fuel d.data s = (s1, e) from hg] at h1
      have hlist : genDefList env fuel (d :: rest) s =
          (match generateClassDefinition env fuel d s with
           | (s1, some e) => (s1, some e)
           | (s1, none) => genDefList env fuel rest s1) := rfl
      rw [hlist, hg]
      cases e with
      | some err => exact h1
      | none =>
          have h2 := ih s1
          exact ⟨h2.1.trans h1.1, h2.2.1.trans h1.2.1,
            h2.2.2.1.trans h1.2.2.1, h2.2.2.2.1.trans h1.2.2.2.1,
            h2.2.2.2.2.trans h1.2.2.2.2⟩

/-- Unfolding of a successful `andThen` chain link. -/
theorem andThen_none (r : TState × Option DErr)
    (f : TState → TState × Option DErr)
    (h : (andThen r f).2 = none) :
    r.2 = none ∧ andThen r f = f r.1 := by
  rcases r with ⟨s1, e⟩
  cases e with
  | some err => exact absurd h (by simp [andThen])
  | none => exact ⟨rfl, rfl⟩

/-- `classStart` appends the class opening to the stub text, the class
name to `classesSeen`, and a `cstart` event — in both outcomes (the
trailing `generateClassDefinition` touches none of these). -/
theorem classStart_spec (env : Env) (fuel : Nat) (n : String) (s : TState) :
    (classStart env fuel n s).1.stubText =
      s.stubText ++ "\nclass " ++ n ++ " \x7b\n" ∧
    (classStart env fuel n s).1.classesSeen = s.classesSeen ++ [n] ∧
    (classStart env fuel n s).1.stubEvents =
      s.stubEvents ++ [StubEvent.cstart n] ∧
    (classStart env fuel n s).1.headerText = s.headerText := by
  have h := gcdGo_facets env fuel
    ("L" ++ String.mk (jsReplaceAll '_' ['/'] n.data) ++ ";").data
    { s with
        stubText := s.stubText ++ "\nclass " ++ n ++ " \x7b\n",
        classesSeen := s.classesSeen ++ [n],
        stubEvents := s.stubEvents ++ [StubEvent.cstart n] }
  exact ⟨h.1, h.2.1, h.2.2.1, h.2.2.2.1⟩

/-- A successful `tsMethod` appends exactly the stub method text and a
`cmethod` event; it leaves `classesSeen` and the header text unchanged. -/
theorem tsMethod_spec (env : Env) (fuel : Nat) (classDesc methodName : String)
    (isStatic : Bool) (argTypes : List String) (rType : String) (s : TState)
    (h : (tsMethod env fuel classDesc methodName isStatic argTypes rType
      s).2 = none) :
    (tsMethod env fuel classDesc methodName isStatic argTypes rType
      s).1.stubText = s.stubText ++
        tsMethodText classDesc methodName isStatic argTypes rType ∧
    (tsMethod env fuel classDesc methodName isStatic argTypes rType
      s).1.classesSeen = s.classesSeen ∧
    (tsMethod env fuel classDesc methodName isStatic argTypes rType
      s).1.stubEvents = s.stubEvents ++ [StubEvent.cmethod methodName] ∧
    (tsMethod env fuel classDesc methodName isStatic argTypes rType
      s).1.headerText = s.headerText := by
  unfold tsMethod at h ⊢
  obtain ⟨h1, h1e⟩ := andThen_none _ _ h
  rw [h1e] at h ⊢
  obtain ⟨h2, h2e⟩ := andThen_none _ _ h
  rw [h2e] at h ⊢
  obtain ⟨h3, h3e⟩ := andThen_none _ _ h
  rw [h3e] at h ⊢
  obtain ⟨h4, h4e⟩ := andThen_none _ _ h
  rw [h4e] at h ⊢
  obtain ⟨h5, h5e⟩ := andThen_none _ _ h
  rw [h5e] at h ⊢
  have g1 := genDefList_facets env fuel (tstypeRefs rType.data) s
  set s1 := (genDefList env fuel (tstypeRefs rType.data) s).1
  have g2 := genDefList_facets env fuel (argTypes ++ [rType]) s1
  set s2 := (genDefList env fuel (argTypes ++ [rType]) s1).1
  have g3 : ((if isStatic then (s2, none)
      else genDefList env fuel (tstypeRefs classDesc.data) s2) :
      TState × Option DErr).1.stubText = s2.stubText ∧
      ((if isStatic then (s2, none)
      else genDefList env fuel (tstypeRefs classDesc.data) s2) :
      TState × Option DErr).1.classesSeen = s2.classesSeen ∧
      ((if isStatic then (s2, none)
      else genDefList env fuel (tstypeRefs classDesc.data) s2) :
      TState × Option DErr).1.stubEvents = s2.stubEvents ∧
      ((if isStatic then (s2, none)
      else genDefList env fuel (tstypeRefs classDesc.data) s2) :
      TState × Option DErr).1.headerText = s2.headerText := by
    split
    · exact ⟨rfl, rfl, rfl, rfl⟩
    · have g := genDefList_facets env fuel (tstypeRefs classDesc.data) s2
      exact ⟨g.1, g.2.1, g.2.2.1, g.2.2.2.1⟩
  set s3 := ((if isStatic then (s2, none)
      else genDefList env fuel (tstypeRefs classDesc.data) s2) :
      TState × Option DErr).1
  have g4 := genDefList_facets env fuel
    ((argTypes.map (fun t => tstypeRefs t.data)).flatten) s3
  set s4 := (genDefList env fuel
    ((argTypes.map (fun t => tstypeRefs t.data)).flatten) s3).1
  have g5 := genDefList_facets env fuel (tstypeRefs rType.data) s4
  set s5 := (genDefList env fuel (tstypeRefs rType.data) s4).1
  refine ⟨?_, ?_, ?_, ?_⟩
  · show s5.stubText ++ _ = _
    rw [g5.1, g4.1, g3.1, g2.1, g1.1]
  · show s5.classesSeen = _
    rw [g5.2.1, g4.2.1, g3.2.1, g2.2.1, g1.2.1]
  · show s5.stubEvents ++ _ = _
    rw [g5.2.2.1, g4.2.2.1, g3.2.2.1, g2.2.2.1, g1.2.2.1]
  · show s5.headerText = _
    rw [g5.2.2.2.1, g4.2.2.2.1, g3.2.2.2, g2.2.2.2.1, g1.2.2.2.1]

/-- The method loop with no native methods does nothing at all. -/
theorem pcdLoop_nonative (env : Env) (fuel : Nat) (desc fn : String) :
    ∀ (ms : List Method) (found : Bool) (s : TState),
      ms.all (fun m => !m.isNative) = true →
      pcdLoop env fuel desc fn ms found s = (s, found, none) := by
  intro ms
  induction ms with
  | nil => intro found s _; rfl
  | cons m rest ih =>
      intro found s hall
      simp [List.all_cons] at hall
      have hm : m.isNative = false := by
        cases hmn : m.isNative
        · rfl
        · rw [hmn] at hall; simp at hall
      show (if m.isNative then _ else pcdLoop env fuel desc fn rest found s)
        = (s, found, none)
      rw [hm]
      simp only [Bool.false_eq_true, if_false]
      have h2 : rest.all (fun m => !m.isNative) = true := by
        simp [List.all_eq_true]
        exact hall.2
      exact ih found s h2

/-- What one successful pass of the method loop does: it appends the stub
block text, the stub events and (when it opens a block) the class name,
leaves the header text unchanged, and reports whether a native method was
found. -/
theorem pcdLoop_spec (env : Env) (fuel : Nat) (desc fn : String) :
    ∀ (ms : List Method) (found : Bool) (s s' : TState) (f' : Bool),
      pcdLoop env fuel desc fn ms found s = (s', f', none) →
      s'.stubText = s.stubText ++ loopText desc fn ms found ∧
      s'.classesSeen = s.classesSeen ++
        (if found then []
         else if ms.any (fun m => m.isNative) then [fn] else []) ∧
      s'.stubEvents = s.stubEvents ++ loopEvents fn ms found ∧
      s'.headerText = s.headerText ∧
      f' = (found || ms.any (fun m => m.isNative)) := by
  intro ms
  induction ms with
  | nil =>
      intro found s s' f' h
      have h' : (s, found, (none : Option DErr)) = (s', f', none) := h
      injection h' with e1 e2
      injection e2 with e2 e3
      rw [← e1, ← e2]
      simp [loopText, loopEvents]
  | cons m rest ih =>
      intro found s s' f' h
      by_cases hm : m.isNative = true
      · have hstep : pcdLoop env fuel desc fn (m :: rest) found s =
            (match (if found then (s, none)
                else classStart env fuel fn s) with
             | (s1, some e) => (s1, true, some e)
             | (s1, none) =>
               match tsMethod env fuel desc m.signature m.isStatic
                   m.parameterTypes m.returnType s1 with
               | (s2, some e) => (s2, true, some e)
               | (s2, none) => pcdLoop env fuel desc fn rest true s2) := by
          show (if m.isNative then _ else _) = _
          rw [hm]
          simp
        rw [hstep] at h
        rcases hcs : (if found then (s, (none : Option DErr))
            else classStart env fuel fn s) with ⟨s1, e1⟩
        rw [hcs] at h
        cases e1 with
        | some err => exact absurd h (by simp)
        | none =>
            replace h : (match tsMethod env fuel desc m.signature m.isStatic
                m.parameterTypes m.returnType s1 with
              | (s2, some e) => (s2, true, some e)
              | (s2, none) => pcdLoop env fuel desc fn rest true s2) =
                (s', f', none) := h
            rcases htm : tsMethod env fuel desc m.signature m.isStatic
                m.parameterTypes m.returnType s1 with ⟨s2, e2⟩
            rw [htm] at h
            cases e2 with
            | some err => exact absurd h (by simp)
            | none =>
                replace h : pcdLoop env fuel desc fn rest true s2 =
                  (s', f', none) := h
                have hrec := ih true s2 s' f' h
                have hts := tsMethod_spec env fuel desc m.signature
                  m.isStatic m.parameterTypes m.returnType s1
                  (by rw [htm])
                rw [htm] at hts
                have hs1 : s1.stubText = s.stubText ++
                    (if found then "" else "\nclass " ++ fn ++ " \x7b\n") ∧
                    s1.classesSeen = s.classesSeen ++
                      (if found then [] else [fn]) ∧
                    s1.stubEvents = s.stubEvents ++
                      (if found then [] else [StubEvent.cstart fn]) ∧
                    s1.headerText = s.headerText := by
                  cases found with
                  | true =>
                      have : (s, (none : Option DErr)) = (s1, none) := by
                        rw [← hcs]; simp
                      injection this with e1 _
                      rw [← e1]
                      simp
                  | false =>
                      have hcs' : classStart env fuel fn s = (s1, none) := by
                        rw [← hcs]; simp
                      have := classStart_spec env fuel fn s
                      rw [hcs'] at this
                      simpa [strAppend_assoc] using this
                refine ⟨?_, ?_, ?_, ?_, ?_⟩
                · rw [hrec.1, hts.1, hs1.1]
                  show _ = s.stubText ++ (if m.isNative then _ else _)
                  rw [hm]
                  simp [strAppend_assoc]
                · rw [hrec.2.1, hts.2.1, hs1.2.1]
                  cases found with
                  | true => simp
                  | false => simp [hm]
                · rw [hrec.2.2.1, hts.2.2.1, hs1.2.2.1]
                  show _ = s.stubEvents ++ loopEvents fn (m :: rest) found
                  cases found with
                  | true =>
                      simp [loopEvents, hm]
                  | false =>
                      simp [loopEvents, hm]
                · rw [hrec.2.2.2.1, hts.2.2.2, hs1.2.2.2]
                · rw [hrec.2.2.2.2]
                  simp [hm]
      · have hm' : m.isNative = false := by
          cases hmn : m.isNative
          · rfl
          · exact absurd hmn hm
        have hstep : pcdLoop env fuel desc fn (m :: rest) found s =
            pcdLoop env fuel desc fn rest found s := by
          show (if m.isNative then _ else _) = _
          rw [hm']
          simp
        rw [hstep] at h
        have hrec := ih found s s' f' h
        refine ⟨?_, ?_, ?_, hrec.2.2.2.1, ?_⟩
        · rw [hrec.1]
          show _ = s.stubText ++ (if m.isNative then _ else _)
          rw [hm']
          simp
        · rw [hrec.2.1]
          cases found with
          | true => simp
          | false => simp [hm']
        · rw [hrec.2.2.1]
          show _ = s.stubEvents ++ loopEvents fn (m :: rest) found
          cases found with
          | true => simp [loopEvents, hm']
          | false => simp [loopEvents, hm']
        · rw [hrec.2.2.2.2]
          simp [hm']

/-- What a successful `processClassData` does to the stub artifact: it
appends the class's stub block text and events (nothing at all for a class
with no native methods) and leaves the header text unchanged. -/
theorem processClassData_spec (env : Env) (fuel : Nat) (desc : String)
    (info : RawClass) (s : TState)
    (hok : (processClassData env fuel (.ref desc info) s).2 = none) :
    (processClassData env fuel (.ref desc info) s).1.stubText =
      s.stubText ++ loopText desc (fixedNameOf desc) info.methods false ++
        (if info.methods.any (fun m => m.isNative) then "\n\x7d\n"
         else "") ∧
    (processClassData env fuel (.ref desc info) s).1.classesSeen =
      s.classesSeen ++
        (if info.methods.any (fun m => m.isNative) then [fixedNameOf desc]
         else []) ∧
    (processClassData env fuel (.ref desc info) s).1.stubEvents =
      s.stubEvents ++ loopEvents (fixedNameOf desc) info.methods false ++
        (if info.methods.any (fun m => m.isNative) then
          [StubEvent.cend (fixedNameOf desc)]
         else []) ∧
    (processClassData env fuel (.ref desc info) s).1.headerText =
      s.headerText := by
  rcases hl : pcdLoop env fuel desc (fixedNameOf desc) info.methods false s
    with ⟨s1, f, e⟩
  simp only [processClassData] at hok ⊢
  rw [hl] at hok ⊢
  cases e with
  | some err => simp at hok
  | none =>
      have hspec := pcdLoop_spec env fuel desc (fixedNameOf desc)
        info.methods false s s1 f hl
      have hf : f = info.methods.any (fun m => m.isNative) := by
        simpa using hspec.2.2.2.2
      cases hany : info.methods.any (fun m => m.isNative) with
      | true =>
          rw [hany] at hf
          rw [hf]
          simp only [if_true]
          have hseen : s1.classesSeen = s.classesSeen ++ [fixedNameOf desc] := by
            have := hspec.2.1
            simp [hany] at this
            exact this
          refine ⟨?_, ?_, ?_, hspec.2.2.2.1⟩
          · show s1.stubText ++ _ = _
            rw [hspec.1]
          · show s1.classesSeen = _
            rw [hseen]
          · show s1.stubEvents ++ _ = _
            rw [hspec.2.2.1]
      | false =>
          rw [hany] at hf
          rw [hf]
          simp only [Bool.false_eq_true, if_false]
          have hseen : s1.classesSeen = s.classesSeen := by
            have := hspec.2.1
            simp [hany] at this
            exact this
          refine ⟨?_, ?_, ?_, hspec.2.2.2.1⟩
          · show s1.stubText = _
            rw [hspec.1, strAppend_empty]
          · show s1.classesSeen = _
            rw [hseen, List.append_nil]
          · show s1.stubEvents = _
            rw [hspec.2.2.1, List.append_nil]

/-- Claim C8: a class with zero native methods produces no class block at
all in the stub artifact — `processClassData` is a complete no-op for it,
so there is no `classStart`/`classEnd` pair, no method stub and no text —
while a class with at least one native method gets exactly one
`classStart`, one stub per native method in order, and one `classEnd`. -/
theorem C8_skip_rule (env : Env) (fuel : Nat) (desc : String)
    (info : RawClass) (s : TState) :
    (info.methods.all (fun m => !m.isNative) = true →
      processClassData env fuel (.ref desc info) s = (s, none)) ∧
    ((processClassData env fuel (.ref desc info) s).2 = none →
      (processClassData env fuel (.ref desc info) s).1.stubEvents =
        s.stubEvents ++
          (if info.methods.any (fun m => m.isNative) then
            StubEvent.cstart (fixedNameOf desc) ::
              ((info.methods.filter (fun m => m.isNative)).map
                (fun m => StubEvent.cmethod m.signature)) ++
              [StubEvent.cend (fixedNameOf desc)]
           else [])) := by
  constructor
  · intro hall
    have hl := pcdLoop_nonative env fuel desc (fixedNameOf desc)
      info.methods false s hall
    simp only [processClassData]
    rw [hl]
    rfl
  · intro hok
    have h := processClassData_spec env fuel desc info s hok
    rw [h.2.2.1]
    cases hany : info.methods.any (fun m => m.isNative) with
    | true => simp [loopEvents, hany, List.append_assoc]
    | false => simp [loopEvents, hany]

/-- Claim C8 witness: the skip rule applied to a class with no methods and
to a class with one native method. -/
theorem C8_skip_rule_witness :
    (processClassData envC8 6 (ClassData.ref "Lfoo/B;" {}) {} =
      ({}, none)) ∧
    ((processClassData envC8 6 (ClassData.ref "Lfoo/B;" infoC8)
        {}).1.stubEvents =
      ({} : TState).stubEvents ++
        (if infoC8.methods.any (fun m => m.isNative) then
          StubEvent.cstart (fixedNameOf "Lfoo/B;") ::
            ((infoC8.methods.filter (fun m => m.isNative)).map
              (fun m => StubEvent.cmethod m.signature)) ++
            [StubEvent.cend (fixedNameOf "Lfoo/B;")]
         else [])) :=
  ⟨(C8_skip_rule envC8 6 "Lfoo/B;" {} {}).1 (by decide),
   (C8_skip_rule envC8 6 "Lfoo/B;" infoC8 {}).2 (by decide)⟩

theorem stubPres_refl (s : TState) (e : Option DErr) :
    StubPres (s, e) s := ⟨rfl, rfl, rfl⟩

theorem andThen_stubPres (r : TState × Option DErr)
    (f : TState → TState × Option DErr) (s : TState)
    (h1 : StubPres r s) (h2 : ∀ t, StubPres (f t) t) :
    StubPres (andThen r f) s := by
  rcases r with ⟨s1, e⟩
  cases e with
  | some err => exact h1
  | none =>
      have h3 := h2 s1
      exact ⟨h3.1.trans h1.1, h3.2.1.trans h1.2.1, h3.2.2.trans h1.2.2⟩

theorem genDefList_stubPres (env : Env) (fuel : Nat) (ds : List String)
    (s : TState) : StubPres (genDefList env fuel ds s) s :=
  ⟨(genDefList_facets env fuel ds s).1,
   (genDefList_facets env fuel ds s).2.1,
   (genDefList_facets env fuel ds s).2.2.1⟩

theorem emitText_stubPres (txt : String) (s : TState) :
    StubPres (emitText txt s) s := ⟨rfl, rfl, rfl⟩

theorem phDeclSuper_stubPres (env : Env) (fuel : Nat) (info : RawClass)
    (s : TState) : StubPres (phDeclSuper env fuel info s) s := by
  unfold phDeclSuper
  split
  · exact andThen_stubPres _ _ _ (genDefList_stubPres env fuel _ s)
      (fun t => emitText_stubPres _ t)
  · exact stubPres_refl s none

theorem phDeclIfaces_stubPres (env : Env) (fuel : Nat) (info : RawClass)
    (s : TState) : StubPres (phDeclIfaces env fuel info s) s := by
  unfold phDeclIfaces
  split
  · refine andThen_stubPres _ _ _ (emitText_stubPres _ s) (fun t => ?_)
    exact andThen_stubPres _ _ _ (genDefList_stubPres env fuel _ t)
      (fun u => emitText_stubPres _ u)
  · exact stubPres_refl s none

theorem phField_stubPres (env : Env) (fuel : Nat) (f : Field) (s : TState) :
    StubPres (phField env fuel f s) s := by
  unfold phField
  split
  · exact stubPres_refl s none
  · exact andThen_stubPres _ _ _ (genDefList_stubPres env fuel _ s)
      (fun t => emitText_stubPres _ t)

theorem phMethod_stubPres (env : Env) (fuel : Nat) (m : Method)
    (s : TState) : StubPres (phMethod env fuel m s) s :=
  andThen_stubPres _ _ _ (genDefList_stubPres env fuel _ s)
    (fun t => emitText_stubPres _ t)

theorem phList_stubPres {α : Type}
    (step : α → TState → TState × Option DErr)
    (hstep : ∀ x t, StubPres (step x t) t) :
    ∀ (l : List α) (s : TState), StubPres (phList step l s) s := by
  intro l
  induction l with
  | nil => intro s; exact stubPres_refl s none
  | cons x xs ih =>
      intro s
      exact andThen_stubPres _ _ _ (hstep x s) (fun t => ih t)

/-- `_processHeader` never touches the stub-side state. -/
theorem processHeaderS_stubPres (env : Env) (fuel : Nat) (cd : ClassData)
    (s : TState) : StubPres (processHeaderS env fuel cd s) s := by
  match cd with
  | .ref desc info =>
      refine andThen_stubPres _ _ _ ?_ (fun t1 => ?_)
      · exact ⟨(genDefList_facets env fuel _ _).1,
          (genDefList_facets env fuel _ _).2.1,
          (genDefList_facets env fuel _ _).2.2.1⟩
      refine andThen_stubPres _ _ _ (emitText_stubPres _ t1) (fun t2 => ?_)
      refine andThen_stubPres _ _ _ (phDeclSuper_stubPres env fuel info t2)
        (fun t3 => ?_)
      refine andThen_stubPres _ _ _ (phDeclIfaces_stubPres env fuel info t3)
        (fun t4 => ?_)
      refine andThen_stubPres _ _ _ (emitText_stubPres _ t4) (fun t5 => ?_)
      refine andThen_stubPres _ _ _ (emitText_stubPres _ t5) (fun t6 => ?_)
      refine andThen_stubPres _ _ _
        (phList_stubPres _ (phField_stubPres env fuel) info.fields t6)
        (fun t7 => ?_)
      refine andThen_stubPres _ _ _
        (phList_stubPres _ (phMethod_stubPres env fuel) _ t7)
        (fun t8 => ?_)
      refine andThen_stubPres _ _ _
        (phList_stubPres _ (phMethod_stubPres env fuel) _ t8)
        (fun t9 => ?_)
      exact ⟨rfl, rfl, rfl⟩
  | .arr c => exact stubPres_refl s _
  | .prim d => exact stubPres_refl s _

theorem headerExt_refl (s : TState) (e : Option DErr) :
    HeaderExt (s, e) s := ⟨"", (strAppend_empty _).symm⟩

theorem andThen_headerExt (r : TState × Option DErr)
    (f : TState → TState × Option DErr) (s : TState)
    (h1 : HeaderExt r s) (h2 : ∀ t, HeaderExt (f t) t) :
    HeaderExt (andThen r f) s := by
  rcases r with ⟨s1, e⟩
  cases e with
  | some err => exact h1
  | none =>
      obtain ⟨e1, he1⟩ := h1
      obtain ⟨e2, he2⟩ := h2 s1
      refine ⟨e1 ++ e2, ?_⟩
      show (f s1).1.headerText = s.headerText ++ (e1 ++ e2)
      rw [he2, he1, strAppend_assoc]

theorem genDefList_headerExt (env : Env) (fuel : Nat) (ds : List String)
    (s : TState) : HeaderExt (genDefList env fuel ds s) s :=
  ⟨"", by rw [(genDefList_facets env fuel ds s).2.2.2.1, strAppend_empty]⟩

theorem emitText_headerExt (txt : String) (s : TState) :
    HeaderExt (emitText txt s) s := ⟨txt, rfl⟩

theorem phField_headerExt (env : Env) (fuel : Nat) (f : Field)
    (s : TState) : HeaderExt (phField env fuel f s) s := by
  unfold phField
  split
  · exact headerExt_refl s none
  · exact andThen_headerExt _ _ _ (genDefList_headerExt env fuel _ s)
      (fun t => emitText_headerExt _ t)

theorem phMethod_headerExt (env : Env) (fuel : Nat) (m : Method)
    (s : TState) : HeaderExt (phMethod env fuel m s) s :=
  andThen_headerExt _ _ _ (genDefList_headerExt env fuel _ s)
    (fun t => emitText_headerExt _ t)

theorem phList_headerExt {α : Type}
    (step : α → TState → TState × Option DErr)
    (hstep : ∀ x t, HeaderExt (step x t) t) :
    ∀ (l : List α) (s : TState), HeaderExt (phList step l s) s := by
  intro l
  induction l with
  | nil => intro s; exact headerExt_refl s none
  | cons x xs ih =>
      intro s
      exact andThen_headerExt _ _ _ (hstep x s) (fun t => ih t)

/-- The exact header text appended by the superclass clause when a
superclass reference is present. -/
theorem phDeclSuper_delta (env : Env) (fuel : Nat) (info : RawClass)
    (sup : String) (t : TState) (hsup : info.superRef = some sup)
    (hok : (phDeclSuper env fuel info t).2 = none) :
    (phDeclSuper env fuel info t).1.headerText =
      t.headerText ++ (" extends " ++ jvmtype2tstype false sup) := by
  unfold phDeclSuper at hok ⊢
  rw [hsup] at hok ⊢
  replace hok : (andThen (genDefList env fuel (tstypeRefs sup.data) t)
      (emitText (" extends " ++ jvmtype2tstype false sup))).2 = none := hok
  show (andThen (genDefList env fuel (tstypeRefs sup.data) t)
      (emitText (" extends " ++ jvmtype2tstype false sup))).1.headerText = _
  obtain ⟨h1, he⟩ := andThen_none _ _ hok
  rw [he]
  show (genDefList env fuel (tstypeRefs sup.data) t).1.headerText ++ _ = _
  rw [(genDefList_facets env fuel _ t).2.2.2.1]

/-- The exact header text appended by the interface list of an interface
declaration. -/
theorem phDeclIfaces_delta (env : Env) (fuel : Nat) (info : RawClass)
    (t : TState) (hint : info.isInterface = true)
    (hok : (phDeclIfaces env fuel info t).2 = none) :
    (phDeclIfaces env fuel info t).1.headerText =
      t.headerText ++
        (if info.interfaceRefs.length > 0 then
          ", " ++ joinSep ", " (info.interfaceRefs.map (jvmtype2tstype false))
         else "") := by
  unfold phDeclIfaces at hok ⊢
  by_cases hlen : info.interfaceRefs.length > 0
  · rw [if_pos hlen] at hok ⊢
    rw [if_pos hlen]
    obtain ⟨h1, he⟩ := andThen_none _ _ hok
    rw [he] at hok ⊢
    obtain ⟨h2, he2⟩ := andThen_none _ _ hok
    rw [he2]
    show (genDefList env fuel _ (emitText _ t).1).1.headerText ++ _ = _
    rw [(genDefList_facets env fuel _ _).2.2.2.1]
    show t.headerText ++ (if info.isInterface then ", " else " implements ")
      ++ _ = _
    rw [hint]
    simp [strAppend_assoc]
  · rw [if_neg hlen] at hok ⊢
    rw [if_neg hlen, strAppend_empty]

/-- Claim C4 (amended): for every class whose access flags mark it as an
interface, the emitted header declaration's base (extends) list is its
superclass reference **followed by** its extended interfaces: since every
interface's class file records `java/lang/Object` as its superclass, the
universal root reference type is emitted as the first explicit base of the
interface declaration, before the extended interfaces. -/
theorem C4_interface_extends (env : Env) (fuel : Nat) (desc sup : String)
    (info : RawClass) (s : TState)
    (hint : info.isInterface = true)
    (hsup : info.superRef = some sup)
    (hok : (processHeaderS env fuel (.ref desc info) s).2 = none) :
    ∃ rest, (processHeaderS env fuel (.ref desc info) s).1.headerText =
      s.headerText ++ "  export interface " ++ jvmtype2tstype false desc ++
        " extends " ++ jvmtype2tstype false sup ++
        (if info.interfaceRefs.length > 0 then
          ", " ++ joinSep ", " (info.interfaceRefs.map (jvmtype2tstype false))
         else "") ++ " \x7b\n" ++ rest := by
  simp only [processHeaderS] at hok ⊢
  obtain ⟨e1, hE1⟩ := andThen_none _ _ hok
  rw [hE1] at hok ⊢
  try simp only [] at hok ⊢
  obtain ⟨e2, hE2⟩ := andThen_none _ _ hok
  rw [hE2] at hok ⊢
  try simp only [] at hok ⊢
  obtain ⟨e3, hE3⟩ := andThen_none _ _ hok
  rw [hE3] at hok ⊢
  try simp only [] at hok ⊢
  obtain ⟨e4, hE4⟩ := andThen_none _ _ hok
  rw [hE4] at hok ⊢
  try simp only [] at hok ⊢
  obtain ⟨e5, hE5⟩ := andThen_none _ _ hok
  rw [hE5] at hok ⊢
  try simp only [] at hok ⊢
  obtain ⟨e6, hE6⟩ := andThen_none _ _ hok
  rw [hE6] at hok ⊢
  try simp only [] at hok ⊢
  obtain ⟨e7, hE7⟩ := andThen_none _ _ hok
  rw [hE7] at hok ⊢
  try simp only [] at hok ⊢
  obtain ⟨e8, hE8⟩ := andThen_none _ _ hok
  rw [hE8] at hok ⊢
  try simp only [] at hok ⊢
  obtain ⟨e9, hE9⟩ := andThen_none _ _ hok
  rw [hE9] at hok ⊢
  try simp only [] at hok ⊢
  set s1 := (genDefList env fuel (tstypeRefs desc.data)
    { s with headerCount := s.headerCount + 1 }).1 with hs1def
  have h1 : s1.headerText = s.headerText :=
    (genDefList_facets env fuel _ _).2.2.2.1
  set s2 := (emitText ((if info.isInterface then "  export interface "
    else "  export class ") ++ jvmtype2tstype false desc) s1).1 with hs2def
  have h2 : s2.headerText = s1.headerText ++
      ("  export interface " ++ jvmtype2tstype false desc) := by
    show s1.headerText ++ _ = _
    rw [if_pos hint]
  set s3 := (phDeclSuper env fuel info s2).1 with hs3def
  have h3 : s3.headerText = s2.headerText ++
      (" extends " ++ jvmtype2tstype false sup) :=
    phDeclSuper_delta env fuel info sup s2 hsup e3
  set s4 := (phDeclIfaces env fuel info s3).1 with hs4def
  have h4 : s4.headerText = s3.headerText ++
      (if info.interfaceRefs.length > 0 then
        ", " ++ joinSep ", " (info.interfaceRefs.map (jvmtype2tstype false))
       else "") :=
    phDeclIfaces_delta env fuel info s3 hint e4
  set s5 := (emitText " \x7b\n" s4).1 with hs5def
  have h5 : s5.headerText = s4.headerText ++ " \x7b\n" := rfl
  obtain ⟨x6, h6⟩ := emitText_headerExt (String.join
    ((info.injectedFields.map outputInjectedField) ++
     (info.injectedMethods.map outputInjectedMethod) ++
     (info.injectedStaticMethods.map outputInjectedStaticMethod))) s5
  set s6 := (emitText (String.join
    ((info.injectedFields.map outputInjectedField) ++
     (info.injectedMethods.map outputInjectedMethod) ++
     (info.injectedStaticMethods.map outputInjectedStaticMethod))) s5).1
    with hs6def
  obtain ⟨x7, h7⟩ :=
    phList_headerExt _ (phField_headerExt env fuel) info.fields s6
  set s7 := (phList (phField env fuel) info.fields s6).1 with hs7def
  obtain ⟨x8, h8⟩ := phList_headerExt _ (phMethod_headerExt env fuel)
    (info.methods ++ info.mirandaAndDefaultMethods) s7
  set s8 := (phList (phMethod env fuel)
    (info.methods ++ info.mirandaAndDefaultMethods) s7).1 with hs8def
  obtain ⟨x9, h9⟩ := phList_headerExt _ (phMethod_headerExt env fuel)
    info.uninheritedDefaultMethods s8
  set s9 := (phList (phMethod env fuel)
    info.uninheritedDefaultMethods s8).1 with hs9def
  refine ⟨x6 ++ x7 ++ x8 ++ x9 ++ "  \x7d\n", ?_⟩
  show s9.headerText ++ "  \x7d\n" = _
  rw [h9, h8, h7, h6, h5, h4, h3, h2, h1]
  simp [strAppend_assoc]

/-- Claim C4 witness: the amended theorem applied to the interface `foo/I`
of `envC4`, whose superclass reference is `java/lang/Object`. -/
theorem C4_interface_extends_witness :
    ∃ rest, (processHeaderS envC4 6 (.ref "Lfoo/I;" infoC4)
        { headerSet := ["Lfoo/I;"] }).1.headerText =
      ({ headerSet := ["Lfoo/I;"] } : TState).headerText ++
        "  export interface " ++ jvmtype2tstype false "Lfoo/I;" ++
        " extends " ++ jvmtype2tstype false "Ljava/lang/Object;" ++
        (if infoC4.interfaceRefs.length > 0 then
          ", " ++ joinSep ", "
            (infoC4.interfaceRefs.map (jvmtype2tstype false))
         else "") ++ " \x7b\n" ++ rest :=
  C4_interface_extends envC4 6 "Lfoo/I;" "Ljava/lang/Object;" infoC4
    { headerSet := ["Lfoo/I;"] } rfl rfl (by decide)

/-- Claim C9 (amended): a replay failure is swallowed — the run never
aborts because of the prior artifact — but the state mutated before the
failure carries over.  In particular, only when the scraping passes find
no `export class ` and no `export interface ` marker (a missing,
unparseable or foreign-format artifact) does the template construction
proceed exactly as if no prior header existed. -/
theorem C9_markerless_prior (env : Env) (fuel : Nat) (cfg : Config)
    (prior : String)
    (h1 : scrapeNames prior "export class " = [])
    (h2 : scrapeNames prior "export interface " = []) :
    tsTemplateInit env fuel cfg (some prior) =
      tsTemplateInit env fuel cfg none := by
  unfold tsTemplateInit
  simp only [h1, h2, replayEntries]

theorem C9_markerless_prior_witness :
    scrapeNames "corrupt artifact" "export class " = [] ∧
    scrapeNames "corrupt artifact" "export interface " = [] ∧
    tsTemplateInit envC9 6 cfgC9 (some "corrupt artifact") =
      tsTemplateInit envC9 6 cfgC9 none :=
  ⟨by decide, by decide,
    C9_markerless_prior envC9 6 cfgC9 "corrupt artifact"
      (by decide) (by decide)⟩

/-- Claim C10: a missing output directory is created (one level) and the
run proceeds — the directory exists afterwards and the only change is the
appended directory — while an existing output directory leaves the file
system unchanged. -/
theorem C10_mkdir (dirs : List String) (dir : String) :
    (ensureOutputDirectory dirs dir).contains dir = true ∧
    (dirs.contains dir = true → ensureOutputDirectory dirs dir = dirs) ∧
    (dirs.contains dir = false →
      ensureOutputDirectory dirs dir = dirs ++ [dir]) := by
  refine ⟨?_, ?_, ?_⟩
  · unfold ensureOutputDirectory
    by_cases h : dirs.contains dir
    · rw [if_pos h]; exact h
    · rw [if_neg h]; simp
  · intro h; unfold ensureOutputDirectory; rw [if_pos h]
  · intro h; unfold ensureOutputDirectory
    rw [if_neg (by simpa using h)]

theorem C10_mkdir_witness :
    ((["lib"].contains "doppioh" = false ∧
      ensureOutputDirectory ["lib"] "doppioh" = ["lib", "doppioh"]) ∧
     (["doppioh"].contains "doppioh" = true ∧
      ensureOutputDirectory ["doppioh"] "doppioh" = ["doppioh"])) :=
  ⟨⟨by decide, (C10_mkdir ["lib"] "doppioh").2.2 (by decide)⟩,
   ⟨by decide, (C10_mkdir ["doppioh"] "doppioh").2.1 (by decide)⟩⟩

theorem cacheOK_nil (env : Env) : CacheOK env [] := by
  intro p hp; cases hp

theorem strMkData (s : String) : String.mk s.data = s := by
  cases s; rfl

theorem alookup_mem {α : Type} :
    ∀ (l : List (String × α)) (k : String) (v : α),
      alookup l k = some v → (k, v) ∈ l := by
  intro l
  induction l with
  | nil => intro k v h; exact absurd h (by simp [alookup])
  | cons p r ih =>
      rcases p with ⟨k1, v1⟩
      intro k v h
      rw [alookup] at h
      by_cases hk : k = k1
      · rw [if_pos hk] at h
        injection h with h
        rw [hk, ← h]
        exact List.mem_cons_self _ _
      · rw [if_neg hk] at h
        exact List.mem_cons_of_mem _ (ih k v h)

/-- An environment-determined class value carries its own descriptor. -/
theorem pureCD_descOf (env : Env) (d : String) (cd : ClassData)
    (h : pureCD env d = some cd) : descOfCD cd = d := by
  unfold pureCD at h
  split at h
  · rename_i heq
    split at h
    · injection h with h
      rw [← h]
      rfl
    · exact absurd h (by simp)
  · rename_i heq
    injection h with h
    rw [← h]
    show String.mk ('[' :: _) = d
    rw [← heq, strMkData]
  · injection h with h
    rw [← h]
    rfl

/-- The interface-resolution fold keeps the cache coherent when the
resolver it folds does. -/
theorem ifaceFold_cacheOK (env : Env) (fc : Cache → String → FCRes)
    (hfc : ∀ c d, CacheOK env c → CacheOK env (fc c d).cache)
    (desc : String) :
    ∀ (l : List String)
      (acc : List (String × List String) × Cache × Option DErr),
      CacheOK env acc.2.1 →
      CacheOK env (l.foldl (ifaceStep fc desc) acc).2.1 := by
  intro l
  induction l with
  | nil => intro acc h; exact h
  | cons i r ih =>
      intro acc h
      rw [List.foldl_cons]
      apply ih
      unfold ifaceStep
      rcases acc with ⟨tr, cc, er⟩
      cases er with
      | some e => exact h
      | none =>
          show CacheOK env
            (match (fc cc i).result with
             | .error _ => (tr ++ (fc cc i).trace, (fc cc i).cache,
                 some (DErr.resolution desc))
             | .ok _ => (tr ++ (fc cc i).trace, (fc cc i).cache,
                 (none : Option DErr))).2.1
          split
          · exact hfc _ _ h
          · exact hfc _ _ h

/-- Superclass resolution keeps the cache coherent. -/
theorem resolveSup_cacheOK (env : Env) (fc : Cache → String → FCRes)
    (hfc : ∀ c d, CacheOK env c → CacheOK env (fc c d).cache)
    (desc : String) (info : RawClass) (c : Cache) (h : CacheOK env c) :
    CacheOK env (resolveSup fc desc info c).2.1 := by
  unfold resolveSup
  rcases hs : info.superRef with _ | sup
  · exact h
  · show CacheOK env
      (match (fc c sup).result with
       | .error _ => ((fc c sup).trace, (fc c sup).cache,
           some (DErr.resolution desc))
       | .ok _ => ((fc c sup).trace, (fc c sup).cache,
           (none : Option DErr))).2.1
    split
    · exact hfc _ _ h
    · exact hfc _ _ h

/-- Superclass-then-interface resolution keeps the cache coherent. -/
theorem resolveSupIfaces_cacheOK (env : Env) (fc : Cache → String → FCRes)
    (hfc : ∀ c d, CacheOK env c → CacheOK env (fc c d).cache)
    (desc : String) (info : RawClass) (c : Cache) (h : CacheOK env c) :
    CacheOK env (resolveSupIfaces fc desc info c).2.1 := by
  unfold resolveSupIfaces
  split
  · exact resolveSup_cacheOK env fc hfc desc info c h
  · exact ifaceFold_cacheOK env fc hfc desc _ _
      (resolveSup_cacheOK env fc hfc desc info c h)

/-- One `findClass` body keeps the cache coherent and only returns the
environment-determined value of its descriptor, provided the recursive
resolver does the same for the cache. -/
theorem findClassBody_cacheOK (env : Env) (fc : Cache → String → FCRes)
    (hfc : ∀ c d, CacheOK env c → CacheOK env (fc c d).cache)
    (c : Cache) (d : String) (h : CacheOK env c) :
    CacheOK env (findClassBody env fc c d).cache ∧
    ∀ cd, (findClassBody env fc c d).result = .ok cd →
      pureCD env d = some cd := by
  unfold findClassBody
  split
  · rename_i cd0 halk
    refine ⟨h, ?_⟩
    intro cd hcd
    injection hcd with hcd
    rw [← hcd]
    exact h (d, cd0) (alookup_mem c d cd0 halk)
  · rename_i halk
    split
    · rename_i hL
      split
      · rename_i hload
        exact ⟨h, by intro cd hcd; exact absurd hcd (by simp)⟩
      · rename_i info hload
        have hR := resolveSupIfaces_cacheOK env fc hfc d info c h
        have hpure : pureCD env d = some (ClassData.ref d info) := by
          unfold pureCD
          rw [hL, hload]
          rfl
        split
        · exact ⟨hR, by intro cd hcd; exact absurd hcd (by simp)⟩
        · refine ⟨?_, ?_⟩
          · intro p hp
            rcases List.mem_cons.mp hp with hp1 | hp2
            · rw [hp1]
              exact hpure
            · exact hR p hp2
          · intro cd hcd
            injection hcd with hcd
            rw [← hcd]
            exact hpure
    · rename_i rest hA
      have hpure : pureCD env d = some (ClassData.arr (String.mk rest)) := by
        unfold pureCD
        rw [hA]
        rfl
      refine ⟨?_, ?_⟩
      · intro p hp
        rcases List.mem_cons.mp hp with hp1 | hp2
        · rw [hp1]
          exact hpure
        · exact h p hp2
      · intro cd hcd
        injection hcd with hcd
        rw [← hcd]
        exact hpure
    · rename_i hnL hnA
      have hpure : pureCD env d = some (ClassData.prim d) := by
        unfold pureCD
        split
        · rename_i heq; exact absurd heq (hnL _)
        · rename_i heq; exact absurd heq (hnA _)
        · rfl
      refine ⟨?_, ?_⟩
      · intro p hp
        rcases List.mem_cons.mp hp with hp1 | hp2
        · rw [hp1]
          exact hpure
        · exact h p hp2
      · intro cd hcd
        injection hcd with hcd
        rw [← hcd]
        exact hpure

/-- `findClass` keeps the cache coherent, and any class it successfully
returns is the environment-determined value of the requested descriptor —
independent of the cache it was started with and of the available fuel. -/
theorem findClass_cacheOK (env : Env) :
    ∀ (fuel : Nat) (c : Cache) (d : String),
      CacheOK env c →
      CacheOK env (findClass env fuel c d).cache ∧
      ∀ cd, (findClass env fuel c d).result = .ok cd →
        pureCD env d = some cd := by
  intro fuel
  induction fuel with
  | zero =>
      intro c d h
      exact ⟨h, by intro cd hcd; exact absurd hcd (by simp [findClass])⟩
  | succ n ih =>
      intro c d h
      have hfc : ∀ c' d', CacheOK env c' →
          CacheOK env (findClass env n c' d').cache :=
        fun c' d' h' => (ih c' d' h').1
      exact findClassBody_cacheOK env (findClass env n) hfc c d h

theorem opOK_refl (env : Env) (s : TState) : OpOK env s s :=
  ⟨fun _ h => h, fun _ h => h⟩

theorem opOK_trans {env : Env} {s t u : TState}
    (h1 : OpOK env s t) (h2 : OpOK env t u) : OpOK env s u :=
  ⟨fun d hd => h2.1 d (h1.1 d hd), fun p hp => h2.2 p (h1.2 p hp)⟩

/-- A step that leaves the cache, the seen set, the push log, the queue
and the emit log untouched is a valid pipeline step. -/
theorem opOK_of_facets (env : Env) (s t : TState)
    (hc : t.cache = s.cache) (hh : t.headerSet = s.headerSet)
    (hp : t.pushLog = s.pushLog) (hq : t.generateQueue = s.generateQueue)
    (he : t.emitLog = s.emitLog) : OpOK env s t := by
  refine ⟨?_, ?_⟩
  · intro d hd
    rw [hh]
    exact hd
  · intro pend hg
    obtain ⟨g1, g2, g3, g4⟩ := hg
    refine ⟨?_, ?_, ?_, ?_⟩
    · rw [hc]; exact g1
    · rw [hp]; exact g2
    · intro d hd
      rw [hp] at hd
      rw [hh]
      exact g3 d hd
    · rw [hq, he, hp]
      exact g4

theorem emitText_opOK (env : Env) (txt : String) (s : TState) :
    OpOK env s (emitText txt s).1 :=
  opOK_of_facets env s _ rfl rfl rfl rfl rfl

/-- The guarded mark-and-push base case of `generateClassDefinition` is a
valid pipeline step: the push is guarded by the seen-set membership test,
the pushed descriptor is marked, and the pushed class is the
environment-determined value of the pushed descriptor. -/
theorem gcdBase_opOK (env : Env) (fuel : Nat) (dl : List Char)
    (s : TState) :
    OpOK env s (if s.headerSet.contains (String.mk dl) ||
        is_primitive_type (String.mk dl) then (s, (none : Option DErr))
      else gcdPush env fuel dl s).1 := by
  split
  · exact opOK_refl env s
  · rename_i hguard
    have hnc : s.headerSet.contains (String.mk dl) = false := by
      cases hcc : s.headerSet.contains (String.mk dl)
      · rfl
      · rw [hcc] at hguard
        simp at hguard
    have hnotin : String.mk dl ∉ s.headerSet := by
      simpa using hnc
    unfold gcdPush
    split
    · rename_i cd hok
      refine ⟨?_, ?_⟩
      · intro d hd
        exact List.mem_append_left _ hd
      · intro pend hg
        obtain ⟨g1, g2, g3, g4⟩ := hg
        have hcoh := (findClass_cacheOK env fuel s.cache (String.mk dl) g1).1
        have hval := (findClass_cacheOK env fuel s.cache
          (String.mk dl) g1).2 cd hok
        have hD : descOfCD cd = String.mk dl := pureCD_descOf env _ cd hval
        have hnp : String.mk dl ∉ s.pushLog := fun hmem =>
          hnotin (g3 _ hmem)
        refine ⟨hcoh, ?_, ?_, ?_⟩
        · rw [List.nodup_append]
          refine ⟨g2, List.nodup_singleton _, ?_⟩
          intro a ha hb
          rw [List.mem_singleton] at hb
          subst hb
          exact hnp ha
        · intro d hd
          rcases List.mem_append.mp hd with h1 | h1
          · exact List.mem_append_left _ (g3 d h1)
          · exact List.mem_append_right _ h1
        · show (((s.generateQueue ++ [cd]).map descOfCD ++ pend) ++
              s.emitLog).Perm (s.pushLog ++ [String.mk dl])
          have g4' : (s.generateQueue.map descOfCD ++
              (pend ++ s.emitLog)).Perm s.pushLog := by
            simpa [List.append_assoc] using g4
          have hstep : ((s.generateQueue ++ [cd]).map descOfCD ++ pend) ++
              s.emitLog = s.generateQueue.map descOfCD ++
                (String.mk dl :: (pend ++ s.emitLog)) := by
            simp [hD, List.append_assoc]
          rw [hstep]
          exact List.perm_middle.trans
            ((g4'.cons _).trans (List.perm_append_singleton _ _).symm)
    · rename_i e herr
      refine ⟨?_, ?_⟩
      · intro d hd
        exact List.mem_append_left _ hd
      · intro pend hg
        obtain ⟨g1, g2, g3, g4⟩ := hg
        exact ⟨(findClass_cacheOK env fuel s.cache (String.mk dl) g1).1,
          g2, fun d hd => List.mem_append_left _ (g3 d hd), g4⟩

/-- `generateClassDefinition` (on the descriptor characters) is a valid
pipeline step. -/
theorem gcdGo_opOK (env : Env) (fuel : Nat) :
    ∀ (dl : List Char) (s : TState), OpOK env s (gcdGo env fuel dl s).1 := by
  intro dl
  induction dl with
  | nil =>
      intro s
      rw [gcdGo_eq_push env fuel [] s (by simp)]
      exact gcdBase_opOK env fuel [] s
  | cons c rest ih =>
      intro s
      by_cases hc : c = '['
      · subst hc
        rw [gcdGo_eq_arr]
        split
        · exact opOK_refl env s
        · exact ih s
      · rw [gcdGo_eq_push env fuel (c :: rest) s (by simp [hc])]
        exact gcdBase_opOK env fuel (c :: rest) s

theorem generateClassDefinition_opOK (env : Env) (fuel : Nat) (d : String)
    (s : TState) : OpOK env s (generateClassDefinition env fuel d s).1 :=
  gcdGo_opOK env fuel d.data s

/-- Sequencing of valid pipeline steps. -/
theorem andThen_opOK (env : Env) (s : TState) (r : TState × Option DErr)
    (f : TState → TState × Option DErr)
    (h1 : OpOK env s r.1) (h2 : ∀ t, OpOK env t (f t).1) :
    OpOK env s (andThen r f).1 := by
  rcases r with ⟨t, e⟩
  cases e with
  | some err => exact h1
  | none => exact opOK_trans h1 (h2 t)

theorem genDefList_opOK (env : Env) (fuel : Nat) :
    ∀ (ds : List String) (s : TState),
      OpOK env s (genDefList env fuel ds s).1 := by
  intro ds
  induction ds with
  | nil => intro s; exact opOK_refl env s
  | cons d rest ih =>
      intro s
      show OpOK env s (match generateClassDefinition env fuel d s with
        | (s1, some e) => (s1, some e)
        | (s1, none) => genDefList env fuel rest s1).1
      rcases hg : generateClassDefinition env fuel d s with ⟨s1, e1⟩
      have h1 : OpOK env s s1 := by
        have := generateClassDefinition_opOK env fuel d s
        rw [hg] at this
        exact this
      cases e1 with
      | some err => exact h1
      | none => exact opOK_trans h1 (ih s1)

theorem classStart_opOK (env : Env) (fuel : Nat) (n : String) (s : TState) :
    OpOK env s (classStart env fuel n s).1 := by
  unfold classStart
  have h1 : OpOK env s ({ s with
      stubText := s.stubText ++ "\nclass " ++ n ++ " \x7b\n",
      classesSeen := s.classesSeen ++ [n],
      stubEvents := s.stubEvents ++ [StubEvent.cstart n] }) :=
    opOK_of_facets env s _ rfl rfl rfl rfl rfl
  exact opOK_trans h1 (generateClassDefinition_opOK env fuel _ _)

theorem tsMethod_opOK (env : Env) (fuel : Nat) (classDesc methodName : String)
    (isStatic : Bool) (argTypes : List String) (rType : String)
    (s : TState) :
    OpOK env s (tsMethod env fuel classDesc methodName isStatic argTypes
      rType s).1 := by
  unfold tsMethod
  apply andThen_opOK env s _ _ (genDefList_opOK env fuel _ s)
  intro t1
  apply andThen_opOK env t1 _ _ (genDefList_opOK env fuel _ t1)
  intro t2
  apply andThen_opOK env t2 _ _ ?_ ?_
  · split
    · exact opOK_refl env t2
    · exact genDefList_opOK env fuel _ t2
  · intro t3
    apply andThen_opOK env t3 _ _ (genDefList_opOK env fuel _ t3)
    intro t4
    apply andThen_opOK env t4 _ _ (genDefList_opOK env fuel _ t4)
    intro t5
    exact opOK_of_facets env t5 _ rfl rfl rfl rfl rfl

theorem pcdLoop_opOK (env : Env) (fuel : Nat) (desc fn : String) :
    ∀ (ms : List Method) (found : Bool) (s : TState),
      OpOK env s (pcdLoop env fuel desc fn ms found s).1 := by
  intro ms
  induction ms with
  | nil => intro found s; exact opOK_refl env s
  | cons m rest ih =>
      intro found s
      show OpOK env s (if m.isNative then _ else
        pcdLoop env fuel desc fn rest found s).1
      split
      · rcases hcs : (if found then (s, (none : Option DErr))
            else classStart env fuel fn s) with ⟨s1, e1⟩
        have h1 : OpOK env s s1 := by
          have : OpOK env s (if found then (s, (none : Option DErr))
              else classStart env fuel fn s).1 := by
            split
            · exact opOK_refl env s
            · exact classStart_opOK env fuel fn s
          rw [hcs] at this
          exact this
        cases e1 with
        | some err => exact h1
        | none =>
            show OpOK env s (match tsMethod env fuel desc m.signature
                m.isStatic m.parameterTypes m.returnType s1 with
              | (s2, some e) => (s2, true, some e)
              | (s2, none) => pcdLoop env fuel desc fn rest true s2).1
            rcases htm : tsMethod env fuel desc m.signature m.isStatic
                m.parameterTypes m.returnType s1 with ⟨s2, e2⟩
            have h2 : OpOK env s1 s2 := by
              have := tsMethod_opOK env fuel desc m.signature m.isStatic
                m.parameterTypes m.returnType s1
              rw [htm] at this
              exact this
            cases e2 with
            | some err => exact opOK_trans h1 h2
            | none => exact opOK_trans h1 (opOK_trans h2 (ih true s2))
      · exact ih found s

theorem processClassData_opOK (env : Env) (fuel : Nat) (cd : ClassData)
    (s : TState) : OpOK env s (processClassData env fuel cd s).1 := by
  unfold processClassData
  rcases cd with ⟨desc, info⟩ | comp | d
  · show OpOK env s
      (match pcdLoop env fuel desc (fixedNameOf desc) info.methods false s
          with
       | (s1, _, some e) => (s1, some e)
       | (s1, found, none) =>
           if found then
             ({ s1 with
                 stubText := s1.stubText ++ "\n\x7d\n",
                 stubEvents := s1.stubEvents ++
                   [StubEvent.cend (fixedNameOf desc)] }, none)
           else (s1, none)).1
    rcases hl : pcdLoop env fuel desc (fixedNameOf desc) info.methods false s
      with ⟨s1, f1, e1⟩
    have h1 : OpOK env s s1 := by
      have := pcdLoop_opOK env fuel desc (fixedNameOf desc) info.methods
        false s
      rw [hl] at this
      exact this
    cases e1 with
    | some err => exact h1
    | none =>
        show OpOK env s (if f1 then
            ({ s1 with
                stubText := s1.stubText ++ "\n\x7d\n",
                stubEvents := s1.stubEvents ++
                  [StubEvent.cend (fixedNameOf desc)] },
              (none : Option DErr))
          else (s1, none)).1
        split
        · exact opOK_trans h1 (opOK_of_facets env s1 _ rfl rfl rfl rfl rfl)
        · exact h1
  · exact opOK_refl env s
  · exact opOK_refl env s

theorem phDeclSuper_opOK (env : Env) (fuel : Nat) (info : RawClass)
    (s : TState) : OpOK env s (phDeclSuper env fuel info s).1 := by
  unfold phDeclSuper
  rcases info.superRef with _ | sup
  · exact opOK_refl env s
  · exact andThen_opOK env s _ _ (genDefList_opOK env fuel _ s)
      (fun t => emitText_opOK env _ t)

theorem phDeclIfaces_opOK (env : Env) (fuel : Nat) (info : RawClass)
    (s : TState) : OpOK env s (phDeclIfaces env fuel info s).1 := by
  unfold phDeclIfaces
  split
  · apply andThen_opOK env s _ _ (emitText_opOK env _ s)
    intro t1
    apply andThen_opOK env t1 _ _ (genDefList_opOK env fuel _ t1)
    intro t2
    exact emitText_opOK env _ t2
  · exact opOK_refl env s

theorem phField_opOK (env : Env) (fuel : Nat) (f : Field) (s : TState) :
    OpOK env s (phField env fuel f s).1 := by
  unfold phField
  split
  · exact opOK_refl env s
  · exact andThen_opOK env s _ _ (genDefList_opOK env fuel _ s)
      (fun t => emitText_opOK env _ t)

theorem phMethod_opOK (env : Env) (fuel : Nat) (m : Method) (s : TState) :
    OpOK env s (phMethod env fuel m s).1 :=
  andThen_opOK env s _ _ (genDefList_opOK env fuel _ s)
    (fun t => emitText_opOK env _ t)

theorem phList_opOK {α : Type} (env : Env)
    (step : α → TState → TState × Option DErr)
    (hstep : ∀ x t, OpOK env t (step x t).1) :
    ∀ (l : List α) (s : TState), OpOK env s (phList step l s).1 := by
  intro l
  induction l with
  | nil => intro s; exact opOK_refl env s
  | cons x xs ih =>
      intro s
      exact andThen_opOK env s _ _ (hstep x s) (fun t => ih t)

theorem GInv_empty (env : Env) : GInv env [] ({} : TState) := by
  refine ⟨cacheOK_nil env, List.nodup_nil, ?_, ?_⟩
  · intro d hd
    exact absurd hd (List.not_mem_nil d)
  · show ((([] : List ClassData).map descOfCD ++ []) ++
      ([] : List String)).Perm []
    simp

theorem getLastQ_decomp {α : Type} :
    ∀ (l : List α) (a : α), l.getLast? = some a → l = l.dropLast ++ [a] := by
  intro l
  induction l with
  | nil => intro a h; exact absurd h (by simp)
  | cons x xs ih =>
      intro a h
      cases xs with
      | nil =>
          have hx : x = a := by
            have h' : some x = some a := h
            injection h'
          rw [hx]
          rfl
      | cons y ys =>
          rw [List.getLast?_cons_cons] at h
          have hrec := ih a h
          show x :: y :: ys = x :: (y :: ys).dropLast ++ [a]
          rw [List.cons_append, ← hrec]

theorem getLastQ_none {α : Type} :
    ∀ (l : List α), l.getLast? = none → l = [] := by
  intro l
  induction l with
  | nil => intro _; rfl
  | cons x xs ih =>
      intro h
      cases xs with
      | nil => exact absurd h (by simp)
      | cons y ys =>
          rw [List.getLast?_cons_cons] at h
          exact absurd (ih h) (by simp)

/-- A successful emission of one queued reference class preserves the
worklist invariant — the pending descriptor moves to the emit log — and
only grows the seen set. -/
theorem processHeaderS_GInv (env : Env) (fuel : Nat) (desc : String)
    (info : RawClass) (s : TState)
    (hok : (processHeaderS env fuel (.ref desc info) s).2 = none)
    (hg : GInv env [desc] s) :
    GInv env [] (processHeaderS env fuel (.ref desc info) s).1 ∧
    (∀ d, d ∈ s.headerSet →
      d ∈ (processHeaderS env fuel (.ref desc info) s).1.headerSet) := by
  simp only [processHeaderS] at hok ⊢
  obtain ⟨e1, hE1⟩ := andThen_none _ _ hok
  rw [hE1] at hok ⊢
  try simp only [] at hok ⊢
  obtain ⟨e2, hE2⟩ := andThen_none _ _ hok
  rw [hE2] at hok ⊢
  try simp only [] at hok ⊢
  obtain ⟨e3, hE3⟩ := andThen_none _ _ hok
  rw [hE3] at hok ⊢
  try simp only [] at hok ⊢
  obtain ⟨e4, hE4⟩ := andThen_none _ _ hok
  rw [hE4] at hok ⊢
  try simp only [] at hok ⊢
  obtain ⟨e5, hE5⟩ := andThen_none _ _ hok
  rw [hE5] at hok ⊢
  try simp only [] at hok ⊢
  obtain ⟨e6, hE6⟩ := andThen_none _ _ hok
  rw [hE6] at hok ⊢
  try simp only [] at hok ⊢
  obtain ⟨e7, hE7⟩ := andThen_none _ _ hok
  rw [hE7] at hok ⊢
  try simp only [] at hok ⊢
  obtain ⟨e8, hE8⟩ := andThen_none _ _ hok
  rw [hE8] at hok ⊢
  try simp only [] at hok ⊢
  obtain ⟨e9, hE9⟩ := andThen_none _ _ hok
  rw [hE9] at hok ⊢
  try simp only [] at hok ⊢
  set s1 := (genDefList env fuel (tstypeRefs desc.data)
    { s with headerCount := s.headerCount + 1 }).1 with hs1
  have o1 : OpOK env s s1 := opOK_trans
    (opOK_of_facets env s { s with headerCount := s.headerCount + 1 }
      rfl rfl rfl rfl rfl)
    (genDefList_opOK env fuel _ _)
  set s2 := (emitText ((if info.isInterface then "  export interface "
    else "  export class ") ++ jvmtype2tstype false desc) s1).1 with hs2
  have o2 : OpOK env s s2 := opOK_trans o1 (emitText_opOK env _ s1)
  set s3 := (phDeclSuper env fuel info s2).1 with hs3
  have o3 : OpOK env s s3 :=
    opOK_trans o2 (phDeclSuper_opOK env fuel info s2)
  set s4 := (phDeclIfaces env fuel info s3).1 with hs4
  have o4 : OpOK env s s4 :=
    opOK_trans o3 (phDeclIfaces_opOK env fuel info s3)
  set s5 := (emitText " \x7b\n" s4).1 with hs5
  have o5 : OpOK env s s5 := opOK_trans o4 (emitText_opOK env _ s4)
  set s6 := (emitText (String.join
      ((info.injectedFields.map outputInjectedField) ++
       (info.injectedMethods.map outputInjectedMethod) ++
       (info.injectedStaticMethods.map outputInjectedStaticMethod)))
    s5).1 with hs6
  have o6 : OpOK env s s6 := opOK_trans o5 (emitText_opOK env _ s5)
  set s7 := (phList (phField env fuel) info.fields s6).1 with hs7
  have o7 : OpOK env s s7 := opOK_trans o6
    (phList_opOK env _ (fun x t => phField_opOK env fuel x t) info.fields s6)
  set s8 := (phList (phMethod env fuel)
    (info.methods ++ info.mirandaAndDefaultMethods) s7).1 with hs8
  have o8 : OpOK env s s8 := opOK_trans o7
    (phList_opOK env _ (fun x t => phMethod_opOK env fuel x t) _ s7)
  set s9 := (phList (phMethod env fuel)
    info.uninheritedDefaultMethods s8).1 with hs9
  have o9 : OpOK env s s9 := opOK_trans o8
    (phList_opOK env _ (fun x t => phMethod_opOK env fuel x t) _ s8)
  obtain ⟨g1, g2, g3, g4⟩ := o9.2 [desc] hg
  constructor
  · show GInv env [] { s9 with
      headerText := s9.headerText ++ "  \x7d\n",
      emitLog := s9.emitLog ++ [desc] }
    refine ⟨g1, g2, g3, ?_⟩
    show ((s9.generateQueue.map descOfCD ++ []) ++
      (s9.emitLog ++ [desc])).Perm s9.pushLog
    have he : (s9.generateQueue.map descOfCD ++ []) ++
        (s9.emitLog ++ [desc]) =
        s9.generateQueue.map descOfCD ++ (s9.emitLog ++ [desc]) := by
      simp
    rw [he]
    refine List.Perm.trans ?_ g4
    have h1 : (s9.generateQueue.map descOfCD ++
        (s9.emitLog ++ [desc])).Perm
        (s9.generateQueue.map descOfCD ++ ([desc] ++ s9.emitLog)) :=
      List.Perm.append_left _ List.perm_append_comm
    have h2 : s9.generateQueue.map descOfCD ++ ([desc] ++ s9.emitLog) =
        (s9.generateQueue.map descOfCD ++ [desc]) ++ s9.emitLog := by
      simp [List.append_assoc]
    rw [h2] at h1
    exact h1
  · intro d hd
    show d ∈ s9.headerSet
    exact o9.1 d hd

/-- The drain loop preserves the worklist invariant, only grows the seen
set, and — when it completes without error — leaves the queue empty. -/
theorem drainQueue_GInv (env : Env) (fuel : Nat) :
    ∀ (n : Nat) (s : TState),
      GInv env [] s →
      (drainQueue env fuel n s).2 = none →
      GInv env [] (drainQueue env fuel n s).1 ∧
      (∀ d, d ∈ s.headerSet →
        d ∈ (drainQueue env fuel n s).1.headerSet) ∧
      (drainQueue env fuel n s).1.generateQueue = [] := by
  intro n
  induction n with
  | zero =>
      intro s hg hok
      simp only [drainQueue] at hok ⊢
      by_cases hq : s.generateQueue.isEmpty
      · rw [if_pos hq] at hok ⊢
        refine ⟨hg, fun d hd => hd, ?_⟩
        simpa using hq
      · rw [if_neg hq] at hok
        exact absurd hok (by simp)
  | succ n ih =>
      intro s hg hok
      simp only [drainQueue] at hok ⊢
      rcases hql : s.generateQueue.getLast? with _ | cd
      · exact ⟨hg, fun d hd => hd, getLastQ_none _ hql⟩
      · rw [hql] at hok
        replace hok : (match processHeaderS env fuel cd
            { s with generateQueue := s.generateQueue.dropLast } with
          | (s1, some e) => (s1, some e)
          | (s1, none) => drainQueue env fuel n s1).2 = none := hok
        suffices hsuf : GInv env [] (match processHeaderS env fuel cd
            { s with generateQueue := s.generateQueue.dropLast } with
          | (s1, some e) => (s1, some e)
          | (s1, none) => drainQueue env fuel n s1).1 ∧
            (∀ d, d ∈ s.headerSet →
              d ∈ (match processHeaderS env fuel cd
                { s with generateQueue := s.generateQueue.dropLast } with
              | (s1, some e) => (s1, some e)
              | (s1, none) => drainQueue env fuel n s1).1.headerSet) ∧
            (match processHeaderS env fuel cd
              { s with generateQueue := s.generateQueue.dropLast } with
            | (s1, some e) => (s1, some e)
            | (s1, none) => drainQueue env fuel n s1).1.generateQueue = [] by
          exact hsuf
        rcases hph : processHeaderS env fuel cd
            { s with generateQueue := s.generateQueue.dropLast }
          with ⟨t1, e1⟩
        rw [hph] at hok
        cases e1 with
        | some err => exact absurd hok (by simp)
        | none =>
            replace hok : (drainQueue env fuel n t1).2 = none := hok
            rcases cd with ⟨dsc, info⟩ | comp | dd
            · have hdec := getLastQ_decomp s.generateQueue _ hql
              have hgmid : GInv env [dsc]
                  { s with generateQueue := s.generateQueue.dropLast } := by
                obtain ⟨g1, g2, g3, g4⟩ := hg
                refine ⟨g1, g2, g3, ?_⟩
                show ((s.generateQueue.dropLast.map descOfCD ++ [dsc]) ++
                  s.emitLog).Perm s.pushLog
                have hmap : s.generateQueue.map descOfCD =
                    s.generateQueue.dropLast.map descOfCD ++ [dsc] := by
                  conv_lhs => rw [hdec]
                  simp [descOfCD]
                rw [← hmap]
                simpa using g4
              have h1 := processHeaderS_GInv env fuel dsc info
                { s with generateQueue := s.generateQueue.dropLast }
                (by rw [hph]) hgmid
              rw [hph] at h1
              have hrec := ih t1 h1.1 hok
              refine ⟨hrec.1, ?_, hrec.2.2⟩
              intro d hd
              exact hrec.2.1 d (h1.2 d hd)
            · exact absurd hph (by simp [processHeaderS])
            · exact absurd hph (by simp [processHeaderS])

theorem opOK_cacheGraft (env : Env) (fuel : Nat) (d : String) (s : TState) :
    OpOK env s { s with cache := (findClass env fuel s.cache d).cache } := by
  refine ⟨fun x hx => hx, ?_⟩
  intro pend hg
  obtain ⟨g1, g2, g3, g4⟩ := hg
  exact ⟨(findClass_cacheOK env fuel s.cache d g1).1, g2, g3, g4⟩

theorem processAll_opOK (env : Env) (fuel : Nat) :
    ∀ (ds : List String) (s : TState),
      OpOK env s (processAll env fuel ds s).1 := by
  intro ds
  induction ds with
  | nil => intro s; exact opOK_refl env s
  | cons d rest ih =>
      intro s
      show OpOK env s (match (findClass env fuel s.cache d).result with
        | .error e => ({ s with
            cache := (findClass env fuel s.cache d).cache }, some e)
        | .ok cd =>
          match processClassData env fuel cd
              { s with cache := (findClass env fuel s.cache d).cache } with
          | (s1, some e) => (s1, some e)
          | (s1, none) => processAll env fuel rest s1).1
      rcases hr : (findClass env fuel s.cache d).result with e | cd
      · exact opOK_cacheGraft env fuel d s
      · show OpOK env s (match processClassData env fuel cd
            { s with cache := (findClass env fuel s.cache d).cache } with
          | (s1, some e) => (s1, some e)
          | (s1, none) => processAll env fuel rest s1).1
        rcases hp : processClassData env fuel cd
            { s with cache := (findClass env fuel s.cache d).cache }
          with ⟨s1, e1⟩
        have h1 : OpOK env s s1 := by
          have := processClassData_opOK env fuel cd
            { s with cache := (findClass env fuel s.cache d).cache }
          rw [hp] at this
          exact opOK_trans (opOK_cacheGraft env fuel d s) this
        cases e1 with
        | some err => exact h1
        | none => exact opOK_trans h1 (ih s1)

theorem replayClassEntry_opOK (env : Env) (fuel : Nat) (b : Bool)
    (n : String) (s : TState) :
    OpOK env s (replayClassEntry env fuel b n s).1 := by
  unfold replayClassEntry
  split
  · exact opOK_refl env s
  · split
    · exact opOK_refl env s
    · exact generateClassDefinition_opOK env fuel _ s

theorem replayEntries_opOK (env : Env) (fuel : Nat) (b : Bool) :
    ∀ (l : List String) (s : TState),
      OpOK env s (replayEntries env fuel b l s).1 := by
  intro l
  induction l with
  | nil => intro s; exact opOK_refl env s
  | cons x xs ih =>
      intro s
      show OpOK env s (match replayClassEntry env fuel b x s with
        | (s1, some e) => (s1, some e)
        | (s1, none) => replayEntries env fuel b xs s1).1
      rcases hr : replayClassEntry env fuel b x s with ⟨s1, e1⟩
      have h1 : OpOK env s s1 := by
        have := replayClassEntry_opOK env fuel b x s
        rw [hr] at this
        exact this
      cases e1 with
      | some err => exact h1
      | none => exact opOK_trans h1 (ih s1)

theorem tsTemplateInit_opOK (env : Env) (fuel : Nat) (cfg : Config)
    (prior : Option String) :
    OpOK env ({} : TState) (tsTemplateInit env fuel cfg prior).1 := by
  unfold tsTemplateInit
  have hbase : ∀ (t : TState), OpOK env ({} : TState) t →
      OpOK env ({} : TState)
        (match generateClassDefinition env fuel "Ljava/lang/Throwable;"
            { t with headerText := t.headerText ++
                headersStartText cfg.dpath ++ arrayDefText ++ miscDefText }
          with
         | (s3, some e) => (s3, some e)
         | (s3, none) =>
           match cfg.forceHeaders with
           | some str =>
               genDefList env fuel ((str.splitOn ":").map int_classname) s3
           | none => (s3, none)).1 := by
    intro t ht
    rcases hgg : generateClassDefinition env fuel "Ljava/lang/Throwable;"
        { t with headerText := t.headerText ++ headersStartText cfg.dpath ++
            arrayDefText ++ miscDefText } with ⟨s3, e3⟩
    have h3 : OpOK env ({} : TState) s3 := by
      have := generateClassDefinition_opOK env fuel "Ljava/lang/Throwable;"
        { t with headerText := t.headerText ++ headersStartText cfg.dpath ++
            arrayDefText ++ miscDefText }
      rw [hgg] at this
      exact opOK_trans
        (opOK_trans ht (opOK_of_facets env t _ rfl rfl rfl rfl rfl)) this
    cases e3 with
    | some err => exact h3
    | none =>
        rcases cfg.forceHeaders with _ | str
        · exact h3
        · exact opOK_trans h3 (genDefList_opOK env fuel _ s3)
  rcases prior with _ | txt
  · exact hbase ({} : TState) (opOK_refl env ({} : TState))
  · have hM : OpOK env ({} : TState)
        (match replayEntries env fuel true (scrapeNames txt "export class ")
            ({} : TState) with
         | (sA, some _) => sA
         | (sA, none) => (replayEntries env fuel false
             (scrapeNames txt "export interface ") sA).1) := by
      rcases hra : replayEntries env fuel true
          (scrapeNames txt "export class ") ({} : TState) with ⟨sA, eA⟩
      have hA : OpOK env ({} : TState) sA := by
        have := replayEntries_opOK env fuel true
          (scrapeNames txt "export class ") ({} : TState)
        rw [hra] at this
        exact this
      cases eA with
      | some err => exact hA
      | none =>
          exact opOK_trans hA (replayEntries_opOK env fuel false
            (scrapeNames txt "export interface ") sA)
    exact hbase _ hM

/-! ### Name reconstruction and native-class seeding (claim C5) -/

theorem strDataAppend (s t : String) : (s ++ t).data = s.data ++ t.data :=
  rfl

theorem jsReplaceAll_append (a : Char) (bs : List Char) :
    ∀ (x y : List Char), jsReplaceAll a bs (x ++ y) =
      jsReplaceAll a bs x ++ jsReplaceAll a bs y := by
  intro x y
  induction x with
  | nil => rfl
  | cons c r ih => simp [jsReplaceAll, ih, List.append_assoc]

/-- Undoing the stub class-name escaping: mapping `_` back to `/` recovers
a name that contained no literal underscore. -/
theorem replace_cancel :
    ∀ (l : List Char), '_' ∉ l →
      jsReplaceAll '_' ['/'] (jsReplaceAll '/' ['_'] l) = l := by
  intro l
  induction l with
  | nil => intro _; rfl
  | cons c r ih =>
      intro h
      have hc : c ≠ '_' := by
        intro he
        exact h (by rw [← he]; exact List.mem_cons_self _ _)
      have hr : '_' ∉ r := fun hm => h (List.mem_cons_of_mem _ hm)
      by_cases hcs : c = '/'
      · subst hcs
        show jsReplaceAll '_' ['/'] ((if ('/' : Char) = '/' then ['_']
          else ['/']) ++ jsReplaceAll '/' ['_'] r) = '/' :: r
        rw [if_pos rfl]
        show (if ('_' : Char) = '_' then ['/'] else ['_']) ++
          jsReplaceAll '_' ['/'] (jsReplaceAll '/' ['_'] r) = '/' :: r
        rw [if_pos rfl, ih hr]
        rfl
      · show jsReplaceAll '_' ['/'] ((if c = '/' then ['_'] else [c]) ++
          jsReplaceAll '/' ['_'] r) = c :: r
        rw [if_neg hcs]
        show (if c = '_' then ['/'] else [c]) ++
          jsReplaceAll '_' ['/'] (jsReplaceAll '/' ['_'] r) = c :: r
        rw [if_neg hc, ih hr]
        rfl

/-- The underscored stub class name of a well-formed reference
descriptor. -/
theorem fixedNameOf_eq (desc : String) (nm : List Char)
    (hdesc : desc.data = 'L' :: nm ++ [';']) :
    fixedNameOf desc = String.mk (jsReplaceAll '/' ['_'] nm) := by
  unfold fixedNameOf
  rw [hdesc]
  congr 1
  rw [List.cons_append]
  have h1 : jsReplaceAll '/' ['_'] ('L' :: (nm ++ [';'])) =
      'L' :: (jsReplaceAll '/' ['_'] nm ++ [';']) := by
    show (if ('L' : Char) = '/' then ['_'] else ['L']) ++
      jsReplaceAll '/' ['_'] (nm ++ [';']) = _
    rw [if_neg (by decide), jsReplaceAll_append]
    show ['L'] ++ (jsReplaceAll '/' ['_'] nm ++
      ((if (';' : Char) = '/' then ['_'] else [';']) ++
        jsReplaceAll '/' ['_'] [])) = _
    rw [if_neg (by decide)]
    rfl
  rw [h1]
  unfold descriptor2typestrL
  show (('L' :: (jsReplaceAll '/' ['_'] nm ++ [';'])).drop 1).dropLast = _
  simp

/-- `classStart` reconstructs the descriptor it requests from the
underscored stub class name; for an internal name with no literal
underscore the reconstruction is exact. -/
theorem rebuild_desc (desc : String) (nm : List Char)
    (hdesc : desc.data = 'L' :: nm ++ [';']) (hnm : '_' ∉ nm) :
    ("L" ++ String.mk (jsReplaceAll '_' ['/'] (fixedNameOf desc).data) ++
      ";") = desc := by
  rw [fixedNameOf_eq desc nm hdesc]
  show ("L" ++ String.mk (jsReplaceAll '_' ['/']
      (jsReplaceAll '/' ['_'] nm)) ++ ";") = desc
  rw [replace_cancel nm hnm]
  have hdata : ("L" ++ String.mk nm ++ ";").data = desc.data := by
    rw [hdesc]
    rfl
  have h2 := congrArg String.mk hdata
  rwa [strMkData, strMkData] at h2

theorem is_primitive_head_L (d : String) (h : d.data.head? = some 'L') :
    is_primitive_type d = false := by
  have hne : ¬(d = "B" ∨ d = "C" ∨ d = "D" ∨ d = "F" ∨ d = "I" ∨ d = "J" ∨
      d = "S" ∨ d = "Z" ∨ d = "V") := by
    intro hd
    rcases hd with h1|h1|h1|h1|h1|h1|h1|h1|h1 <;>
      (rw [h1] at h; exact absurd h (by decide))
  unfold is_primitive_type
  exact decide_eq_false hne

/-- The mark-and-push step always leaves the pushed descriptor in the seen
set — also when the resolution throws. -/
theorem gcdPush_seeds (env : Env) (fuel : Nat) (dl : List Char)
    (s : TState) :
    String.mk dl ∈ (gcdPush env fuel dl s).1.headerSet := by
  unfold gcdPush
  split
  · show String.mk dl ∈ s.headerSet ++ [String.mk dl]
    exact List.mem_append_right _ (List.mem_singleton.mpr rfl)
  · show String.mk dl ∈ s.headerSet ++ [String.mk dl]
    exact List.mem_append_right _ (List.mem_singleton.mpr rfl)

/-- Requesting a header for a reference descriptor leaves it in the seen
set. -/
theorem gcdGo_seeds_L (env : Env) (fuel : Nat) (dl : List Char) (s : TState)
    (hhd : dl.head? = some 'L') :
    String.mk dl ∈ (gcdGo env fuel dl s).1.headerSet := by
  have hne : dl.head? ≠ some '[' := by rw [hhd]; decide
  rw [gcdGo_eq_push env fuel dl s hne]
  split
  · rename_i hguard
    have hprim : is_primitive_type (String.mk dl) = false :=
      is_primitive_head_L _ hhd
    have hcont : s.headerSet.contains (String.mk dl) = true := by
      rw [hprim] at hguard
      simpa using hguard
    simpa using hcont
  · exact gcdPush_seeds env fuel dl s

/-- `classStart` leaves the descriptor rebuilt from the stub class name in
the seen set. -/
theorem classStart_seeds (env : Env) (fuel : Nat) (n : String)
    (s : TState) :
    ("L" ++ String.mk (jsReplaceAll '_' ['/'] n.data) ++ ";") ∈
      (classStart env fuel n s).1.headerSet := by
  unfold classStart generateClassDefinition
  have hhd : ("L" ++ String.mk (jsReplaceAll '_' ['/'] n.data) ++
      ";").data.head? = some 'L' := rfl
  have h := gcdGo_seeds_L env fuel
    ("L" ++ String.mk (jsReplaceAll '_' ['/'] n.data) ++ ";").data
    { s with
        stubText := s.stubText ++ "\nclass " ++ n ++ " \x7b\n",
        classesSeen := s.classesSeen ++ [n],
        stubEvents := s.stubEvents ++ [StubEvent.cstart n] } hhd
  rw [strMkData] at h
  exact h

/-- The method loop seeds the header set with the descriptor rebuilt from
the stub class name whenever it finds a native method (or had already
opened the block). -/
theorem pcdLoop_seeds (env : Env) (fuel : Nat) (desc fn : String) :
    ∀ (ms : List Method) (found : Bool) (s : TState),
      (found = true →
        ("L" ++ String.mk (jsReplaceAll '_' ['/'] fn.data) ++ ";") ∈
          s.headerSet) →
      (ms.any (fun m => m.isNative) = true ∨ found = true) →
      (pcdLoop env fuel desc fn ms found s).2.2 = none →
      ("L" ++ String.mk (jsReplaceAll '_' ['/'] fn.data) ++ ";") ∈
        (pcdLoop env fuel desc fn ms found s).1.headerSet := by
  intro ms
  induction ms with
  | nil =>
      intro found s hf hcase hok
      rcases hcase with hc | hc
      · exact absurd hc (by simp)
      · exact hf hc
  | cons m rest ih =>
      intro found s hf hcase hok
      by_cases hm : m.isNative = true
      · have hstep : pcdLoop env fuel desc fn (m :: rest) found s =
            (match (if found then (s, none)
                else classStart env fuel fn s) with
             | (s1, some e) => (s1, true, some e)
             | (s1, none) =>
               match tsMethod env fuel desc m.signature m.isStatic
                   m.parameterTypes m.returnType s1 with
               | (s2, some e) => (s2, true, some e)
               | (s2, none) => pcdLoop env fuel desc fn rest true s2) := by
          show (if m.isNative then _ else _) = _
          rw [hm]
          simp
        rw [hstep] at hok ⊢
        rcases hcs : (if found then (s, (none : Option DErr))
            else classStart env fuel fn s) with ⟨s1, e1⟩
        rw [hcs] at hok
        cases e1 with
        | some err => exact absurd hok (by simp)
        | none =>
            replace hok : (match tsMethod env fuel desc m.signature
                m.isStatic m.parameterTypes m.returnType s1 with
              | (s2, some e) => (s2, true, some e)
              | (s2, none) => pcdLoop env fuel desc fn rest true s2).2.2 =
                none := hok
            show ("L" ++ String.mk (jsReplaceAll '_' ['/'] fn.data) ++
              ";") ∈ (match tsMethod env fuel desc m.signature m.isStatic
                  m.parameterTypes m.returnType s1 with
                | (s2, some e) => (s2, true, some e)
                | (s2, none) =>
                    pcdLoop env fuel desc fn rest true s2).1.headerSet
            have hD1 : ("L" ++ String.mk (jsReplaceAll '_' ['/'] fn.data) ++
                ";") ∈ s1.headerSet := by
              cases found with
              | true =>
                  have h' : (s, (none : Option DErr)) = (s1, none) := by
                    rw [← hcs]
                    simp
                  injection h' with hs _
                  rw [← hs]
                  exact hf rfl
              | false =>
                  have hcs' : classStart env fuel fn s = (s1, none) := by
                    rw [← hcs]
                    simp
                  have h' := classStart_seeds env fuel fn s
                  rw [hcs'] at h'
                  exact h'
            rcases htm : tsMethod env fuel desc m.signature m.isStatic
                m.parameterTypes m.returnType s1 with ⟨s2, e2⟩
            rw [htm] at hok
            cases e2 with
            | some err => exact absurd hok (by simp)
            | none =>
                have hD2 : ("L" ++ String.mk (jsReplaceAll '_' ['/']
                    fn.data) ++ ";") ∈ s2.headerSet := by
                  have h' := (tsMethod_opOK env fuel desc m.signature
                    m.isStatic m.parameterTypes m.returnType s1).1 _ hD1
                  rw [htm] at h'
                  exact h'
                exact ih true s2 (fun _ => hD2) (Or.inr rfl) hok
      · have hm' : m.isNative = false := by
          cases hmn : m.isNative
          · rfl
          · exact absurd hmn hm
        have hstep : pcdLoop env fuel desc fn (m :: rest) found s =
            pcdLoop env fuel desc fn rest found s := by
          show (if m.isNative then _ else _) = _
          rw [hm']
          simp
        rw [hstep] at hok ⊢
        refine ih found s hf ?_ hok
        rcases hcase with hc | hc
        · left
          rw [List.any_cons, hm'] at hc
          simpa using hc
        · right
          exact hc

/-- A successful `processClassData` on a well-formed reference descriptor
with at least one native method leaves that descriptor in the seen set. -/
theorem processClassData_seeds (env : Env) (fuel : Nat) (desc : String)
    (nm : List Char) (info : RawClass) (s : TState)
    (hdesc : desc.data = 'L' :: nm ++ [';']) (hnm : '_' ∉ nm)
    (hnat : info.methods.any (fun m => m.isNative) = true)
    (hok : (processClassData env fuel (.ref desc info) s).2 = none) :
    desc ∈ (processClassData env fuel (.ref desc info) s).1.headerSet := by
  have hre : ("L" ++ String.mk (jsReplaceAll '_' ['/']
      (fixedNameOf desc).data) ++ ";") = desc :=
    rebuild_desc desc nm hdesc hnm
  replace hok : (match pcdLoop env fuel desc (fixedNameOf desc)
      info.methods false s with
    | (s1, _, some e) => (s1, some e)
    | (s1, found, none) =>
        if found then
          ({ s1 with
              stubText := s1.stubText ++ "\n\x7d\n",
              stubEvents := s1.stubEvents ++
                [StubEvent.cend (fixedNameOf desc)] }, none)
        else (s1, none)).2 = none := hok
  show desc ∈ (match pcdLoop env fuel desc (fixedNameOf desc)
      info.methods false s with
    | (s1, _, some e) => (s1, some e)
    | (s1, found, none) =>
        if found then
          ({ s1 with
              stubText := s1.stubText ++ "\n\x7d\n",
              stubEvents := s1.stubEvents ++
                [StubEvent.cend (fixedNameOf desc)] }, none)
        else (s1, none)).1.headerSet
  rcases hl : pcdLoop env fuel desc (fixedNameOf desc) info.methods false s
    with ⟨s1, f1, e1⟩
  rw [hl] at hok
  cases e1 with
  | some err => exact absurd hok (by simp)
  | none =>
      have hseed := pcdLoop_seeds env fuel desc (fixedNameOf desc)
        info.methods false s (fun h => absurd h (by decide))
        (Or.inl hnat) (by rw [hl])
      rw [hl] at hseed
      rw [hre] at hseed
      show desc ∈ (if f1 then
          ({ s1 with
              stubText := s1.stubText ++ "\n\x7d\n",
              stubEvents := s1.stubEvents ++
                [StubEvent.cend (fixedNameOf desc)] },
            (none : Option DErr))
        else (s1, none)).1.headerSet
      split
      · exact hseed
      · exact hseed

/-- The stub pass seeds the header set with every requested well-formed
descriptor whose class resolves and has at least one native method. -/
theorem processAll_seeds (env : Env) (fuel : Nat) (desc : String)
    (nm : List Char) (info : RawClass)
    (hdesc : desc.data = 'L' :: nm ++ [';'])
    (hnm : '_' ∉ nm)
    (hload : loadClass env (descriptor2typestr desc) = some info)
    (hnat : info.methods.any (fun m => m.isNative) = true) :
    ∀ (ds : List String) (s : TState),
      desc ∈ ds →
      GInv env [] s →
      (processAll env fuel ds s).2 = none →
      desc ∈ (processAll env fuel ds s).1.headerSet := by
  intro ds
  induction ds with
  | nil =>
      intro s hmem _ _
      exact absurd hmem (List.not_mem_nil desc)
  | cons d rest ih =>
      intro s hmem hg hok
      replace hok : (match (findClass env fuel s.cache d).result with
        | .error e => ({ s with
            cache := (findClass env fuel s.cache d).cache }, some e)
        | .ok cd =>
          match processClassData env fuel cd
              { s with cache := (findClass env fuel s.cache d).cache } with
          | (s1, some e) => (s1, some e)
          | (s1, none) => processAll env fuel rest s1).2 = none := hok
      show desc ∈ (match (findClass env fuel s.cache d).result with
        | .error e => ({ s with
            cache := (findClass env fuel s.cache d).cache }, some e)
        | .ok cd =>
          match processClassData env fuel cd
              { s with cache := (findClass env fuel s.cache d).cache } with
          | (s1, some e) => (s1, some e)
          | (s1, none) => processAll env fuel rest s1).1.headerSet
      rcases hr : (findClass env fuel s.cache d).result with e | cd
      · rw [hr] at hok
        exact absurd hok (by simp)
      · rw [hr] at hok
        replace hok : (match processClassData env fuel cd
            { s with cache := (findClass env fuel s.cache d).cache } with
          | (s1, some e) => (s1, some e)
          | (s1, none) => processAll env fuel rest s1).2 = none := hok
        show desc ∈ (match processClassData env fuel cd
            { s with cache := (findClass env fuel s.cache d).cache } with
          | (s1, some e) => (s1, some e)
          | (s1, none) => processAll env fuel rest s1).1.headerSet
        rcases hp : processClassData env fuel cd
            { s with cache := (findClass env fuel s.cache d).cache }
          with ⟨s1, e1⟩
        rw [hp] at hok
        cases e1 with
        | some err => exact absurd hok (by simp)
        | none =>
            replace hok : (processAll env fuel rest s1).2 = none := hok
            have hgG : GInv env []
                { s with cache := (findClass env fuel s.cache d).cache } :=
              (opOK_cacheGraft env fuel d s).2 [] hg
            have hg1 : GInv env [] s1 := by
              have h' := (processClassData_opOK env fuel cd
                { s with
                    cache := (findClass env fuel s.cache d).cache }).2 []
                hgG
              rw [hp] at h'
              exact h'
            by_cases hd : d = desc
            · subst hd
              have hcd : cd = ClassData.ref d info := by
                have hpure := (findClass_cacheOK env fuel s.cache d
                  hg.1).2 cd hr
                unfold pureCD at hpure
                rw [hdesc] at hpure
                replace hpure : (match loadClass env
                    (descriptor2typestr d) with
                  | some i => some (ClassData.ref d i)
                  | none => none) = some cd := hpure
                rw [hload] at hpure
                injection hpure with hpure
                exact hpure.symm
              subst hcd
              have hseed := processClassData_seeds env fuel d nm info
                { s with cache := (findClass env fuel s.cache d).cache }
                hdesc hnm hnat (by rw [hp])
              rw [hp] at hseed
              have hmono := (processAll_opOK env fuel rest s1).1 d hseed
              exact hmono
            · have hmem' : desc ∈ rest := by
                rcases List.mem_cons.mp hmem with h1 | h1
                · exact absurd h1.symm hd
                · exact h1
              exact ih s1 hmem' hg1 hok

/-- Claim C5 (amended): after the stub pass, the header generation is
seeded with every requested class that resolved **and has at least one
native method** (at its first native method, `classStart` rebuilds the
descriptor from the underscored stub class name — exactly recovering it
when the internal name contains no literal underscore — and requests its
header); a requested class with zero native methods is skipped entirely by
the stub emitter and is *not* seeded, appearing in the header only if some
other site references it. -/
theorem C5_native_seeding (env : Env) (cfg : Config) (prior : Option String)
    (fuel : Nat) (r : TState) (desc : String) (nm : List Char)
    (info : RawClass)
    (hrun : runDoppioh env cfg prior fuel = .ok r)
    (hreq : desc ∈ cfg.requested)
    (hdesc : desc.data = 'L' :: nm ++ [';'])
    (hnm : '_' ∉ nm)
    (hload : loadClass env (descriptor2typestr desc) = some info)
    (hnat : info.methods.any (fun m => m.isNative) = true) :
    desc ∈ r.headerSet := by
  unfold runDoppioh at hrun
  rcases ht : tsTemplateInit env fuel cfg prior with ⟨s1, e1⟩
  rw [ht] at hrun
  cases e1 with
  | some e => exact absurd hrun (by simp)
  | none =>
      replace hrun : (match processAll env fuel cfg.requested
          { s1 with stubText := s1.stubText ++ fileStartText cfg.dpath } with
        | (_, some e) => (Except.error e : Except DErr TState)
        | (s3, none) =>
          match drainQueue env fuel fuel (fileEnd s3) with
          | (_, some e) => Except.error e
          | (s5, none) =>
              Except.ok { s5 with headerText := s5.headerText ++
                "\x7d\nexport = JVMTypes;\n" }) = Except.ok r := hrun
      have hg1 : GInv env [] s1 := by
        have h := tsTemplateInit_opOK env fuel cfg prior
        rw [ht] at h
        exact h.2 [] (GInv_empty env)
      have hg2 : GInv env []
          { s1 with stubText := s1.stubText ++ fileStartText cfg.dpath } :=
        (opOK_of_facets env s1
          { s1 with stubText := s1.stubText ++ fileStartText cfg.dpath }
          rfl rfl rfl rfl rfl).2 [] hg1
      rcases hpa : processAll env fuel cfg.requested
          { s1 with stubText := s1.stubText ++ fileStartText cfg.dpath }
        with ⟨s3, e3⟩
      rw [hpa] at hrun
      cases e3 with
      | some e => exact absurd hrun (by simp)
      | none =>
          replace hrun : (match drainQueue env fuel fuel (fileEnd s3) with
            | (_, some e) => (Except.error e : Except DErr TState)
            | (s5, none) =>
                Except.ok { s5 with headerText := s5.headerText ++
                  "\x7d\nexport = JVMTypes;\n" }) = Except.ok r := hrun
          have hseed : desc ∈ s3.headerSet := by
            have h := processAll_seeds env fuel desc nm info hdesc hnm hload
              hnat cfg.requested
              { s1 with stubText := s1.stubText ++ fileStartText cfg.dpath }
              hreq hg2 (by rw [hpa])
            rw [hpa] at h
            exact h
          have hg3 : GInv env [] s3 := by
            have h := (processAll_opOK env fuel cfg.requested
              { s1 with
                  stubText := s1.stubText ++ fileStartText cfg.dpath }).2
              [] hg2
            rw [hpa] at h
            exact h
          have hgf : GInv env [] (fileEnd s3) :=
            (opOK_of_facets env s3 (fileEnd s3) rfl rfl rfl rfl rfl).2 [] hg3
          rcases hdq : drainQueue env fuel fuel (fileEnd s3) with ⟨s5, e5⟩
          rw [hdq] at hrun
          cases e5 with
          | some e => exact absurd hrun (by simp)
          | none =>
              replace hrun : Except.ok { s5 with headerText :=
                  s5.headerText ++ "\x7d\nexport = JVMTypes;\n" } =
                  Except.ok r := hrun
              injection hrun with hrun
              have hd := drainQueue_GInv env fuel fuel (fileEnd s3) hgf
                (by rw [hdq])
              rw [hdq] at hd
              have hmem : desc ∈ s5.headerSet := hd.2.1 desc hseed
              rw [← hrun]
              exact hmem

/-- A run that reports success is the `ok` of its extracted state. -/
theorem okE_eq (x : Except DErr TState) (h : isOkE x = true) :
    x = .ok (runStateOf x) := by
  cases x with
  | ok v => rfl
  | error e => exact absurd h (by simp [isOkE])

set_option maxRecDepth 100000 in
set_option maxHeartbeats 2000000 in
theorem C5_native_seeding_witness :
    isOkE (runDoppioh envW cfgW none 12) = true ∧
    "Lfoo/Nifty;" ∈ cfgW.requested ∧
    "Lfoo/Nifty;" ∈ (runStateOf (runDoppioh envW cfgW none 12)).headerSet :=
  ⟨by decide, by decide,
   C5_native_seeding envW cfgW none 12
     (runStateOf (runDoppioh envW cfgW none 12)) "Lfoo/Nifty;"
     ("foo/Nifty".data)
     { superRef := some "Ljava/lang/Object;",
       methods := [{ signature := "tick()V", isNative := true }] }
     (okE_eq _ (by decide)) (by decide) (by decide) (by decide) (by decide)
     (by decide)⟩

/-- Claim C7: in every completed run, no descriptor is ever pushed onto
the header worklist twice — the seen-set membership test guards every
enqueue — and the emitted declarations are exactly the pushed descriptors,
each emitted exactly once (the emit log is a permutation of the
duplicate-free push log). -/
theorem C7_push_emit_once (env : Env) (cfg : Config) (prior : Option String)
    (fuel : Nat) (r : TState)
    (hrun : runDoppioh env cfg prior fuel = .ok r) :
    r.pushLog.Nodup ∧ r.emitLog.Perm r.pushLog := by
  unfold runDoppioh at hrun
  rcases ht : tsTemplateInit env fuel cfg prior with ⟨s1, e1⟩
  rw [ht] at hrun
  cases e1 with
  | some e => exact absurd hrun (by simp)
  | none =>
      replace hrun : (match processAll env fuel cfg.requested
          { s1 with stubText := s1.stubText ++ fileStartText cfg.dpath } with
        | (_, some e) => (Except.error e : Except DErr TState)
        | (s3, none) =>
          match drainQueue env fuel fuel (fileEnd s3) with
          | (_, some e) => Except.error e
          | (s5, none) =>
              Except.ok { s5 with headerText := s5.headerText ++
                "\x7d\nexport = JVMTypes;\n" }) = Except.ok r := hrun
      have hg1 : GInv env [] s1 := by
        have h := tsTemplateInit_opOK env fuel cfg prior
        rw [ht] at h
        exact h.2 [] (GInv_empty env)
      have hg2 : GInv env []
          { s1 with stubText := s1.stubText ++ fileStartText cfg.dpath } :=
        (opOK_of_facets env s1
          { s1 with stubText := s1.stubText ++ fileStartText cfg.dpath }
          rfl rfl rfl rfl rfl).2 [] hg1
      rcases hpa : processAll env fuel cfg.requested
          { s1 with stubText := s1.stubText ++ fileStartText cfg.dpath }
        with ⟨s3, e3⟩
      rw [hpa] at hrun
      cases e3 with
      | some e => exact absurd hrun (by simp)
      | none =>
          replace hrun : (match drainQueue env fuel fuel (fileEnd s3) with
            | (_, some e) => (Except.error e : Except DErr TState)
            | (s5, none) =>
                Except.ok { s5 with headerText := s5.headerText ++
                  "\x7d\nexport = JVMTypes;\n" }) = Except.ok r := hrun
          have hg3 : GInv env [] s3 := by
            have h := (processAll_opOK env fuel cfg.requested
              { s1 with
                  stubText := s1.stubText ++ fileStartText cfg.dpath }).2
              [] hg2
            rw [hpa] at h
            exact h
          have hgf : GInv env [] (fileEnd s3) :=
            (opOK_of_facets env s3 (fileEnd s3) rfl rfl rfl rfl rfl).2 [] hg3
          rcases hdq : drainQueue env fuel fuel (fileEnd s3) with ⟨s5, e5⟩
          rw [hdq] at hrun
          cases e5 with
          | some e => exact absurd hrun (by simp)
          | none =>
              replace hrun : Except.ok { s5 with headerText :=
                  s5.headerText ++ "\x7d\nexport = JVMTypes;\n" } =
                  Except.ok r := hrun
              injection hrun with hrun
              have hd := drainQueue_GInv env fuel fuel (fileEnd s3) hgf
                (by rw [hdq])
              rw [hdq] at hd
              obtain ⟨⟨g1, g2, g3, g4⟩, hmono, hqe⟩ := hd
              rw [hqe] at g4
              have hperm : s5.emitLog.Perm s5.pushLog := by simpa using g4
              rw [← hrun]
              exact ⟨g2, hperm⟩

set_option maxRecDepth 100000 in
set_option maxHeartbeats 2000000 in
theorem C7_push_emit_once_witness :
    isOkE (runDoppioh envW cfgW none 12) = true ∧
    (runStateOf (runDoppioh envW cfgW none 12)).pushLog.Nodup ∧
    (runStateOf (runDoppioh envW cfgW none 12)).emitLog.Perm
      (runStateOf (runDoppioh envW cfgW none 12)).pushLog :=
  ⟨by decide,
   (C7_push_emit_once envW cfgW none 12
     (runStateOf (runDoppioh envW cfgW none 12)) (okE_eq _ (by decide))).1,
   (C7_push_emit_once envW cfgW none 12
     (runStateOf (runDoppioh envW cfgW none 12)) (okE_eq _ (by decide))).2⟩

/-- A successful stub pass appends exactly the environment-determined stub
text and class names, whatever the cache, seen set or queue contained. -/
theorem processAll_stub (env : Env) (fuel : Nat) :
    ∀ (ds : List String) (s : TState),
      GInv env [] s →
      (processAll env fuel ds s).2 = none →
      (processAll env fuel ds s).1.stubText =
        s.stubText ++ stubAll env ds ∧
      (processAll env fuel ds s).1.classesSeen =
        s.classesSeen ++ seenAll env ds := by
  intro ds
  induction ds with
  | nil =>
      intro s _ _
      constructor
      · show s.stubText = s.stubText ++ stubAll env []
        rw [show stubAll env [] = "" from rfl, strAppend_empty]
      · show s.classesSeen = s.classesSeen ++ seenAll env []
        simp [seenAll]
  | cons d rest ih =>
      intro s hg hok
      replace hok : (match (findClass env fuel s.cache d).result with
        | .error e => ({ s with
            cache := (findClass env fuel s.cache d).cache }, some e)
        | .ok cd =>
          match processClassData env fuel cd
              { s with cache := (findClass env fuel s.cache d).cache } with
          | (s1, some e) => (s1, some e)
          | (s1, none) => processAll env fuel rest s1).2 = none := hok
      suffices hsuf : (match (findClass env fuel s.cache d).result with
        | .error e => ({ s with
            cache := (findClass env fuel s.cache d).cache }, some e)
        | .ok cd =>
          match processClassData env fuel cd
              { s with cache := (findClass env fuel s.cache d).cache } with
          | (s1, some e) => (s1, some e)
          | (s1, none) => processAll env fuel rest s1).1.stubText =
            s.stubText ++ stubAll env (d :: rest) ∧
          (match (findClass env fuel s.cache d).result with
        | .error e => ({ s with
            cache := (findClass env fuel s.cache d).cache }, some e)
        | .ok cd =>
          match processClassData env fuel cd
              { s with cache := (findClass env fuel s.cache d).cache } with
          | (s1, some e) => (s1, some e)
          | (s1, none) => processAll env fuel rest s1).1.classesSeen =
            s.classesSeen ++ seenAll env (d :: rest) by
        exact hsuf
      rcases hr : (findClass env fuel s.cache d).result with e | cd
      · rw [hr] at hok
        exact absurd hok (by simp)
      · rw [hr] at hok
        replace hok : (match processClassData env fuel cd
            { s with cache := (findClass env fuel s.cache d).cache } with
          | (s1, some e) => (s1, some e)
          | (s1, none) => processAll env fuel rest s1).2 = none := hok
        suffices hsuf2 : (match processClassData env fuel cd
            { s with cache := (findClass env fuel s.cache d).cache } with
          | (s1, some e) => (s1, some e)
          | (s1, none) => processAll env fuel rest s1).1.stubText =
            s.stubText ++ stubAll env (d :: rest) ∧
          (match processClassData env fuel cd
            { s with cache := (findClass env fuel s.cache d).cache } with
          | (s1, some e) => (s1, some e)
          | (s1, none) => processAll env fuel rest s1).1.classesSeen =
            s.classesSeen ++ seenAll env (d :: rest) by
          exact hsuf2
        have hpure : pureCD env d = some cd :=
          (findClass_cacheOK env fuel s.cache d hg.1).2 cd hr
        have hgG : GInv env []
            { s with cache := (findClass env fuel s.cache d).cache } :=
          (opOK_cacheGraft env fuel d s).2 [] hg
        have hstub : stubAll env (d :: rest) =
            pcdTextOf cd ++ stubAll env rest := by
          show (match pureCD env d with
            | some cd => pcdTextOf cd
            | none => "") ++ stubAll env rest = _
          rw [hpure]
        have hseen : seenAll env (d :: rest) =
            pcdSeenOf cd ++ seenAll env rest := by
          show (match pureCD env d with
            | some cd => pcdSeenOf cd
            | none => []) ++ seenAll env rest = _
          rw [hpure]
        rcases hp : processClassData env fuel cd
            { s with cache := (findClass env fuel s.cache d).cache }
          with ⟨s1, e1⟩
        rw [hp] at hok
        cases e1 with
        | some err => exact absurd hok (by simp)
        | none =>
            replace hok : (processAll env fuel rest s1).2 = none := hok
            have hg1 : GInv env [] s1 := by
              have h' := (processClassData_opOK env fuel cd
                { s with
                    cache := (findClass env fuel s.cache d).cache }).2 []
                hgG
              rw [hp] at h'
              exact h'
            have hrec := ih s1 hg1 hok
            rcases cd with ⟨desc, info⟩ | comp | dd
            · have hspec := processClassData_spec env fuel desc info
                { s with cache := (findClass env fuel s.cache d).cache }
                (by rw [hp])
              rw [hp] at hspec
              have hsp1 : s1.stubText = s.stubText ++
                  loopText desc (fixedNameOf desc) info.methods false ++
                  (if info.methods.any (fun m => m.isNative) then "\n\x7d\n"
                   else "") := hspec.1
              have hsp2 : s1.classesSeen = s.classesSeen ++
                  (if info.methods.any (fun m => m.isNative) then
                    [fixedNameOf desc] else []) := hspec.2.1
              constructor
              · show (processAll env fuel rest s1).1.stubText =
                  s.stubText ++ stubAll env (d :: rest)
                rw [hrec.1, hsp1, hstub]
                simp [pcdTextOf, strAppend_assoc]
              · show (processAll env fuel rest s1).1.classesSeen =
                  s.classesSeen ++ seenAll env (d :: rest)
                rw [hrec.2, hsp2, hseen]
                simp [pcdSeenOf, List.append_assoc]
            · exact absurd hp (by simp [processClassData])
            · exact absurd hp (by simp [processClassData])

theorem replayClassEntry_facets (env : Env) (fuel : Nat) (b : Bool)
    (n : String) (s : TState) :
    (replayClassEntry env fuel b n s).1.stubText = s.stubText ∧
    (replayClassEntry env fuel b n s).1.classesSeen = s.classesSeen := by
  unfold replayClassEntry
  split
  · exact ⟨rfl, rfl⟩
  · split
    · exact ⟨rfl, rfl⟩
    · exact ⟨(gcdGo_facets env fuel _ s).1, (gcdGo_facets env fuel _ s).2.1⟩

theorem replayEntries_facets (env : Env) (fuel : Nat) (b : Bool) :
    ∀ (l : List String) (s : TState),
      (replayEntries env fuel b l s).1.stubText = s.stubText ∧
      (replayEntries env fuel b l s).1.classesSeen = s.classesSeen := by
  intro l
  induction l with
  | nil => intro s; exact ⟨rfl, rfl⟩
  | cons x xs ih =>
      intro s
      show (match replayClassEntry env fuel b x s with
        | (s1, some e) => (s1, some e)
        | (s1, none) => replayEntries env fuel b xs s1).1.stubText =
          s.stubText ∧
        (match replayClassEntry env fuel b x s with
        | (s1, some e) => (s1, some e)
        | (s1, none) =>
            replayEntries env fuel b xs s1).1.classesSeen = s.classesSeen
      rcases hr : replayClassEntry env fuel b x s with ⟨s1, e1⟩
      have h1 := replayClassEntry_facets env fuel b x s
      rw [hr] at h1
      cases e1 with
      | some err => exact h1
      | none =>
          have h2 := ih s1
          exact ⟨h2.1.trans h1.1, h2.2.trans h1.2⟩

/-- The template construction never writes stub text or class names. -/
theorem tsTemplateInit_stub (env : Env) (fuel : Nat) (cfg : Config)
    (prior : Option String) :
    (tsTemplateInit env fuel cfg prior).1.stubText = "" ∧
    (tsTemplateInit env fuel cfg prior).1.classesSeen = [] := by
  unfold tsTemplateInit
  have hbase : ∀ (t : TState), t.stubText = "" → t.classesSeen = [] →
      (match generateClassDefinition env fuel "Ljava/lang/Throwable;"
          { t with headerText := t.headerText ++
              headersStartText cfg.dpath ++ arrayDefText ++ miscDefText }
        with
       | (s3, some e) => (s3, some e)
       | (s3, none) =>
         match cfg.forceHeaders with
         | some str =>
             genDefList env fuel ((str.splitOn ":").map int_classname) s3
         | none => (s3, none)).1.stubText = "" ∧
      (match generateClassDefinition env fuel "Ljava/lang/Throwable;"
          { t with headerText := t.headerText ++
              headersStartText cfg.dpath ++ arrayDefText ++ miscDefText }
        with
       | (s3, some e) => (s3, some e)
       | (s3, none) =>
         match cfg.forceHeaders with
         | some str =>
             genDefList env fuel ((str.splitOn ":").map int_classname) s3
         | none => (s3, none)).1.classesSeen = [] := by
    intro t hts htc
    rcases hgg : generateClassDefinition env fuel "Ljava/lang/Throwable;"
        { t with headerText := t.headerText ++ headersStartText cfg.dpath ++
            arrayDefText ++ miscDefText } with ⟨s3, e3⟩
    have h3 : s3.stubText = "" ∧ s3.classesSeen = [] := by
      have h := gcdGo_facets env fuel "Ljava/lang/Throwable;".data
        { t with headerText := t.headerText ++ headersStartText cfg.dpath ++
            arrayDefText ++ miscDefText }
      rw [show gcdGo env fuel "Ljava/lang/Throwable;".data
        { t with headerText := t.headerText ++ headersStartText cfg.dpath ++
            arrayDefText ++ miscDefText } = (s3, e3) from hgg] at h
      exact ⟨h.1.trans hts, h.2.1.trans htc⟩
    cases e3 with
    | some err => exact h3
    | none =>
        rcases cfg.forceHeaders with _ | str
        · exact h3
        · have h := genDefList_facets env fuel
            ((str.splitOn ":").map int_classname) s3
          exact ⟨h.1.trans h3.1, h.2.1.trans h3.2⟩
  rcases prior with _ | txt
  · exact hbase ({} : TState) rfl rfl
  · have hM : (match replayEntries env fuel true
        (scrapeNames txt "export class ") ({} : TState) with
       | (sA, some _) => sA
       | (sA, none) => (replayEntries env fuel false
           (scrapeNames txt "export interface ") sA).1).stubText = "" ∧
      (match replayEntries env fuel true
        (scrapeNames txt "export class ") ({} : TState) with
       | (sA, some _) => sA
       | (sA, none) => (replayEntries env fuel false
           (scrapeNames txt "export interface ") sA).1).classesSeen = [] := by
      rcases hra : replayEntries env fuel true
          (scrapeNames txt "export class ") ({} : TState) with ⟨sA, eA⟩
      have hA : sA.stubText = "" ∧ sA.classesSeen = [] := by
        have h := replayEntries_facets env fuel true
          (scrapeNames txt "export class ") ({} : TState)
        rw [hra] at h
        exact h
      cases eA with
      | some err => exact hA
      | none =>
          have h := replayEntries_facets env fuel false
            (scrapeNames txt "export interface ") sA
          exact ⟨h.1.trans hA.1, h.2.trans hA.2⟩

    exact hbase _ hM.1 hM.2

/-- The drain loop never writes stub text or class names. -/
theorem drainQueue_stub (env : Env) (fuel : Nat) :
    ∀ (n : Nat) (s : TState),
      (drainQueue env fuel n s).1.stubText = s.stubText ∧
      (drainQueue env fuel n s).1.classesSeen = s.classesSeen := by
  intro n
  induction n with
  | zero =>
      intro s
      simp only [drainQueue]
      split
      · exact ⟨rfl, rfl⟩
      · exact ⟨rfl, rfl⟩
  | succ n ih =>
      intro s
      simp only [drainQueue]
      rcases hql : s.generateQueue.getLast? with _ | cd
      · exact ⟨rfl, rfl⟩
      · suffices hsuf : (match processHeaderS env fuel cd
            { s with generateQueue := s.generateQueue.dropLast } with
          | (s1, some e) => (s1, some e)
          | (s1, none) => drainQueue env fuel n s1).1.stubText =
            s.stubText ∧
          (match processHeaderS env fuel cd
            { s with generateQueue := s.generateQueue.dropLast } with
          | (s1, some e) => (s1, some e)
          | (s1, none) => drainQueue env fuel n s1).1.classesSeen =
            s.classesSeen by
          exact hsuf
        have hsp := processHeaderS_stubPres env fuel cd
          { s with generateQueue := s.generateQueue.dropLast }
        rcases hph : processHeaderS env fuel cd
            { s with generateQueue := s.generateQueue.dropLast }
          with ⟨t1, e1⟩
        rw [hph] at hsp
        cases e1 with
        | some err => exact ⟨hsp.1, hsp.2.1⟩
        | none =>
            have h := ih t1
            exact ⟨h.1.trans hsp.1, h.2.trans hsp.2.1⟩

/-- The stub artifact of every completed run is the environment-determined
text: the fixed prelude, one block per requested class with native
methods, and the export map over the recorded class names. -/
theorem runDoppioh_stub (env : Env) (cfg : Config) (prior : Option String)
    (fuel : Nat) (r : TState)
    (hrun : runDoppioh env cfg prior fuel = .ok r) :
    r.stubText = fileStartText cfg.dpath ++ stubAll env cfg.requested ++
      ("\n// Export line. This is what DoppioJVM sees.\nregisterNatives(\x7b"
        ++ fileEndEntries (seenAll env cfg.requested) 0 ++ "\n\x7d);\n") := by
  unfold runDoppioh at hrun
  rcases ht : tsTemplateInit env fuel cfg prior with ⟨s1, e1⟩
  rw [ht] at hrun
  cases e1 with
  | some e => exact absurd hrun (by simp)
  | none =>
      replace hrun : (match processAll env fuel cfg.requested
          { s1 with stubText := s1.stubText ++ fileStartText cfg.dpath } with
        | (_, some e) => (Except.error e : Except DErr TState)
        | (s3, none) =>
          match drainQueue env fuel fuel (fileEnd s3) with
          | (_, some e) => Except.error e
          | (s5, none) =>
              Except.ok { s5 with headerText := s5.headerText ++
                "\x7d\nexport = JVMTypes;\n" }) = Except.ok r := hrun
      have hts : s1.stubText = "" ∧ s1.classesSeen = [] := by
        have h := tsTemplateInit_stub env fuel cfg prior
        rw [ht] at h
        exact h
      have hg1 : GInv env [] s1 := by
        have h := tsTemplateInit_opOK env fuel cfg prior
        rw [ht] at h
        exact h.2 [] (GInv_empty env)
      have hg2 : GInv env []
          { s1 with stubText := s1.stubText ++ fileStartText cfg.dpath } :=
        (opOK_of_facets env s1
          { s1 with stubText := s1.stubText ++ fileStartText cfg.dpath }
          rfl rfl rfl rfl rfl).2 [] hg1
      rcases hpa : processAll env fuel cfg.requested
          { s1 with stubText := s1.stubText ++ fileStartText cfg.dpath }
        with ⟨s3, e3⟩
      rw [hpa] at hrun
      cases e3 with
      | some e => exact absurd hrun (by simp)
      | none =>
          replace hrun : (match drainQueue env fuel fuel (fileEnd s3) with
            | (_, some e) => (Except.error e : Except DErr TState)
            | (s5, none) =>
                Except.ok { s5 with headerText := s5.headerText ++
                  "\x7d\nexport = JVMTypes;\n" }) = Except.ok r := hrun
          have hstub := processAll_stub env fuel cfg.requested
            { s1 with stubText := s1.stubText ++ fileStartText cfg.dpath }
            hg2 (by rw [hpa])
          rw [hpa] at hstub
          have hs3t : s3.stubText = fileStartText cfg.dpath ++
              stubAll env cfg.requested := by
            rw [hstub.1]
            show s1.stubText ++ fileStartText cfg.dpath ++
              stubAll env cfg.requested = _
            rw [hts.1]
            simp [strAppend_assoc]
          have hs3c : s3.classesSeen = seenAll env cfg.requested := by
            rw [hstub.2]
            show s1.classesSeen ++ seenAll env cfg.requested = _
            rw [hts.2]
            simp
          rcases hdq : drainQueue env fuel fuel (fileEnd s3) with ⟨s5, e5⟩
          rw [hdq] at hrun
          cases e5 with
          | some e => exact absurd hrun (by simp)
          | none =>
              replace hrun : Except.ok { s5 with headerText :=
                  s5.headerText ++ "\x7d\nexport = JVMTypes;\n" } =
                  Except.ok r := hrun
              injection hrun with hrun
              have hd := drainQueue_stub env fuel fuel (fileEnd s3)
              rw [hdq] at hd
              rw [← hrun]
              show s5.stubText = _
              rw [hd.1]
              show s3.stubText ++
                "\n// Export line. This is what DoppioJVM sees.\nregisterNatives(\x7b"
                  ++ fileEndEntries s3.classesSeen 0 ++ "\n\x7d);\n" = _
              rw [hs3t, hs3c]
              simp [strAppend_assoc]

/-- Claim C6 (amended): any two completed runs over the same environment
and configuration — whatever prior header artifact each replayed and
whatever their recursion budgets — produce byte-identical **stub**
artifacts.  The header artifact is not reproduced byte for byte when the
second run replays the first run's header (the declarations are emitted in
a different order, as the counterexample shows). -/
theorem C6_stub_idempotent (env : Env) (cfg : Config)
    (p1 p2 : Option String) (f1 f2 : Nat) (r1 r2 : TState)
    (h1 : runDoppioh env cfg p1 f1 = .ok r1)
    (h2 : runDoppioh env cfg p2 f2 = .ok r2) :
    r1.stubText = r2.stubText := by
  rw [runDoppioh_stub env cfg p1 f1 r1 h1,
    runDoppioh_stub env cfg p2 f2 r2 h2]

set_option maxRecDepth 20000 in
set_option maxHeartbeats 16000000 in
theorem C6_stub_idempotent_witness :
    isOkE run1C6 = true ∧ isOkE run2C6 = true ∧
    (runStateOf run1C6).stubText = (runStateOf run2C6).stubText :=
  ⟨by decide, by decide,
   C6_stub_idempotent envC5 cfgC5 none (some header1C6) 12 12
     (runStateOf run1C6) (runStateOf run2C6)
     (okE_eq _ (by decide)) (okE_eq _ (by decide))⟩

end Doppioh
